import Mathlib

set_option maxRecDepth 100000

/- Shallow embedding of the CTegra-Swizzle library (the C++ headers under
   src/tegra_swizzle/).  Machine integers (size_t) are modelled as Nat: all
   arithmetic in the library is on sizes and offsets and never relies on
   wrap-around.  Buffers of unsigned char are modelled as Array Nat; a
   std::vector element read `v[i]` is modelled as `Array.getD v i 0` and an
   element write `v[i] = b` as `Array.setD v i b` (out-of-range accesses are
   undefined behaviour in C++; the safety claim C10 shows the indices used
   are in bounds, where the two models agree).  C++ `for` loops over index
   ranges become List.foldl over explicit index lists. -/

-- lib.h ---------------------------------------------------------------------

def GOB_WIDTH_IN_BYTES : Nat := 64

def GOB_HEIGHT_IN_BYTES : Nat := 8

def GOB_SIZE_IN_BYTES : Nat := GOB_WIDTH_IN_BYTES * GOB_HEIGHT_IN_BYTES

/-- Errors that can occur while swizzling or deswizzling (lib.h). -/
inductive SwizzleError where
  | NotEnoughData
deriving DecidableEq

/-- The BlockHeight enum of lib.h is a tag for the values {1,2,4,8,16,32};
every use site casts it to size_t, so block heights are embedded as Nat
together with this validity predicate. -/
def validBlockHeight (v : Nat) : Prop :=
  v = 1 ∨ v = 2 ∨ v = 4 ∨ v = 8 ∨ v = 16 ∨ v = 32

instance (v : Nat) : Decidable (validBlockHeight v) := by
  unfold validBlockHeight; infer_instance

/-- div_round_up from lib.h. -/
def div_round_up (x d : Nat) : Nat := (x + d - 1) / d

/-- round_up from lib.h. -/
def round_up (x n : Nat) : Nat := (x + n - 1) / n * n

/-- width_in_gobs from lib.h. -/
def width_in_gobs (width bytes_per_pixel : Nat) : Nat :=
  div_round_up (width * bytes_per_pixel) GOB_WIDTH_IN_BYTES

/-- height_in_blocks from lib.h. -/
def height_in_blocks (height block_height : Nat) : Nat :=
  div_round_up height (block_height * GOB_HEIGHT_IN_BYTES)

-- blockheight.h -------------------------------------------------------------

/-- block_height_mip0 from blockheight.h (result as the numeric value of the
returned BlockHeight). -/
def block_height_mip0 (height : Nat) : Nat :=
  let height_and_half := height + height / 2
  if height_and_half ≥ 128 then 16
  else if height_and_half ≥ 64 then 8
  else if height_and_half ≥ 32 then 4
  else if height_and_half ≥ 16 then 2
  else 1

/-- mip_block_height from blockheight.h; the C++ while loop becomes a
recursion on the strictly decreasing block_height. -/
def mip_block_height (mip_height : Nat) (block_height : Nat) : Nat :=
  if h : mip_height ≤ block_height / 2 * 8 ∧ block_height > 1 then
    mip_block_height mip_height (block_height / 2)
  else
    block_height
termination_by block_height
decreasing_by omega

-- blockdepth.h --------------------------------------------------------------

/-- block_depth from blockdepth.h. -/
def block_depth (depth : Nat) : Nat :=
  let depth_and_half := depth + depth / 2
  if depth_and_half ≥ 16 then 16
  else if depth_and_half ≥ 8 then 8
  else if depth_and_half ≥ 4 then 4
  else if depth_and_half ≥ 2 then 2
  else 1

/-- mip_block_depth from blockdepth.h; the while loop becomes a recursion on
gob_depth. -/
def mip_block_depth (mip_depth : Nat) (gob_depth : Nat) : Nat :=
  if h : mip_depth ≤ gob_depth / 2 ∧ gob_depth > 1 then
    mip_block_depth mip_depth (gob_depth / 2)
  else
    gob_depth
termination_by gob_depth
decreasing_by omega

-- arrays.h ------------------------------------------------------------------

/-- align_layer_size from arrays.h.  gob_blocks_in_tile_x is the constant 1
in the source, so only the first branch is live.  The two while loops are
exactly the loops of mip_block_height and mip_block_depth, so the embedding
reuses those recursions. -/
def align_layer_size
    (layer_size height depth block_height_mip0 depth_in_gobs : Nat) : Nat :=
  let size := layer_size
  let gob_height := mip_block_height height block_height_mip0
  let gob_depth := mip_block_depth depth depth_in_gobs
  let block_of_gobs_size := gob_height * gob_depth * GOB_SIZE_IN_BYTES
  let size_in_block_of_gobs := size / block_of_gobs_size
  if size ≠ size_in_block_of_gobs * block_of_gobs_size then
    (size_in_block_of_gobs + 1) * block_of_gobs_size
  else
    size

-- swizzle.h: address arithmetic ---------------------------------------------

/-- slice_size from swizzle.h. -/
def slice_size (block_height block_depth width_in_gobs height : Nat) : Nat :=
  let rob_size := GOB_SIZE_IN_BYTES * block_height * block_depth * width_in_gobs
  div_round_up height (block_height * GOB_HEIGHT_IN_BYTES) * rob_size

/-- gob_address_z from swizzle.h; `z & (block_depth - 1)` is Nat bitwise and. -/
def gob_address_z (z block_height block_depth slice_size : Nat) : Nat :=
  z / block_depth * slice_size +
    (z &&& (block_depth - 1)) * GOB_SIZE_IN_BYTES * block_height

/-- gob_address_y from swizzle.h. -/
def gob_address_y
    (y block_height_in_bytes block_size_in_bytes image_width_in_gobs : Nat) :
    Nat :=
  let block_y := y / block_height_in_bytes
  let block_inner_row := y % block_height_in_bytes / GOB_HEIGHT_IN_BYTES
  block_y * block_size_in_bytes * image_width_in_gobs +
    block_inner_row * GOB_SIZE_IN_BYTES

/-- gob_address_x from swizzle.h. -/
def gob_address_x (x block_size_in_bytes : Nat) : Nat :=
  x / GOB_WIDTH_IN_BYTES * block_size_in_bytes

/-- gob_offset from swizzle.h. -/
def gob_offset (x y : Nat) : Nat :=
  x % 64 / 32 * 256 + y % 8 / 2 * 64 + x % 32 / 16 * 32 + y % 2 * 16 + x % 16

/-- GOB_ROW_OFFSETS from swizzle.h. -/
def GOB_ROW_OFFSETS : List Nat := [0, 16, 64, 80, 128, 144, 192, 208]

-- swizzle.h: sizes ----------------------------------------------------------

/-- swizzled_mip_size from swizzle.h (block_height already as Nat). -/
def swizzled_mip_size
    (width height depth block_height bytes_per_pixel : Nat) : Nat :=
  let _width_in_gobs := width_in_gobs width bytes_per_pixel
  let _height_in_blocks := height_in_blocks height block_height
  let height_in_gobs := _height_in_blocks * block_height
  let depth_in_gobs := round_up depth (block_depth depth)
  let num_gobs := _width_in_gobs * height_in_gobs * depth_in_gobs
  num_gobs * GOB_SIZE_IN_BYTES

/-- deswizzled_mip_size from swizzle.h. -/
def deswizzled_mip_size (width height depth bytes_per_pixel : Nat) : Nat :=
  width * height * depth * bytes_per_pixel

-- swizzle.h: GOB copy primitives --------------------------------------------

/-- Byte-for-byte model of `std::copy(src + src_offset, src + src_offset + n,
dst + dst_offset)`. -/
def copy_bytes (n : Nat) (dst : Array Nat) (dst_offset : Nat)
    (src : Array Nat) (src_offset : Nat) : Array Nat :=
  (List.range n).foldl
    (fun d i => d.setD (dst_offset + i) (src.getD (src_offset + i) 0)) dst

/-- deswizzle_gob_row from swizzle.h: four 16-byte copies. -/
def deswizzle_gob_row (dst : Array Nat) (dst_offset : Nat)
    (src : Array Nat) (src_offset : Nat) : Array Nat :=
  let dst := copy_bytes 16 dst (dst_offset + 48) src (src_offset + 288)
  let dst := copy_bytes 16 dst (dst_offset + 32) src (src_offset + 256)
  let dst := copy_bytes 16 dst (dst_offset + 16) src (src_offset + 32)
  copy_bytes 16 dst dst_offset src src_offset

/-- swizzle_gob_row from swizzle.h: the same four copies with the addresses
swapped. -/
def swizzle_gob_row (dst : Array Nat) (dst_offset : Nat)
    (src : Array Nat) (src_offset : Nat) : Array Nat :=
  let dst := copy_bytes 16 dst (dst_offset + 288) src (src_offset + 48)
  let dst := copy_bytes 16 dst (dst_offset + 256) src (src_offset + 32)
  let dst := copy_bytes 16 dst (dst_offset + 32) src (src_offset + 16)
  copy_bytes 16 dst dst_offset src src_offset

/-- deswizzle_complete_gob from swizzle.h; the C++ version receives the two
base addresses as offset pointers, embedded here as explicit base offsets. -/
def deswizzle_complete_gob (dst : Array Nat) (dst_base : Nat)
    (src : Array Nat) (src_base : Nat) (row_size_in_bytes : Nat) : Array Nat :=
  (List.range 8).foldl
    (fun d i =>
      deswizzle_gob_row d (dst_base + row_size_in_bytes * i)
        src (src_base + GOB_ROW_OFFSETS.getD i 0)) dst

/-- swizzle_complete_gob from swizzle.h. -/
def swizzle_complete_gob (dst : Array Nat) (dst_base : Nat)
    (src : Array Nat) (src_base : Nat) (row_size_in_bytes : Nat) : Array Nat :=
  (List.range 8).foldl
    (fun d i =>
      swizzle_gob_row d (dst_base + GOB_ROW_OFFSETS.getD i 0)
        src (src_base + row_size_in_bytes * i)) dst

/-- swizzle_deswizzle_gob from swizzle.h (the template parameter DESWIZZLE
becomes a Bool argument). -/
def swizzle_deswizzle_gob (DESWIZZLE : Bool)
    (destination source : Array Nat)
    (x0 y0 z0 width height bytes_per_pixel gob_address : Nat) : Array Nat :=
  (List.range GOB_HEIGHT_IN_BYTES).foldl (fun dest y =>
    (List.range GOB_WIDTH_IN_BYTES).foldl (fun dest x =>
      if y0 + y < height ∧ x0 + x < width * bytes_per_pixel then
        let swizzled_offset := gob_address + gob_offset x y
        let linear_offset := z0 * width * height * bytes_per_pixel
            + (y0 + y) * width * bytes_per_pixel + x0 + x
        if DESWIZZLE then dest.setD linear_offset (source.getD swizzled_offset 0)
        else dest.setD swizzled_offset (source.getD linear_offset 0)
      else dest) dest) destination

/-- Index list of the C++ loop `for (i = 0; i < bound; i += step)`. -/
def step_range (bound step : Nat) : List Nat :=
  (List.range (div_round_up bound step)).map (· * step)

/-- swizzle_inner from swizzle.h.  The three nested `for` loops become folds
over their index lists. -/
def swizzle_inner (DESWIZZLE : Bool) (width height depth : Nat)
    (source destination : Array Nat)
    (block_height block_depth bytes_per_pixel : Nat) : Array Nat :=
  let _width_in_gobs := width_in_gobs width bytes_per_pixel
  let _slice_size := slice_size block_height block_depth _width_in_gobs height
  let block_width := 1
  let block_size_in_bytes :=
    GOB_SIZE_IN_BYTES * block_width * block_height * block_depth
  let block_height_in_bytes := GOB_HEIGHT_IN_BYTES * block_height
  (List.range depth).foldl (fun dest z0 =>
    let offset_z := gob_address_z z0 block_height block_depth _slice_size
    (step_range height GOB_HEIGHT_IN_BYTES).foldl (fun dest y0 =>
      let offset_y :=
        gob_address_y y0 block_height_in_bytes block_size_in_bytes _width_in_gobs
      (step_range (width * bytes_per_pixel) GOB_WIDTH_IN_BYTES).foldl (fun dest x0 =>
        let offset_x := gob_address_x x0 block_size_in_bytes
        let gob_address := offset_z + offset_y + offset_x
        if x0 + GOB_WIDTH_IN_BYTES < width * bytes_per_pixel
            ∧ y0 + GOB_HEIGHT_IN_BYTES < height then
          let linear_offset := z0 * width * height * bytes_per_pixel
              + y0 * width * bytes_per_pixel + x0
          if DESWIZZLE then
            deswizzle_complete_gob dest linear_offset source gob_address
              (width * bytes_per_pixel)
          else
            swizzle_complete_gob dest gob_address source linear_offset
              (width * bytes_per_pixel)
        else
          swizzle_deswizzle_gob DESWIZZLE dest source x0 y0 z0 width height
            bytes_per_pixel gob_address) dest) dest) destination

/-- Variant of swizzle_inner in which every GOB is dispatched to the slow
per-byte primitive swizzle_deswizzle_gob (the fast complete-GOB branch is
removed); used to state the C3 fast/slow equivalence. -/
def swizzle_inner_slow (DESWIZZLE : Bool) (width height depth : Nat)
    (source destination : Array Nat)
    (block_height block_depth bytes_per_pixel : Nat) : Array Nat :=
  let _width_in_gobs := width_in_gobs width bytes_per_pixel
  let _slice_size := slice_size block_height block_depth _width_in_gobs height
  let block_width := 1
  let block_size_in_bytes :=
    GOB_SIZE_IN_BYTES * block_width * block_height * block_depth
  let block_height_in_bytes := GOB_HEIGHT_IN_BYTES * block_height
  (List.range depth).foldl (fun dest z0 =>
    let offset_z := gob_address_z z0 block_height block_depth _slice_size
    (step_range height GOB_HEIGHT_IN_BYTES).foldl (fun dest y0 =>
      let offset_y :=
        gob_address_y y0 block_height_in_bytes block_size_in_bytes _width_in_gobs
      (step_range (width * bytes_per_pixel) GOB_WIDTH_IN_BYTES).foldl (fun dest x0 =>
        let offset_x := gob_address_x x0 block_size_in_bytes
        let gob_address := offset_z + offset_y + offset_x
        swizzle_deswizzle_gob DESWIZZLE dest source x0 y0 z0 width height
          bytes_per_pixel gob_address) dest) dest) destination

-- swizzle.h: single-mip entry points ----------------------------------------

/-- swizzle_block_linear from swizzle.h.  The C++ code allocates the zeroed
destination, throws NotEnoughData if the source is short, then runs
swizzle_inner. -/
def swizzle_block_linear (width height depth : Nat) (source : Array Nat)
    (block_height bytes_per_pixel : Nat) : Except SwizzleError (Array Nat) :=
  let destination :=
    Array.mkArray (swizzled_mip_size width height depth block_height bytes_per_pixel) 0
  let expected_size := deswizzled_mip_size width height depth bytes_per_pixel
  if source.size < expected_size then .error .NotEnoughData
  else
    let _block_depth := block_depth depth
    .ok (swizzle_inner false width height depth source destination
      block_height _block_depth bytes_per_pixel)

/-- deswizzle_block_linear from swizzle.h. -/
def deswizzle_block_linear (width height depth : Nat) (source : Array Nat)
    (block_height bytes_per_pixel : Nat) : Except SwizzleError (Array Nat) :=
  let destination :=
    Array.mkArray (deswizzled_mip_size width height depth bytes_per_pixel) 0
  let expected_size := swizzled_mip_size width height depth block_height bytes_per_pixel
  if source.size < expected_size then .error .NotEnoughData
  else
    let _block_depth := block_depth depth
    .ok (swizzle_inner true width height depth source destination
      block_height _block_depth bytes_per_pixel)

-- surface.h -----------------------------------------------------------------

/-- BlockDim from surface.h. -/
structure BlockDim where
  width : Nat
  height : Nat
  depth : Nat

/-- block_dim_uncompressed from surface.h. -/
def block_dim_uncompressed : BlockDim := ⟨1, 1, 1⟩

/-- block_dim_4x4 from surface.h. -/
def block_dim_4x4 : BlockDim := ⟨4, 4, 1⟩

/-- The mip 0 block height selection expression appearing identically at
surface.h:91 (swizzled_surface_size) and surface.h:269 (swizzle_surface_inner):
`(depth == 1) ? _block_height_mip0.value_or(block_height_mip0(div_round_up(height, block_height))) : BlockHeight::One`. -/
def surface_block_height_mip0 (depth : Nat) (_block_height_mip0 : Option Nat)
    (height block_height : Nat) : Nat :=
  if depth = 1 then
    _block_height_mip0.getD (block_height_mip0 (div_round_up height block_height))
  else 1

/-- swizzled_surface_size from surface.h. -/
def swizzled_surface_size (width height depth : Nat) (block_dim : BlockDim)
    (_block_height_mip0 : Option Nat)
    (bytes_per_pixel mipmap_count layer_count : Nat) : Nat :=
  let block_width := block_dim.width
  let block_height := block_dim.height
  let __block_height_mip0 :=
    surface_block_height_mip0 depth _block_height_mip0 height block_height
  let mip_size := (List.range mipmap_count).foldl (fun mip_size mip =>
    let mip_width := max (div_round_up (width >>> mip) block_width) 1
    let mip_height := max (div_round_up (height >>> mip) block_height) 1
    let mip_depth := max (div_round_up (depth >>> mip) block_dim.depth) 1
    let _mip_block_height := mip_block_height mip_height __block_height_mip0
    mip_size + swizzled_mip_size mip_width mip_height mip_depth
      _mip_block_height bytes_per_pixel) 0
  if layer_count > 1 then
    align_layer_size mip_size height depth __block_height_mip0 1 * layer_count
  else
    mip_size

/-- deswizzled_surface_size from surface.h. -/
def deswizzled_surface_size (width height depth : Nat) (block_dim : BlockDim)
    (bytes_per_pixel mipmap_count layer_count : Nat) : Nat :=
  let block_width := block_dim.width
  let block_height := block_dim.height
  let block_depth := block_dim.depth
  let layer_size := (List.range mipmap_count).foldl (fun layer_size mip =>
    let mip_width := max (div_round_up (width >>> mip) block_width) 1
    let mip_height := max (div_round_up (height >>> mip) block_height) 1
    let mip_depth := max (div_round_up (depth >>> mip) block_depth) 1
    layer_size +
      deswizzled_mip_size mip_width mip_height mip_depth bytes_per_pixel) 0
  layer_size * layer_count

/-- surface_destination from surface.h: validate the source length, then
produce the zero-initialised result buffer. -/
def surface_destination (DESWIZZLE : Bool) (width height depth : Nat)
    (block_dim : BlockDim) (_block_height_mip0 : Option Nat)
    (bytes_per_pixel mipmap_count layer_count : Nat)
    (source : Array Nat) : Except SwizzleError (Array Nat) :=
  let swizzled_size := swizzled_surface_size width height depth block_dim
    _block_height_mip0 bytes_per_pixel mipmap_count layer_count
  let deswizzled_size := deswizzled_surface_size width height depth block_dim
    bytes_per_pixel mipmap_count layer_count
  let surface_size := if DESWIZZLE then deswizzled_size else swizzled_size
  let expected_size := if DESWIZZLE then swizzled_size else deswizzled_size
  if source.size < expected_size then .error .NotEnoughData
  else .ok (Array.mkArray surface_size 0)

/-- swizzle_mipmap from surface.h.  The C++ version mutates src_offset,
dst_offset and dst through references; the embedding returns the updated
(dst, src_offset, dst_offset).  part_of_source and part_of_dst are the
suffix copies the source takes, and the final loop copies part_of_dst back. -/
def swizzle_mipmap (DESWIZZLE : Bool)
    (width height depth block_height block_depth bytes_per_pixel : Nat)
    (source : Array Nat) (src_offset : Nat)
    (dst : Array Nat) (dst_offset : Nat) :
    Except SwizzleError (Array Nat × Nat × Nat) :=
  let swizzled_size :=
    swizzled_mip_size width height depth block_height bytes_per_pixel
  let deswizzled_size := deswizzled_mip_size width height depth bytes_per_pixel
  if DESWIZZLE ∧ source.size < src_offset + swizzled_size then
    .error .NotEnoughData
  else if ¬DESWIZZLE ∧ source.size < src_offset + deswizzled_size then
    .error .NotEnoughData
  else
    let part_of_source := source.extract src_offset source.size
    let part_of_dst := dst.extract dst_offset dst.size
    let part_of_dst := swizzle_inner DESWIZZLE width height depth
      part_of_source part_of_dst block_height block_depth bytes_per_pixel
    let dst := (List.range part_of_dst.size).foldl
      (fun d i => d.setD (i + dst_offset) (part_of_dst.getD i 0)) dst
    if DESWIZZLE then
      .ok (dst, src_offset + swizzled_size, dst_offset + deswizzled_size)
    else
      .ok (dst, src_offset + deswizzled_size, dst_offset + swizzled_size)

/-- swizzle_surface_inner from surface.h. -/
def swizzle_surface_inner (DESWIZZLE : Bool) (width height depth : Nat)
    (source result : Array Nat) (block_dim : BlockDim)
    (_block_height_mip0 : Option Nat)
    (bytes_per_pixel mipmap_count layer_count : Nat) :
    Except SwizzleError (Array Nat) := do
  let block_width := block_dim.width
  let block_height := block_dim.height
  let _block_depth := block_dim.depth
  let __block_height_mip0 :=
    surface_block_height_mip0 depth _block_height_mip0 height block_height
  let block_depth_mip0 := block_depth depth
  let st ← (List.range layer_count).foldlM
    (fun (st : Array Nat × Nat × Nat) _i => do
      let st ← (List.range mipmap_count).foldlM
        (fun (st : Array Nat × Nat × Nat) mip => do
          let (result, src_offset, dst_offset) := st
          let mip_width := max (div_round_up (width >>> mip) block_width) 1
          let mip_height := max (div_round_up (height >>> mip) block_height) 1
          let mip_depth := max (div_round_up (depth >>> mip) _block_depth) 1
          let _mip_block_height := mip_block_height mip_height __block_height_mip0
          let _mip_block_depth := mip_block_depth mip_depth block_depth_mip0
          swizzle_mipmap DESWIZZLE mip_width mip_height mip_depth
            _mip_block_height _mip_block_depth bytes_per_pixel
            source src_offset result dst_offset) st
      let (result, src_offset, dst_offset) := st
      if layer_count > 1 then
        if DESWIZZLE then
          pure (result,
            align_layer_size src_offset height depth __block_height_mip0 1,
            dst_offset)
        else
          pure (result, src_offset,
            align_layer_size dst_offset height depth __block_height_mip0 1)
      else
        pure (result, src_offset, dst_offset)) (result, 0, 0)
  pure st.1

/-- swizzle_surface from surface.h. -/
def swizzle_surface (width height depth : Nat) (source : Array Nat)
    (block_dim : BlockDim) (_block_height_mip0 : Option Nat)
    (bytes_per_pixel mipmap_count layer_count : Nat) :
    Except SwizzleError (Array Nat) := do
  let result ← surface_destination false width height depth block_dim
    _block_height_mip0 bytes_per_pixel mipmap_count layer_count source
  swizzle_surface_inner false width height depth source result block_dim
    _block_height_mip0 bytes_per_pixel mipmap_count layer_count

/-- deswizzle_surface from surface.h. -/
def deswizzle_surface (width height depth : Nat) (source : Array Nat)
    (block_dim : BlockDim) (_block_height_mip0 : Option Nat)
    (bytes_per_pixel mipmap_count layer_count : Nat) :
    Except SwizzleError (Array Nat) := do
  let result ← surface_destination true width height depth block_dim
    _block_height_mip0 bytes_per_pixel mipmap_count layer_count source
  swizzle_surface_inner true width height depth source result block_dim
    _block_height_mip0 bytes_per_pixel mipmap_count layer_count

-- Proof infrastructure: write lists and address maps ------------------------

/-- Apply a list of (index, value) writes to an array, left to right. -/
def writes (a : Array Nat) (l : List (Nat × Nat)) : Array Nat :=
  l.foldl (fun a p => a.setD p.1 p.2) a

/-- All (y, x) byte positions of one GOB in the iteration order of
swizzle_deswizzle_gob. -/
def gob_positions : List (Nat × Nat) :=
  (List.range GOB_HEIGHT_IN_BYTES).flatMap fun y =>
    (List.range GOB_WIDTH_IN_BYTES).map fun x => (y, x)

/-- The (index, value) pair written by swizzle_deswizzle_gob for byte (y, x)
of the GOB at (x0, y0, z0). -/
def gob_write (DESWIZZLE : Bool) (source : Array Nat)
    (x0 y0 z0 width height bytes_per_pixel gob_address : Nat)
    (p : Nat × Nat) : Nat × Nat :=
  let swizzled_offset := gob_address + gob_offset p.2 p.1
  let linear_offset := z0 * width * height * bytes_per_pixel
      + (y0 + p.1) * width * bytes_per_pixel + x0 + p.2
  if DESWIZZLE then (linear_offset, source.getD swizzled_offset 0)
  else (swizzled_offset, source.getD linear_offset 0)

/-- The write list produced by one swizzle_deswizzle_gob call. -/
def gob_write_list (DESWIZZLE : Bool) (source : Array Nat)
    (x0 y0 z0 width height bytes_per_pixel gob_address : Nat) :
    List (Nat × Nat) :=
  (gob_positions.filter fun p =>
      decide (y0 + p.1 < height ∧ x0 + p.2 < width * bytes_per_pixel)).map
    (gob_write DESWIZZLE source x0 y0 z0 width height bytes_per_pixel gob_address)

/-- The (z0, y0, x0) GOB origins traversed by swizzle_inner. -/
def mip_gobs (width height depth bytes_per_pixel : Nat) :
    List (Nat × Nat × Nat) :=
  (List.range depth).flatMap fun z0 =>
    (step_range height GOB_HEIGHT_IN_BYTES).flatMap fun y0 =>
      (step_range (width * bytes_per_pixel) GOB_WIDTH_IN_BYTES).map fun x0 =>
        (z0, y0, x0)

/-- The gob_address swizzle_inner computes for the GOB at (z0, y0, x0). -/
def mip_gob_address
    (width height block_height block_depth bytes_per_pixel z0 y0 x0 : Nat) :
    Nat :=
  let _width_in_gobs := width_in_gobs width bytes_per_pixel
  let _slice_size := slice_size block_height block_depth _width_in_gobs height
  let block_size_in_bytes := GOB_SIZE_IN_BYTES * 1 * block_height * block_depth
  let block_height_in_bytes := GOB_HEIGHT_IN_BYTES * block_height
  gob_address_z z0 block_height block_depth _slice_size
    + gob_address_y y0 block_height_in_bytes block_size_in_bytes _width_in_gobs
    + gob_address_x x0 block_size_in_bytes

/-- The swizzled address of image byte (X, Y, Z) of a mip level. -/
def swizzled_address
    (width height block_height block_depth bytes_per_pixel X Y Z : Nat) : Nat :=
  mip_gob_address width height block_height block_depth bytes_per_pixel
      Z (Y / 8 * 8) (X / 64 * 64)
    + gob_offset (X % 64) (Y % 8)

/-- The linear (row-major) address of image byte (X, Y, Z) of a mip level;
X is already in bytes. -/
def linear_address (width height bytes_per_pixel X Y Z : Nat) : Nat :=
  Z * width * height * bytes_per_pixel + Y * width * bytes_per_pixel + X

/-- All loop positions ((z0, y0, x0), (y, x)) at which swizzle_inner moves a
byte. -/
def mip_loop_positions (width height depth bytes_per_pixel : Nat) :
    List ((Nat × Nat × Nat) × (Nat × Nat)) :=
  (mip_gobs width height depth bytes_per_pixel).flatMap fun g =>
    (gob_positions.filter fun p =>
        decide (g.2.1 + p.1 < height ∧ g.2.2 + p.2 < width * bytes_per_pixel)).map
      fun p => (g, p)

/-- The image byte coordinates (X, Y, Z) of a loop position. -/
def loop_pos_XYZ (q : (Nat × Nat × Nat) × (Nat × Nat)) : Nat × Nat × Nat :=
  (q.1.2.2 + q.2.2, q.1.2.1 + q.2.1, q.1.1)

/-- The full write list of one swizzle_inner call. -/
def mip_write_list (DESWIZZLE : Bool) (width height depth : Nat)
    (source : Array Nat) (block_height block_depth bytes_per_pixel : Nat) :
    List (Nat × Nat) :=
  (mip_gobs width height depth bytes_per_pixel).flatMap fun g =>
    gob_write_list DESWIZZLE source g.2.2 g.2.1 g.1 width height bytes_per_pixel
      (mip_gob_address width height block_height block_depth bytes_per_pixel
        g.1 g.2.1 g.2.2)

-- Proof infrastructure: per-mip dimensions and surface offsets --------------

/-- Width of mip level `mip` as computed by the surface driver. -/
def mipWidth (width : Nat) (block_dim : BlockDim) (mip : Nat) : Nat :=
  max (div_round_up (width >>> mip) block_dim.width) 1

/-- Height of mip level `mip` as computed by the surface driver. -/
def mipHeight (height : Nat) (block_dim : BlockDim) (mip : Nat) : Nat :=
  max (div_round_up (height >>> mip) block_dim.height) 1

/-- Depth of mip level `mip` as computed by the surface driver. -/
def mipDepth (depth : Nat) (block_dim : BlockDim) (mip : Nat) : Nat :=
  max (div_round_up (depth >>> mip) block_dim.depth) 1

/-- Linear (deswizzled) size of mip level `mip`. -/
def mipLinSize (width height depth : Nat) (block_dim : BlockDim)
    (bytes_per_pixel mip : Nat) : Nat :=
  deswizzled_mip_size (mipWidth width block_dim mip)
    (mipHeight height block_dim mip) (mipDepth depth block_dim mip)
    bytes_per_pixel

/-- Swizzled size of mip level `mip` for a given mip0 block height. -/
def mipSwzSize (width height depth : Nat) (block_dim : BlockDim)
    (bh0 bytes_per_pixel mip : Nat) : Nat :=
  swizzled_mip_size (mipWidth width block_dim mip)
    (mipHeight height block_dim mip) (mipDepth depth block_dim mip)
    (mip_block_height (mipHeight height block_dim mip) bh0) bytes_per_pixel

/-- Sum of the linear sizes of mips 0 .. count-1. -/
def linSizeSum (width height depth : Nat) (block_dim : BlockDim)
    (bytes_per_pixel count : Nat) : Nat :=
  ((List.range count).map
    (mipLinSize width height depth block_dim bytes_per_pixel)).sum

/-- Sum of the swizzled sizes of mips 0 .. count-1. -/
def swzSizeSum (width height depth : Nat) (block_dim : BlockDim)
    (bh0 bytes_per_pixel count : Nat) : Nat :=
  ((List.range count).map
    (mipSwzSize width height depth block_dim bh0 bytes_per_pixel)).sum

/-- Aligned swizzled size of one full layer. -/
def alignedLayerSwzSize (width height depth : Nat) (block_dim : BlockDim)
    (bh0 bytes_per_pixel mipmap_count : Nat) : Nat :=
  align_layer_size
    (swzSizeSum width height depth block_dim bh0 bytes_per_pixel mipmap_count)
    height depth bh0 1

/-- Linear offset of mip `m` of layer `i` inside the deswizzled surface. -/
def surfaceLinOffset (width height depth : Nat) (block_dim : BlockDim)
    (bytes_per_pixel mipmap_count i m : Nat) : Nat :=
  i * linSizeSum width height depth block_dim bytes_per_pixel mipmap_count
    + linSizeSum width height depth block_dim bytes_per_pixel m

/-- Swizzled offset of mip `m` of layer `i` inside the swizzled surface. -/
def surfaceSwzOffset (width height depth : Nat) (block_dim : BlockDim)
    (bh0 bytes_per_pixel mipmap_count i m : Nat) : Nat :=
  i * alignedLayerSwzSize width height depth block_dim bh0 bytes_per_pixel
        mipmap_count
    + swzSizeSum width height depth block_dim bh0 bytes_per_pixel m

-- Proof infrastructure: fast-path GOB order and gob_offset inverse ----------

/-- The (y, x) byte positions of one GOB in the order the fast complete-GOB
primitives copy them: row by row, each row as the four 16-byte runs starting
at x = 48, 32, 16, 0. -/
def gob_positions_fast : List (Nat × Nat) :=
  (List.range 8).flatMap fun i =>
    ((List.range 16).map fun k => (i, 48 + k))
      ++ ((List.range 16).map fun k => (i, 32 + k))
      ++ ((List.range 16).map fun k => (i, 16 + k))
      ++ ((List.range 16).map fun k => (i, k))

/-- Inverse of gob_offset on [0, 512): recovers (x, y) from the offset. -/
def gob_offset_inv (o : Nat) : Nat × Nat :=
  (o % 16 + o / 32 % 2 * 16 + o / 256 % 2 * 32, o / 16 % 2 + o / 64 % 4 * 2)

/-- Shift every write index of a list by a fixed offset. -/
def shift_writes (off : Nat) (l : List (Nat × Nat)) : List (Nat × Nat) :=
  l.map fun p => (off + p.1, p.2)

/-- The write list of mip m of layer i of a surface operation. -/
def surface_mip_writes (D : Bool) (width height depth : Nat) (bdim : BlockDim)
    (bh0 bpp mc : Nat) (source : Array Nat) (i m : Nat) : List (Nat × Nat) :=
  let srcOff := if D then surfaceSwzOffset width height depth bdim bh0 bpp mc i m
    else surfaceLinOffset width height depth bdim bpp mc i m
  let dstOff := if D then surfaceLinOffset width height depth bdim bpp mc i m
    else surfaceSwzOffset width height depth bdim bh0 bpp mc i m
  shift_writes dstOff
    (mip_write_list D (mipWidth width bdim m) (mipHeight height bdim m)
      (mipDepth depth bdim m) (source.extract srcOff source.size)
      (mip_block_height (mipHeight height bdim m) bh0)
      (mip_block_depth (mipDepth depth bdim m) (block_depth depth)) bpp)

/-- The full write list of a surface operation. -/
def surface_writes (D : Bool) (width height depth : Nat) (bdim : BlockDim)
    (bh0 bpp mc lc : Nat) (source : Array Nat) : List (Nat × Nat) :=
  (List.range lc).flatMap fun i =>
    (List.range mc).flatMap fun m =>
      surface_mip_writes D width height depth bdim bh0 bpp mc source i m

/-- The body of the per-mip foldlM inside swizzle_surface_inner, as a named
function (bh0 and bd0 are the precomputed mip0 block height and depth in
GOBs). -/
def surface_mip_step (D : Bool) (width height depth : Nat) (bdim : BlockDim)
    (bh0 bd0 bpp : Nat) (source : Array Nat)
    (st : Array Nat × Nat × Nat) (mip : Nat) :
    Except SwizzleError (Array Nat × Nat × Nat) :=
  let (result, src_offset, dst_offset) := st
  swizzle_mipmap D (mipWidth width bdim mip) (mipHeight height bdim mip)
    (mipDepth depth bdim mip)
    (mip_block_height (mipHeight height bdim mip) bh0)
    (mip_block_depth (mipDepth depth bdim mip) bd0) bpp
    source src_offset result dst_offset

/-- The body of the per-layer foldlM inside swizzle_surface_inner. -/
def surface_layer_step (D : Bool) (width height depth : Nat) (bdim : BlockDim)
    (bh0 bd0 bpp mipmap_count layer_count : Nat) (source : Array Nat)
    (st : Array Nat × Nat × Nat) (_i : Nat) :
    Except SwizzleError (Array Nat × Nat × Nat) := do
  let st ← (List.range mipmap_count).foldlM
    (surface_mip_step D width height depth bdim bh0 bd0 bpp source) st
  let (result, src_offset, dst_offset) := st
  if layer_count > 1 then
    if D then
      pure (result, align_layer_size src_offset height depth bh0 1, dst_offset)
    else
      pure (result, src_offset, align_layer_size dst_offset height depth bh0 1)
  else
    pure (result, src_offset, dst_offset)

-- Spec-mirror definition for claim C2 ---------------------------------------

/-- Mirror of the C2 claim text (NOT of the code): a caller-supplied mip0
block height is used for every depth; only when it is absent is it inferred
via block_height_mip0 for depth 1, or forced to 1 for depth > 1. -/
def surface_block_height_mip0_as_claimed (depth : Nat) (sup : Option Nat)
    (height block_height : Nat) : Nat :=
  match sup with
  | some v => v
  | none =>
      if depth = 1 then block_height_mip0 (div_round_up height block_height)
      else 1

-- Basic facts about the block height and block depth loops ------------------

theorem mip_block_height_le (mip_height : Nat) :
    ∀ block_height : Nat,
      mip_block_height mip_height block_height ≤ block_height := by
  intro bh
  induction bh using Nat.strong_induction_on with
  | _ bh ih =>
    rw [mip_block_height]
    split
    · rename_i h
      exact le_trans (ih (bh / 2) (by omega)) (by omega)
    · exact le_refl _

theorem mip_block_height_pos (mip_height : Nat) :
    ∀ block_height : Nat, 0 < block_height →
      0 < mip_block_height mip_height block_height := by
  intro bh
  induction bh using Nat.strong_induction_on with
  | _ bh ih =>
    intro hpos
    rw [mip_block_height]
    split
    · rename_i h
      exact ih (bh / 2) (by omega) (by omega)
    · exact hpos

theorem mip_block_height_eq_one (mip_height : Nat) (hm : mip_height ≤ 8) :
    ∀ block_height : Nat, 0 < block_height →
      mip_block_height mip_height block_height = 1 := by
  intro bh
  induction bh using Nat.strong_induction_on with
  | _ bh ih =>
    intro hpos
    rw [mip_block_height]
    split
    · rename_i h
      exact ih (bh / 2) (by omega) (by omega)
    · rename_i h
      omega

theorem mip_block_depth_le (mip_depth : Nat) :
    ∀ gob_depth : Nat, mip_block_depth mip_depth gob_depth ≤ gob_depth := by
  intro gd
  induction gd using Nat.strong_induction_on with
  | _ gd ih =>
    rw [mip_block_depth]
    split
    · rename_i h
      exact le_trans (ih (gd / 2) (by omega)) (by omega)
    · exact le_refl _

theorem mip_block_depth_pos (mip_depth : Nat) :
    ∀ gob_depth : Nat, 0 < gob_depth →
      0 < mip_block_depth mip_depth gob_depth := by
  intro gd
  induction gd using Nat.strong_induction_on with
  | _ gd ih =>
    intro hpos
    rw [mip_block_depth]
    split
    · rename_i h
      exact ih (gd / 2) (by omega) (by omega)
    · exact hpos

theorem block_height_mip0_pos (height : Nat) : 0 < block_height_mip0 height := by
  unfold block_height_mip0
  dsimp only
  repeat' split
  all_goals omega

theorem block_depth_pos (depth : Nat) : 0 < block_depth depth := by
  unfold block_depth
  dsimp only
  repeat' split
  all_goals omega

-- C6 ------------------------------------------------------------------------

/-- C6: for all 0 ≤ x < 64 and 0 ≤ y < 8, gob_offset x y equals the nested
mod/div formula, equals the bit-sliced form
((x & 0x20) << 3) | ((y & 0x6) << 5) | ((x & 0x10) << 1) | ((y & 1) << 4) | (x & 0xF),
and decomposes as GOB_ROW_OFFSETS[y] plus the four 16-byte runs at row
offset +0, +32, +256, +288. -/
theorem gob_offset_closed_forms :
    ∀ x : Fin 64, ∀ y : Fin 8,
      gob_offset x.val y.val
          = x.val % 64 / 32 * 256 + y.val % 8 / 2 * 64 + x.val % 32 / 16 * 32
              + y.val % 2 * 16 + x.val % 16
        ∧ gob_offset x.val y.val
          = ((x.val &&& 0x20) <<< 3) ||| ((y.val &&& 0x6) <<< 5)
              ||| ((x.val &&& 0x10) <<< 1) ||| ((y.val &&& 1) <<< 4)
              ||| (x.val &&& 0xF)
        ∧ GOB_ROW_OFFSETS = [0, 16, 64, 80, 128, 144, 192, 208]
        ∧ gob_offset x.val y.val
          = GOB_ROW_OFFSETS.getD y.val 0
              + (if x.val < 16 then x.val
                 else if x.val < 32 then 32 + (x.val - 16)
                 else if x.val < 48 then 256 + (x.val - 32)
                 else 288 + (x.val - 48)) := by
  decide

-- C8 ------------------------------------------------------------------------

/-- C8: block_height_mip0 H returns 16/8/4/2/1 according to the thresholds
128/64/32/16 on H + H/2, and in particular block_height_mip0 300 = 16 and
block_height_mip0 8 = 1. -/
theorem block_height_mip0_spec :
    (∀ H : Nat, block_height_mip0 H =
      if H + H / 2 ≥ 128 then 16
      else if H + H / 2 ≥ 64 then 8
      else if H + H / 2 ≥ 32 then 4
      else if H + H / 2 ≥ 16 then 2
      else 1)
    ∧ block_height_mip0 300 = 16 ∧ block_height_mip0 8 = 1 :=
  ⟨fun _ => rfl, rfl, rfl⟩

-- C9 ------------------------------------------------------------------------

/-- C9: for every mip height and every valid mip0 block height bh0,
mip_block_height mip_height bh0 ≤ bh0, and the result is 1 whenever
mip_height ≤ 8. -/
theorem mip_block_height_le_bh0_and_one (mip_height bh0 : Nat)
    (hv : validBlockHeight bh0) :
    mip_block_height mip_height bh0 ≤ bh0
      ∧ (mip_height ≤ 8 → mip_block_height mip_height bh0 = 1) :=
  ⟨mip_block_height_le mip_height bh0,
   fun hm => mip_block_height_eq_one mip_height hm bh0 (by
      rcases hv with h | h | h | h | h | h <;> omega)⟩

/-- Witness for C9 at mip_height 4 and bh0 16. -/
theorem mip_block_height_le_bh0_and_one_witness :
    validBlockHeight 16
      ∧ (mip_block_height 4 16 ≤ 16 ∧ (4 ≤ 8 → mip_block_height 4 16 = 1)) :=
  ⟨by decide, mip_block_height_le_bh0_and_one 4 16 (by decide)⟩

-- Arithmetic helpers --------------------------------------------------------

theorem le_div_round_up_mul (x d : Nat) (hd : 0 < d) :
    x ≤ div_round_up x d * d := by
  unfold div_round_up
  have h1 := Nat.div_add_mod (x + d - 1) d
  have h2 : (x + d - 1) % d < d := Nat.mod_lt _ hd
  obtain ⟨q, hq⟩ : ∃ q, (x + d - 1) / d = q := ⟨_, rfl⟩
  rw [hq] at h1 ⊢
  rw [Nat.mul_comm q d]
  obtain ⟨m, hm⟩ : ∃ m, d * q = m := ⟨_, rfl⟩
  rw [hm] at h1 ⊢
  omega

theorem lt_div_mul_add (x B : Nat) (hB : 0 < B) : x < x / B * B + B := by
  have h1 := Nat.div_add_mod x B
  have h2 : x % B < B := Nat.mod_lt _ hB
  obtain ⟨q, hq⟩ : ∃ q, x / B = q := ⟨_, rfl⟩
  rw [hq] at h1 ⊢
  rw [Nat.mul_comm q B]
  obtain ⟨m, hm⟩ : ∃ m, B * q = m := ⟨_, rfl⟩
  rw [hm] at h1 ⊢
  omega

theorem le_round_up (x n : Nat) (hn : 0 < n) : x ≤ round_up x n := by
  have := le_div_round_up_mul x n hn
  unfold div_round_up at this
  unfold round_up
  exact this

theorem foldl_add_map {α : Type} (l : List α) (f : α → Nat) (a : Nat) :
    l.foldl (fun acc x => acc + f x) a = a + (l.map f).sum := by
  induction l generalizing a with
  | nil => simp
  | cons x xs ih => simp [ih, Nat.add_assoc]

-- Facts about the mip0 block height selection -------------------------------

theorem surface_block_height_mip0_pos (depth : Nat) (sup : Option Nat)
    (height bh : Nat) (hsup : ∀ v ∈ sup, validBlockHeight v) :
    0 < surface_block_height_mip0 depth sup height bh := by
  unfold surface_block_height_mip0
  split
  · cases sup with
    | none => exact block_height_mip0_pos _
    | some v =>
        have hv := hsup v rfl
        simp only [Option.getD_some]
        rcases hv with h | h | h | h | h | h <;> omega
  · omega

-- Size comparison lemmas ----------------------------------------------------

theorem le_align_layer_size (s height depth bh0 dg : Nat)
    (hbh0 : 0 < bh0) (hdg : 0 < dg) :
    s ≤ align_layer_size s height depth bh0 dg := by
  unfold align_layer_size
  dsimp only
  have hB : 0 < mip_block_height height bh0 * mip_block_depth depth dg
      * GOB_SIZE_IN_BYTES := by
    have h1 := mip_block_height_pos height bh0 hbh0
    have h2 := mip_block_depth_pos depth dg hdg
    have h3 : (0:Nat) < GOB_SIZE_IN_BYTES := by
      norm_num [GOB_SIZE_IN_BYTES, GOB_WIDTH_IN_BYTES, GOB_HEIGHT_IN_BYTES]
    positivity
  split
  · rw [Nat.succ_mul]
    exact le_of_lt (lt_div_mul_add s _ hB)
  · exact le_refl _

theorem deswizzled_mip_le_swizzled_mip (w h d bh bpp : Nat) (hbh : 0 < bh) :
    deswizzled_mip_size w h d bpp ≤ swizzled_mip_size w h d bh bpp := by
  unfold swizzled_mip_size deswizzled_mip_size width_in_gobs height_in_blocks
  dsimp only
  have hA : w * bpp ≤ div_round_up (w * bpp) GOB_WIDTH_IN_BYTES
      * GOB_WIDTH_IN_BYTES :=
    le_div_round_up_mul _ _ (by norm_num [GOB_WIDTH_IN_BYTES])
  have hBl : h ≤ div_round_up h (bh * GOB_HEIGHT_IN_BYTES)
      * (bh * GOB_HEIGHT_IN_BYTES) :=
    le_div_round_up_mul _ _
      (by have : (0:Nat) < GOB_HEIGHT_IN_BYTES := by norm_num [GOB_HEIGHT_IN_BYTES]
          positivity)
  have hC : d ≤ round_up d (block_depth d) :=
    le_round_up _ _ (block_depth_pos d)
  calc w * h * d * bpp = (w * bpp) * h * d := by ring
    _ ≤ (div_round_up (w * bpp) GOB_WIDTH_IN_BYTES * GOB_WIDTH_IN_BYTES)
        * (div_round_up h (bh * GOB_HEIGHT_IN_BYTES) * (bh * GOB_HEIGHT_IN_BYTES))
        * round_up d (block_depth d) :=
      Nat.mul_le_mul (Nat.mul_le_mul hA hBl) hC
    _ = div_round_up (w * bpp) GOB_WIDTH_IN_BYTES
        * (div_round_up h (bh * GOB_HEIGHT_IN_BYTES) * bh)
        * round_up d (block_depth d) * GOB_SIZE_IN_BYTES := by
      simp only [GOB_SIZE_IN_BYTES, GOB_WIDTH_IN_BYTES, GOB_HEIGHT_IN_BYTES]
      ring

theorem swizzled_surface_size_eq (w h d : Nat) (bd : BlockDim)
    (sup : Option Nat) (bpp mc lc : Nat) :
    swizzled_surface_size w h d bd sup bpp mc lc =
      if lc > 1 then
        align_layer_size
            (swzSizeSum w h d bd (surface_block_height_mip0 d sup h bd.height) bpp mc)
            h d (surface_block_height_mip0 d sup h bd.height) 1 * lc
      else
        swzSizeSum w h d bd (surface_block_height_mip0 d sup h bd.height) bpp mc := by
  unfold swizzled_surface_size swzSizeSum mipSwzSize mipWidth mipHeight mipDepth
  dsimp only
  rw [foldl_add_map]
  simp

theorem deswizzled_surface_size_eq (w h d : Nat) (bd : BlockDim)
    (bpp mc lc : Nat) :
    deswizzled_surface_size w h d bd bpp mc lc =
      linSizeSum w h d bd bpp mc * lc := by
  unfold deswizzled_surface_size linSizeSum mipLinSize mipWidth mipHeight mipDepth
  dsimp only
  rw [foldl_add_map]
  simp

-- C5 ------------------------------------------------------------------------

/-- C5: for every valid descriptor, swizzled_surface_size is at least
deswizzled_surface_size. -/
theorem swizzled_size_ge_deswizzled_size (width height depth : Nat)
    (bd : BlockDim) (sup : Option Nat) (bpp mc lc : Nat)
    (hw : 0 < width) (hh : 0 < height) (hdp : 0 < depth)
    (hbpp1 : 1 ≤ bpp) (hbpp16 : bpp ≤ 16)
    (hbw : 0 < bd.width) (hbhh : 0 < bd.height) (hbdd : 0 < bd.depth)
    (hmc : 1 ≤ mc) (hlc : 1 ≤ lc)
    (hsup : ∀ v ∈ sup, validBlockHeight v) :
    deswizzled_surface_size width height depth bd bpp mc lc
      ≤ swizzled_surface_size width height depth bd sup bpp mc lc := by
  have hbh0 := surface_block_height_mip0_pos depth sup height bd.height hsup
  rw [swizzled_surface_size_eq, deswizzled_surface_size_eq]
  have hsum : linSizeSum width height depth bd bpp mc
      ≤ swzSizeSum width height depth bd
          (surface_block_height_mip0 depth sup height bd.height) bpp mc := by
    unfold linSizeSum swzSizeSum
    apply List.sum_le_sum
    intro m _
    unfold mipLinSize mipSwzSize
    exact deswizzled_mip_le_swizzled_mip _ _ _ _ _
      (mip_block_height_pos _ _ hbh0)
  by_cases hl : lc > 1
  · rw [if_pos hl]
    calc linSizeSum width height depth bd bpp mc * lc
        ≤ swzSizeSum width height depth bd
            (surface_block_height_mip0 depth sup height bd.height) bpp mc * lc :=
          Nat.mul_le_mul_right _ hsum
      _ ≤ _ :=
          Nat.mul_le_mul_right _
            (le_align_layer_size _ _ _ _ _ hbh0 Nat.one_pos)
  · rw [if_neg hl]
    have hlc1 : lc = 1 := by omega
    rw [hlc1]
    simpa using hsum

/-- Witness for C5 at a small valid descriptor. -/
theorem swizzled_size_ge_deswizzled_size_witness :
    (0 < 65 ∧ 0 < 65 ∧ 0 < 1 ∧ 1 ≤ 4 ∧ 4 ≤ 16 ∧ 0 < (1:Nat) ∧ 1 ≤ 1
        ∧ (∀ v ∈ (none : Option Nat), validBlockHeight v))
      ∧ deswizzled_surface_size 65 65 1 ⟨1, 1, 1⟩ 4 2 2
          ≤ swizzled_surface_size 65 65 1 ⟨1, 1, 1⟩ none 4 2 2 :=
  ⟨⟨by decide, by decide, by decide, by decide, by decide, by decide, by decide,
    by simp⟩,
   swizzled_size_ge_deswizzled_size 65 65 1 ⟨1, 1, 1⟩ none 4 2 2
     (by decide) (by decide) (by decide) (by decide) (by decide)
     (by decide) (by decide) (by decide) (by decide) (by decide)
     (by simp)⟩

-- C2 ------------------------------------------------------------------------

/-- C2 counterexample: at depth 2 with caller-supplied mip0 block height 16
the code uses block height 1 for mip 0 (surface.h:91 and surface.h:269),
while the claim says the supplied 16 is used for every depth. -/
theorem mip0_block_height_override_counterexample :
    surface_block_height_mip0 2 (some 16) 64 1 = 1
      ∧ surface_block_height_mip0_as_claimed 2 (some 16) 64 1 = 16
      ∧ surface_block_height_mip0 2 (some 16) 64 1
          ≠ surface_block_height_mip0_as_claimed 2 (some 16) 64 1 := by
  refine ⟨rfl, rfl, by decide⟩

/-- C2 (amended): the caller-supplied mip0 block height is the block height
used for mip 0 only when depth = 1 (and absent a supplied value it is then
inferred via block_height_mip0); when depth ≠ 1 the mip0 block height is
forced to 1 even when a value is supplied, so swizzle_surface and
deswizzle_surface ignore the supplied value entirely. -/
theorem mip0_block_height_selection (width height depth : Nat)
    (source : Array Nat) (bd : BlockDim) (v : Nat) (sup : Option Nat)
    (bpp mc lc : Nat) (hd : depth ≠ 1) :
    surface_block_height_mip0 1 (some v) height bd.height = v
      ∧ surface_block_height_mip0 1 none height bd.height
          = block_height_mip0 (div_round_up height bd.height)
      ∧ surface_block_height_mip0 depth sup height bd.height = 1
      ∧ swizzle_surface width height depth source bd sup bpp mc lc
          = swizzle_surface width height depth source bd none bpp mc lc
      ∧ deswizzle_surface width height depth source bd sup bpp mc lc
          = deswizzle_surface width height depth source bd none bpp mc lc := by
  have hrw : ∀ (s : Option Nat) (hh bb : Nat),
      surface_block_height_mip0 depth s hh bb = 1 := by
    intro s hh bb
    unfold surface_block_height_mip0
    rw [if_neg hd]
  refine ⟨rfl, rfl, hrw sup height bd.height, ?_, ?_⟩
  · simp only [swizzle_surface, surface_destination, swizzle_surface_inner,
      swizzled_surface_size, hrw]
  · simp only [deswizzle_surface, surface_destination, swizzle_surface_inner,
      swizzled_surface_size, hrw]

/-- Witness for C2's amended theorem at depth 2. -/
theorem mip0_block_height_selection_witness :
    (2 ≠ 1 : Prop)
      ∧ (surface_block_height_mip0 1 (some 8) 4 1 = 8
          ∧ surface_block_height_mip0 1 none 4 1
              = block_height_mip0 (div_round_up 4 1)
          ∧ surface_block_height_mip0 2 (some 8) 4 1 = 1
          ∧ swizzle_surface 4 4 2 (Array.mkArray 32 7) ⟨1, 1, 1⟩ (some 8) 1 1 1
              = swizzle_surface 4 4 2 (Array.mkArray 32 7) ⟨1, 1, 1⟩ none 1 1 1
          ∧ deswizzle_surface 4 4 2 (Array.mkArray 32 7) ⟨1, 1, 1⟩ (some 8) 1 1 1
              = deswizzle_surface 4 4 2 (Array.mkArray 32 7) ⟨1, 1, 1⟩ none 1 1 1) :=
  ⟨by decide,
   mip0_block_height_selection 4 4 2 (Array.mkArray 32 7) ⟨1, 1, 1⟩ 8 (some 8)
     1 1 1 (by decide)⟩

-- Array getD/setD helpers ---------------------------------------------------

theorem getD_eq_getElem (a : Array Nat) (i : Nat) (h : i < a.size) :
    a.getD i 0 = a[i] := by
  unfold Array.getD
  rw [dif_pos h]
  rfl

theorem getD_eq_zero_of_ge (a : Array Nat) (i : Nat) (h : a.size ≤ i) :
    a.getD i 0 = 0 := by
  unfold Array.getD
  rw [dif_neg (by omega)]

theorem getD_setD_self (a : Array Nat) (i : Nat) (v : Nat) (h : i < a.size) :
    (a.setD i v).getD i 0 = v := by
  rw [getD_eq_getElem _ _ (by simpa using h)]
  exact Array.getElem_setD a i v (by simpa using h)

theorem getD_setD_ne (a : Array Nat) (i k : Nat) (v : Nat) (hne : k ≠ i) :
    (a.setD i v).getD k 0 = a.getD k 0 := by
  unfold Array.setD
  split
  · rename_i hi
    by_cases hk : k < a.size
    · rw [getD_eq_getElem _ _ (by simpa using hk), getD_eq_getElem _ _ hk]
      exact Array.get_set_ne a ⟨i, hi⟩ v hk (fun h => hne h.symm)
    · rw [getD_eq_zero_of_ge _ _ (by simpa using Nat.le_of_not_lt hk),
        getD_eq_zero_of_ge _ _ (Nat.le_of_not_lt hk)]
  · rfl

-- Facts about writes --------------------------------------------------------

theorem size_writes (l : List (Nat × Nat)) :
    ∀ a : Array Nat, (writes a l).size = a.size := by
  induction l with
  | nil => intro a; rfl
  | cons p rest ih =>
      intro a
      unfold writes
      rw [List.foldl_cons]
      have := ih (a.setD p.1 p.2)
      unfold writes at this
      rw [this, Array.size_setD]

theorem writes_append (a : Array Nat) (l1 l2 : List (Nat × Nat)) :
    writes a (l1 ++ l2) = writes (writes a l1) l2 := by
  unfold writes
  rw [List.foldl_append]

theorem getD_writes_not_mem (l : List (Nat × Nat)) (k : Nat) :
    ∀ a : Array Nat, (k ∉ l.map Prod.fst) →
      (writes a l).getD k 0 = a.getD k 0 := by
  induction l with
  | nil => intro a _; rfl
  | cons p rest ih =>
      intro a hk
      unfold writes
      rw [List.foldl_cons]
      have hk1 : k ≠ p.1 := by
        intro h; exact hk (by simp [h])
      have hk2 : k ∉ rest.map Prod.fst := by
        intro h; exact hk (by simp [h])
      have := ih (a.setD p.1 p.2) hk2
      unfold writes at this
      rw [this, getD_setD_ne _ _ _ _ hk1]

theorem getD_writes_nodup (l : List (Nat × Nat)) (k v : Nat) :
    ∀ a : Array Nat, (l.map Prod.fst).Nodup → (k, v) ∈ l → k < a.size →
      (writes a l).getD k 0 = v := by
  induction l with
  | nil => intro a _ h; exact absurd h (List.not_mem_nil _)
  | cons p rest ih =>
      intro a hnd hm hk
      rw [List.map_cons, List.nodup_cons] at hnd
      rcases List.mem_cons.mp hm with h | h
      · subst h
        unfold writes
        rw [List.foldl_cons]
        have hrest : k ∉ rest.map Prod.fst := hnd.1
        have := getD_writes_not_mem rest k (a.setD k v) hrest
        unfold writes at this
        rw [this, getD_setD_self _ _ _ hk]
      · unfold writes
        rw [List.foldl_cons]
        have := ih (a.setD p.1 p.2) hnd.2 h (by rw [Array.size_setD]; exact hk)
        unfold writes at this
        rw [this]

theorem getD_writes_fn (l : List (Nat × Nat)) (k v : Nat) :
    ∀ a : Array Nat, (∀ v', (k, v') ∈ l → v' = v) → (k, v) ∈ l →
      k < a.size → (writes a l).getD k 0 = v := by
  induction l with
  | nil => intro a _ h _; exact absurd h (List.not_mem_nil _)
  | cons p rest ih =>
      intro a hfn hm hk
      unfold writes
      rw [List.foldl_cons]
      by_cases hkey : k ∈ rest.map Prod.fst
      · rcases List.mem_map.mp hkey with ⟨q, hq, hfst⟩
        obtain ⟨qk, qv⟩ := q
        simp only at hfst
        subst hfst
        have hv : qv = v := hfn qv (List.mem_cons_of_mem _ hq)
        subst hv
        have := ih (a.setD p.1 p.2)
          (fun v' hv' => hfn v' (List.mem_cons_of_mem _ hv')) hq
          (by rw [Array.size_setD]; exact hk)
        unfold writes at this
        exact this
      · have hpk : p = (k, v) := by
          rcases List.mem_cons.mp hm with h | h
          · exact h.symm
          · exact absurd (List.mem_map.mpr ⟨(k, v), h, rfl⟩) hkey
        subst hpk
        have := getD_writes_not_mem rest k (a.setD k v) hkey
        unfold writes at this
        rw [this, getD_setD_self _ _ _ hk]

theorem writes_eq_of_mem_iff (a : Array Nat) (l1 l2 : List (Nat × Nat))
    (hfun : ∀ k v v', (k, v) ∈ l1 → (k, v') ∈ l1 → v = v')
    (hmem : ∀ p, p ∈ l1 ↔ p ∈ l2) :
    writes a l1 = writes a l2 := by
  apply Array.ext
  · rw [size_writes, size_writes]
  · intro i hi1 hi2
    rw [size_writes] at hi1
    rw [← getD_eq_getElem _ _ (by rw [size_writes]; exact hi1),
      ← getD_eq_getElem _ _ (by rw [size_writes]; exact hi1)]
    by_cases hkey : i ∈ l1.map Prod.fst
    · rcases List.mem_map.mp hkey with ⟨p, hp, hfst⟩
      have hp2 : p ∈ l2 := (hmem p).mp hp
      obtain ⟨k, v⟩ := p
      simp only at hfst
      subst hfst
      rw [getD_writes_fn l1 _ v a (fun v' hv' => hfun _ v' v hv' hp) hp hi1,
        getD_writes_fn l2 _ v a
          (fun v' hv' => hfun _ v' v ((hmem _).mpr hv') hp) hp2 hi1]
    · have hkey2 : i ∉ l2.map Prod.fst := by
        intro h
        rcases List.mem_map.mp h with ⟨p, hp, hfst⟩
        exact hkey (List.mem_map.mpr ⟨p, (hmem p).mpr hp, hfst⟩)
      rw [getD_writes_not_mem l1 _ a hkey, getD_writes_not_mem l2 _ a hkey2]

-- Fold bridging lemmas ------------------------------------------------------

theorem foldl_flatMap_eq {α β γ : Type} (l : List α) (f : α → List β)
    (g : γ → β → γ) (a : γ) :
    (l.flatMap f).foldl g a = l.foldl (fun acc x => (f x).foldl g acc) a := by
  induction l generalizing a with
  | nil => rfl
  | cons x xs ih => simp [List.flatMap_cons, List.foldl_append, ih]

theorem foldl_ite_setD {α : Type} (l : List α) (P : α → Bool)
    (F : α → Nat × Nat) :
    ∀ a : Array Nat,
      l.foldl (fun d p => if P p then d.setD (F p).1 (F p).2 else d) a
        = writes a ((l.filter P).map F) := by
  induction l with
  | nil => intro a; rfl
  | cons x xs ih =>
      intro a
      rw [List.foldl_cons]
      by_cases hP : P x
      · rw [if_pos hP, List.filter_cons_of_pos hP, List.map_cons]
        unfold writes
        rw [List.foldl_cons]
        exact ih _
      · rw [if_neg hP, List.filter_cons_of_neg (by simpa using hP)]
        exact ih a

-- gob_offset facts ----------------------------------------------------------

theorem gob_offset_inv_gob_offset :
    ∀ x : Fin 64, ∀ y : Fin 8,
      gob_offset_inv (gob_offset x.val y.val) = (x.val, y.val) := by
  decide

theorem gob_offset_inj {x y x' y' : Nat} (hx : x < 64) (hy : y < 8)
    (hx' : x' < 64) (hy' : y' < 8) (h : gob_offset x y = gob_offset x' y') :
    x = x' ∧ y = y' := by
  have h1 := gob_offset_inv_gob_offset ⟨x, hx⟩ ⟨y, hy⟩
  have h2 := gob_offset_inv_gob_offset ⟨x', hx'⟩ ⟨y', hy'⟩
  simp only at h1 h2
  rw [h] at h1
  have h3 := h1.symm.trans h2
  exact ⟨congrArg Prod.fst h3, congrArg Prod.snd h3⟩

theorem gob_offset_lt :
    ∀ x : Fin 64, ∀ y : Fin 8, gob_offset x.val y.val < 512 := by
  decide

theorem gob_offset_run48 :
    ∀ i : Fin 8, ∀ k : Fin 16,
      gob_offset (48 + k.val) i.val = GOB_ROW_OFFSETS.getD i.val 0 + 288 + k.val := by
  decide

theorem gob_offset_run32 :
    ∀ i : Fin 8, ∀ k : Fin 16,
      gob_offset (32 + k.val) i.val = GOB_ROW_OFFSETS.getD i.val 0 + 256 + k.val := by
  decide

theorem gob_offset_run16 :
    ∀ i : Fin 8, ∀ k : Fin 16,
      gob_offset (16 + k.val) i.val = GOB_ROW_OFFSETS.getD i.val 0 + 32 + k.val := by
  decide

theorem gob_offset_run0 :
    ∀ i : Fin 8, ∀ k : Fin 16,
      gob_offset k.val i.val = GOB_ROW_OFFSETS.getD i.val 0 + k.val := by
  decide

-- GOB position lists --------------------------------------------------------

theorem mem_gob_positions {p : Nat × Nat} :
    p ∈ gob_positions ↔ p.1 < 8 ∧ p.2 < 64 := by
  obtain ⟨a, b⟩ := p
  unfold gob_positions
  simp only [List.mem_flatMap, List.mem_map, List.mem_range,
    GOB_HEIGHT_IN_BYTES, GOB_WIDTH_IN_BYTES]
  constructor
  · rintro ⟨y, hy, x, hx, heq⟩
    have h1 : y = a := congrArg Prod.fst heq
    have h2 : x = b := congrArg Prod.snd heq
    subst h1; subst h2
    exact ⟨hy, hx⟩
  · rintro ⟨h1, h2⟩
    exact ⟨a, h1, b, h2, rfl⟩

theorem mem_gob_positions_fast {p : Nat × Nat} :
    p ∈ gob_positions_fast ↔ p.1 < 8 ∧ p.2 < 64 := by
  obtain ⟨a, b⟩ := p
  unfold gob_positions_fast
  constructor
  · intro h
    rcases List.mem_flatMap.mp h with ⟨i, hi, hmem⟩
    have hi8 : i < 8 := List.mem_range.mp hi
    have hx : ∀ s : Nat,
        (a, b) ∈ ((List.range 16).map fun k => (i, s + k)) →
          a = i ∧ s ≤ b ∧ b < s + 16 := by
      intro s hs
      rcases List.mem_map.mp hs with ⟨k, hk, he⟩
      have hk16 := List.mem_range.mp hk
      have e1 : i = a := congrArg Prod.fst he
      have e2 : s + k = b := congrArg Prod.snd he
      omega
    rcases List.mem_append.mp hmem with hleft | h4
    · rcases List.mem_append.mp hleft with hleft2 | h3
      · rcases List.mem_append.mp hleft2 with h1 | h2
        · have := hx 48 h1; omega
        · have := hx 32 h2; omega
      · have := hx 16 h3; omega
    · rcases List.mem_map.mp h4 with ⟨k, hk, he⟩
      have hk16 := List.mem_range.mp hk
      have e1 : i = a := congrArg Prod.fst he
      have e2 : k = b := congrArg Prod.snd he
      omega
  · rintro ⟨h1, h2⟩
    apply List.mem_flatMap.mpr
    refine ⟨a, List.mem_range.mpr h1, ?_⟩
    by_cases c3 : 48 ≤ b
    · apply List.mem_append_left
      apply List.mem_append_left
      apply List.mem_append_left
      have hb : b = 48 + (b - 48) := by omega
      rw [hb]
      exact List.mem_map.mpr ⟨b - 48, List.mem_range.mpr (by omega), rfl⟩
    · by_cases c2 : 32 ≤ b
      · apply List.mem_append_left
        apply List.mem_append_left
        apply List.mem_append_right
        have hb : b = 32 + (b - 32) := by omega
        rw [hb]
        exact List.mem_map.mpr ⟨b - 32, List.mem_range.mpr (by omega), rfl⟩
      · by_cases c1 : 16 ≤ b
        · apply List.mem_append_left
          apply List.mem_append_right
          have hb : b = 16 + (b - 16) := by omega
          rw [hb]
          exact List.mem_map.mpr ⟨b - 16, List.mem_range.mpr (by omega), rfl⟩
        · apply List.mem_append_right
          exact List.mem_map.mpr ⟨b, List.mem_range.mpr (by omega), rfl⟩

theorem mem_gob_positions_fast_iff (p : Nat × Nat) :
    p ∈ gob_positions_fast ↔ p ∈ gob_positions :=
  mem_gob_positions_fast.trans mem_gob_positions.symm

theorem mem_map_base_equiv {α β : Type} (l1 l2 : List α) (f : α → β)
    (h : ∀ a, a ∈ l1 ↔ a ∈ l2) (p : β) : p ∈ l1.map f ↔ p ∈ l2.map f := by
  simp only [List.mem_map]
  constructor
  · rintro ⟨a, ha, rfl⟩
    exact ⟨a, (h a).mp ha, rfl⟩
  · rintro ⟨a, ha, rfl⟩
    exact ⟨a, (h a).mpr ha, rfl⟩

-- Key injectivity helpers ---------------------------------------------------

theorem mul_add_lt_inj {p a b x y : Nat} (hx : x < p) (hy : y < p)
    (h : a * p + x = b * p + y) : a = b ∧ x = y := by
  have hp : 0 < p := by omega
  have h1 : (a * p + x) / p = a := by
    rw [Nat.mul_comm a p, Nat.mul_add_div hp, Nat.div_eq_of_lt hx, Nat.add_zero]
  have h2 : (b * p + y) / p = b := by
    rw [Nat.mul_comm b p, Nat.mul_add_div hp, Nat.div_eq_of_lt hy, Nat.add_zero]
  have hab : a = b := by rw [← h1, ← h2, h]
  subst hab
  exact ⟨rfl, Nat.add_left_cancel h⟩

-- Write-list characterization of the GOB primitives -------------------------

theorem swizzle_deswizzle_gob_eq_writes (D : Bool) (dest src : Array Nat)
    (x0 y0 z0 w h bpp ga : Nat) :
    swizzle_deswizzle_gob D dest src x0 y0 z0 w h bpp ga
      = writes dest (gob_write_list D src x0 y0 z0 w h bpp ga) := by
  unfold gob_write_list
  rw [← foldl_ite_setD]
  unfold swizzle_deswizzle_gob gob_positions
  rw [foldl_flatMap_eq]
  apply List.foldl_ext
  intro a y _
  rw [List.foldl_map]
  apply List.foldl_ext
  intro b x _
  dsimp only
  by_cases hc : y0 + y < h ∧ x0 + x < w * bpp
  · have hcb : decide (y0 + y < h ∧ x0 + x < w * bpp) = true := by
      simp only [decide_eq_true_eq]; exact hc
    rw [if_pos hc, if_pos hcb]
    cases D
    · rfl
    · rfl
  · have hcb : ¬(decide (y0 + y < h ∧ x0 + x < w * bpp) = true) := by
      simp only [decide_eq_true_eq]; exact hc
    rw [if_neg hc, if_neg hcb]

theorem copy_bytes_eq_writes (n : Nat) (dst : Array Nat) (do_ : Nat)
    (src : Array Nat) (so : Nat) :
    copy_bytes n dst do_ src so
      = writes dst ((List.range n).map fun k => (do_ + k, src.getD (so + k) 0)) := by
  unfold copy_bytes writes
  rw [List.foldl_map]

theorem writes_flatMap {α : Type} (l : List α) (g : α → List (Nat × Nat))
    (a : Array Nat) :
    writes a (l.flatMap g) = l.foldl (fun acc i => writes acc (g i)) a := by
  unfold writes
  rw [foldl_flatMap_eq]

theorem deswizzle_gob_row_eq_writes (d src : Array Nat) (do_ so : Nat) :
    deswizzle_gob_row d do_ src so
      = writes d
          ((((List.range 16).map fun k => (do_ + 48 + k, src.getD (so + 288 + k) 0))
            ++ ((List.range 16).map fun k => (do_ + 32 + k, src.getD (so + 256 + k) 0))
            ++ ((List.range 16).map fun k => (do_ + 16 + k, src.getD (so + 32 + k) 0))
            ++ ((List.range 16).map fun k => (do_ + k, src.getD (so + k) 0)))) := by
  unfold deswizzle_gob_row
  rw [writes_append, writes_append, writes_append,
    copy_bytes_eq_writes, copy_bytes_eq_writes, copy_bytes_eq_writes,
    copy_bytes_eq_writes]

theorem swizzle_gob_row_eq_writes (d src : Array Nat) (do_ so : Nat) :
    swizzle_gob_row d do_ src so
      = writes d
          ((((List.range 16).map fun k => (do_ + 288 + k, src.getD (so + 48 + k) 0))
            ++ ((List.range 16).map fun k => (do_ + 256 + k, src.getD (so + 32 + k) 0))
            ++ ((List.range 16).map fun k => (do_ + 32 + k, src.getD (so + 16 + k) 0))
            ++ ((List.range 16).map fun k => (do_ + k, src.getD (so + k) 0)))) := by
  unfold swizzle_gob_row
  rw [writes_append, writes_append, writes_append,
    copy_bytes_eq_writes, copy_bytes_eq_writes, copy_bytes_eq_writes,
    copy_bytes_eq_writes]

theorem deswizzle_complete_gob_eq_writes (dest src : Array Nat)
    (dst_base src_base pitch : Nat) :
    deswizzle_complete_gob dest dst_base src src_base pitch
      = writes dest (gob_positions_fast.map fun p =>
          (dst_base + pitch * p.1 + p.2,
            src.getD (src_base + gob_offset p.2 p.1) 0)) := by
  unfold deswizzle_complete_gob gob_positions_fast
  rw [List.map_flatMap, writes_flatMap]
  apply List.foldl_ext
  intro a i hi
  have hi8 : i < 8 := List.mem_range.mp hi
  rw [deswizzle_gob_row_eq_writes]
  congr 1
  rw [List.map_append, List.map_append, List.map_append,
    List.map_map, List.map_map, List.map_map, List.map_map]
  congr 1
  congr 1
  congr 1
  · apply List.map_congr_left
    intro k hk
    have hk16 := List.mem_range.mp hk
    have hgo := gob_offset_run48 ⟨i, hi8⟩ ⟨k, hk16⟩
    simp only [Function.comp] at hgo ⊢
    have e1 : dst_base + pitch * i + 48 + k = dst_base + pitch * i + (48 + k) := by
      omega
    have e2 : src_base + gob_offset (48 + k) i
        = src_base + GOB_ROW_OFFSETS.getD i 0 + 288 + k := by
      rw [hgo]; ring
    rw [e1, e2]
  · apply List.map_congr_left
    intro k hk
    have hk16 := List.mem_range.mp hk
    have hgo := gob_offset_run32 ⟨i, hi8⟩ ⟨k, hk16⟩
    simp only [Function.comp] at hgo ⊢
    have e1 : dst_base + pitch * i + 32 + k = dst_base + pitch * i + (32 + k) := by
      omega
    have e2 : src_base + gob_offset (32 + k) i
        = src_base + GOB_ROW_OFFSETS.getD i 0 + 256 + k := by
      rw [hgo]; ring
    rw [e1, e2]
  · apply List.map_congr_left
    intro k hk
    have hk16 := List.mem_range.mp hk
    have hgo := gob_offset_run16 ⟨i, hi8⟩ ⟨k, hk16⟩
    simp only [Function.comp] at hgo ⊢
    have e1 : dst_base + pitch * i + 16 + k = dst_base + pitch * i + (16 + k) := by
      omega
    have e2 : src_base + gob_offset (16 + k) i
        = src_base + GOB_ROW_OFFSETS.getD i 0 + 32 + k := by
      rw [hgo]; ring
    rw [e1, e2]
  · apply List.map_congr_left
    intro k hk
    have hk16 := List.mem_range.mp hk
    have hgo := gob_offset_run0 ⟨i, hi8⟩ ⟨k, hk16⟩
    simp only [Function.comp] at hgo ⊢
    have e2 : src_base + gob_offset k i
        = src_base + GOB_ROW_OFFSETS.getD i 0 + k := by
      rw [hgo]; ring
    rw [e2]

theorem swizzle_complete_gob_eq_writes (dest src : Array Nat)
    (dst_base src_base pitch : Nat) :
    swizzle_complete_gob dest dst_base src src_base pitch
      = writes dest (gob_positions_fast.map fun p =>
          (dst_base + gob_offset p.2 p.1,
            src.getD (src_base + pitch * p.1 + p.2) 0)) := by
  unfold swizzle_complete_gob gob_positions_fast
  rw [List.map_flatMap, writes_flatMap]
  apply List.foldl_ext
  intro a i hi
  have hi8 : i < 8 := List.mem_range.mp hi
  rw [swizzle_gob_row_eq_writes]
  congr 1
  rw [List.map_append, List.map_append, List.map_append,
    List.map_map, List.map_map, List.map_map, List.map_map]
  congr 1
  congr 1
  congr 1
  · apply List.map_congr_left
    intro k hk
    have hk16 := List.mem_range.mp hk
    have hgo := gob_offset_run48 ⟨i, hi8⟩ ⟨k, hk16⟩
    simp only [Function.comp] at hgo ⊢
    have e1 : dst_base + gob_offset (48 + k) i
        = dst_base + GOB_ROW_OFFSETS.getD i 0 + 288 + k := by
      rw [hgo]; ring
    have e2 : src_base + pitch * i + 48 + k = src_base + pitch * i + (48 + k) := by
      omega
    rw [e1, e2]
  · apply List.map_congr_left
    intro k hk
    have hk16 := List.mem_range.mp hk
    have hgo := gob_offset_run32 ⟨i, hi8⟩ ⟨k, hk16⟩
    simp only [Function.comp] at hgo ⊢
    have e1 : dst_base + gob_offset (32 + k) i
        = dst_base + GOB_ROW_OFFSETS.getD i 0 + 256 + k := by
      rw [hgo]; ring
    have e2 : src_base + pitch * i + 32 + k = src_base + pitch * i + (32 + k) := by
      omega
    rw [e1, e2]
  · apply List.map_congr_left
    intro k hk
    have hk16 := List.mem_range.mp hk
    have hgo := gob_offset_run16 ⟨i, hi8⟩ ⟨k, hk16⟩
    simp only [Function.comp] at hgo ⊢
    have e1 : dst_base + gob_offset (16 + k) i
        = dst_base + GOB_ROW_OFFSETS.getD i 0 + 32 + k := by
      rw [hgo]; ring
    have e2 : src_base + pitch * i + 16 + k = src_base + pitch * i + (16 + k) := by
      omega
    rw [e1, e2]
  · apply List.map_congr_left
    intro k hk
    have hk16 := List.mem_range.mp hk
    have hgo := gob_offset_run0 ⟨i, hi8⟩ ⟨k, hk16⟩
    simp only [Function.comp] at hgo ⊢
    have e1 : dst_base + gob_offset k i
        = dst_base + GOB_ROW_OFFSETS.getD i 0 + k := by
      rw [hgo]; ring
    rw [e1]

theorem gob_write_false (src : Array Nat) (x0 y0 z0 w h bpp ga : Nat)
    (p : Nat × Nat) :
    gob_write false src x0 y0 z0 w h bpp ga p
      = (ga + gob_offset p.2 p.1,
          src.getD (z0 * w * h * bpp + (y0 + p.1) * w * bpp + x0 + p.2) 0) := rfl

theorem gob_write_true (src : Array Nat) (x0 y0 z0 w h bpp ga : Nat)
    (p : Nat × Nat) :
    gob_write true src x0 y0 z0 w h bpp ga p
      = (z0 * w * h * bpp + (y0 + p.1) * w * bpp + x0 + p.2,
          src.getD (ga + gob_offset p.2 p.1) 0) := rfl

theorem gob_write_fn_on (D : Bool) (src : Array Nat)
    (x0 y0 z0 w h bpp ga : Nat) (hpitch : 64 < w * bpp)
    (l : List (Nat × Nat)) (hl : ∀ p ∈ l, p.1 < 8 ∧ p.2 < 64) :
    ∀ k v v', (k, v) ∈ l.map (gob_write D src x0 y0 z0 w h bpp ga) →
      (k, v') ∈ l.map (gob_write D src x0 y0 z0 w h bpp ga) → v = v' := by
  intro k v v' h1 h2
  rcases List.mem_map.mp h1 with ⟨p, hp, he1⟩
  rcases List.mem_map.mp h2 with ⟨q, hq, he2⟩
  obtain ⟨hp1, hp2⟩ := hl p hp
  obtain ⟨hq1, hq2⟩ := hl q hq
  have hkey : (gob_write D src x0 y0 z0 w h bpp ga p).1
      = (gob_write D src x0 y0 z0 w h bpp ga q).1 :=
    (congrArg Prod.fst he1).trans (congrArg Prod.fst he2).symm
  have hv1 : (gob_write D src x0 y0 z0 w h bpp ga p).2 = v :=
    congrArg Prod.snd he1
  have hv2 : (gob_write D src x0 y0 z0 w h bpp ga q).2 = v' :=
    congrArg Prod.snd he2
  have hpq : p = q := by
    cases D
    · rw [gob_write_false, gob_write_false] at hkey
      simp only at hkey
      have h3 : gob_offset p.2 p.1 = gob_offset q.2 q.1 := by omega
      obtain ⟨e1, e2⟩ := gob_offset_inj hp2 hp1 hq2 hq1 h3
      obtain ⟨pa, pb⟩ := p
      obtain ⟨qa, qb⟩ := q
      simp only at e1 e2
      rw [e1, e2]
    · rw [gob_write_true, gob_write_true] at hkey
      simp only at hkey
      have E : (y0 + p.1) * w * bpp + p.2 = (y0 + q.1) * w * bpp + q.2 := by
        omega
      rw [Nat.mul_assoc, Nat.mul_assoc] at E
      obtain ⟨e1, e2⟩ := mul_add_lt_inj (by omega) (by omega) E
      obtain ⟨pa, pb⟩ := p
      obtain ⟨qa, qb⟩ := q
      simp only at e1 e2
      have e3 : pa = qa := by omega
      rw [e3, e2]
  rw [← hv1, ← hv2, hpq]

theorem gob_write_list_interior (D : Bool) (src : Array Nat)
    (x0 y0 z0 w h bpp ga : Nat) (hx : x0 + 64 < w * bpp) (hy : y0 + 8 < h) :
    gob_write_list D src x0 y0 z0 w h bpp ga
      = gob_positions.map (gob_write D src x0 y0 z0 w h bpp ga) := by
  unfold gob_write_list
  congr 1
  apply List.filter_eq_self.mpr
  intro p hp
  obtain ⟨h1, h2⟩ := mem_gob_positions.mp hp
  simp only [decide_eq_true_eq]
  omega

theorem deswizzle_complete_gob_eq_slow (dest src : Array Nat)
    (x0 y0 z0 w h bpp ga : Nat) (hx : x0 + 64 < w * bpp) (hy : y0 + 8 < h) :
    deswizzle_complete_gob dest (z0 * w * h * bpp + y0 * w * bpp + x0) src ga
        (w * bpp)
      = swizzle_deswizzle_gob true dest src x0 y0 z0 w h bpp ga := by
  rw [swizzle_deswizzle_gob_eq_writes,
    gob_write_list_interior true src x0 y0 z0 w h bpp ga hx hy,
    deswizzle_complete_gob_eq_writes]
  have hmap : (gob_positions_fast.map fun p =>
      (z0 * w * h * bpp + y0 * w * bpp + x0 + w * bpp * p.1 + p.2,
        src.getD (ga + gob_offset p.2 p.1) 0))
      = gob_positions_fast.map (gob_write true src x0 y0 z0 w h bpp ga) := by
    apply List.map_congr_left
    intro p _
    rw [gob_write_true]
    have e : z0 * w * h * bpp + y0 * w * bpp + x0 + w * bpp * p.1 + p.2
        = z0 * w * h * bpp + (y0 + p.1) * w * bpp + x0 + p.2 := by ring
    rw [e]
  rw [hmap]
  exact writes_eq_of_mem_iff dest _ _
    (gob_write_fn_on true src x0 y0 z0 w h bpp ga (by omega) gob_positions_fast
      (fun p hp => mem_gob_positions_fast.mp hp))
    (fun p => mem_map_base_equiv _ _ _ mem_gob_positions_fast_iff p)

theorem swizzle_complete_gob_eq_slow (dest src : Array Nat)
    (x0 y0 z0 w h bpp ga : Nat) (hx : x0 + 64 < w * bpp) (hy : y0 + 8 < h) :
    swizzle_complete_gob dest ga src (z0 * w * h * bpp + y0 * w * bpp + x0)
        (w * bpp)
      = swizzle_deswizzle_gob false dest src x0 y0 z0 w h bpp ga := by
  rw [swizzle_deswizzle_gob_eq_writes,
    gob_write_list_interior false src x0 y0 z0 w h bpp ga hx hy,
    swizzle_complete_gob_eq_writes]
  have hmap : (gob_positions_fast.map fun p =>
      (ga + gob_offset p.2 p.1,
        src.getD (z0 * w * h * bpp + y0 * w * bpp + x0 + w * bpp * p.1 + p.2) 0))
      = gob_positions_fast.map (gob_write false src x0 y0 z0 w h bpp ga) := by
    apply List.map_congr_left
    intro p _
    rw [gob_write_false]
    have e : z0 * w * h * bpp + y0 * w * bpp + x0 + w * bpp * p.1 + p.2
        = z0 * w * h * bpp + (y0 + p.1) * w * bpp + x0 + p.2 := by ring
    rw [e]
  rw [hmap]
  exact writes_eq_of_mem_iff dest _ _
    (gob_write_fn_on false src x0 y0 z0 w h bpp ga (by omega) gob_positions_fast
      (fun p hp => mem_gob_positions_fast.mp hp))
    (fun p => mem_map_base_equiv _ _ _ mem_gob_positions_fast_iff p)

theorem swizzle_inner_eq_slow (D : Bool) (w h d : Nat) (src dst : Array Nat)
    (bh bd bpp : Nat) :
    swizzle_inner D w h d src dst bh bd bpp
      = swizzle_inner_slow D w h d src dst bh bd bpp := by
  unfold swizzle_inner swizzle_inner_slow
  dsimp only
  apply List.foldl_ext
  intro a z0 _
  apply List.foldl_ext
  intro b y0 _
  apply List.foldl_ext
  intro c x0 _
  by_cases hc : x0 + GOB_WIDTH_IN_BYTES < w * bpp
      ∧ y0 + GOB_HEIGHT_IN_BYTES < h
  · rw [if_pos hc]
    cases D
    · exact swizzle_complete_gob_eq_slow c src x0 y0 z0 w h bpp _ hc.1 hc.2
    · exact deswizzle_complete_gob_eq_slow c src x0 y0 z0 w h bpp _ hc.1 hc.2
  · rw [if_neg hc]

-- C3 ------------------------------------------------------------------------

/-- C3: for every mip level (any dimensions, block height, block depth and
bytes per pixel), running swizzle_inner with every GOB dispatched to the slow
per-byte primitive (swizzle_inner_slow) produces destination contents
byte-identical to the actual implementation; in particular, for each interior
GOB (x0 + 64 < width*bpp and y0 + 8 < height) the fast complete-GOB copy
moves exactly the same bytes to the same offsets as the per-byte
swizzle_deswizzle_gob loop, in both directions. -/
theorem swizzle_inner_fast_slow_equiv (DESWIZZLE : Bool)
    (width height depth : Nat) (source destination : Array Nat)
    (block_height block_depth bytes_per_pixel : Nat)
    (x0 y0 z0 gob_address : Nat) :
    swizzle_inner DESWIZZLE width height depth source destination block_height
        block_depth bytes_per_pixel
      = swizzle_inner_slow DESWIZZLE width height depth source destination
          block_height block_depth bytes_per_pixel
    ∧ (x0 + 64 < width * bytes_per_pixel → y0 + 8 < height →
        deswizzle_complete_gob destination
            (z0 * width * height * bytes_per_pixel
              + y0 * width * bytes_per_pixel + x0) source gob_address
            (width * bytes_per_pixel)
          = swizzle_deswizzle_gob true destination source x0 y0 z0 width
              height bytes_per_pixel gob_address
        ∧ swizzle_complete_gob destination gob_address source
            (z0 * width * height * bytes_per_pixel
              + y0 * width * bytes_per_pixel + x0) (width * bytes_per_pixel)
          = swizzle_deswizzle_gob false destination source x0 y0 z0 width
              height bytes_per_pixel gob_address) :=
  ⟨swizzle_inner_eq_slow DESWIZZLE width height depth source destination
      block_height block_depth bytes_per_pixel,
   fun hx hy =>
    ⟨deswizzle_complete_gob_eq_slow destination source x0 y0 z0 width height
        bytes_per_pixel gob_address hx hy,
     swizzle_complete_gob_eq_slow destination source x0 y0 z0 width height
        bytes_per_pixel gob_address hx hy⟩⟩

/-- Witness for C3 at a 130x9 single-slice mip with an interior GOB at the
origin. -/
theorem swizzle_inner_fast_slow_equiv_witness :
    (0 + 64 < 130 * 1 ∧ 0 + 8 < 9)
      ∧ (swizzle_inner false 130 9 1 (Array.mkArray 4 7) (Array.mkArray 4 0)
            2 1 1
          = swizzle_inner_slow false 130 9 1 (Array.mkArray 4 7)
              (Array.mkArray 4 0) 2 1 1
        ∧ (0 + 64 < 130 * 1 → 0 + 8 < 9 →
            deswizzle_complete_gob (Array.mkArray 4 0)
                (0 * 130 * 9 * 1 + 0 * 130 * 1 + 0) (Array.mkArray 4 7) 0
                (130 * 1)
              = swizzle_deswizzle_gob true (Array.mkArray 4 0)
                  (Array.mkArray 4 7) 0 0 0 130 9 1 0
            ∧ swizzle_complete_gob (Array.mkArray 4 0) 0 (Array.mkArray 4 7)
                (0 * 130 * 9 * 1 + 0 * 130 * 1 + 0) (130 * 1)
              = swizzle_deswizzle_gob false (Array.mkArray 4 0)
                  (Array.mkArray 4 7) 0 0 0 130 9 1 0)) :=
  ⟨⟨by decide, by decide⟩,
   swizzle_inner_fast_slow_equiv false 130 9 1 (Array.mkArray 4 7)
     (Array.mkArray 4 0) 2 1 1 0 0 0 0⟩

-- Address arithmetic: decomposition, bound, injectivity ----------------------

theorem and_mask_eq_mod (Z bd : Nat)
    (hbd : bd = 1 ∨ bd = 2 ∨ bd = 4 ∨ bd = 8 ∨ bd = 16) :
    Z &&& (bd - 1) = Z % bd := by
  rcases hbd with rfl | rfl | rfl | rfl | rfl
  · show Z &&& 0 = Z % 1
    simp
    omega
  · have h := Nat.and_pow_two_sub_one_eq_mod Z 1
    have e1 : (2:Nat) ^ 1 - 1 = 2 - 1 := by norm_num
    have e2 : (2:Nat) ^ 1 = 2 := by norm_num
    rw [e1, e2] at h
    exact h
  · have h := Nat.and_pow_two_sub_one_eq_mod Z 2
    have e1 : (2:Nat) ^ 2 - 1 = 4 - 1 := by norm_num
    have e2 : (2:Nat) ^ 2 = 4 := by norm_num
    rw [e1, e2] at h
    exact h
  · have h := Nat.and_pow_two_sub_one_eq_mod Z 3
    have e1 : (2:Nat) ^ 3 - 1 = 8 - 1 := by norm_num
    have e2 : (2:Nat) ^ 3 = 8 := by norm_num
    rw [e1, e2] at h
    exact h
  · have h := Nat.and_pow_two_sub_one_eq_mod Z 4
    have e1 : (2:Nat) ^ 4 - 1 = 16 - 1 := by norm_num
    have e2 : (2:Nat) ^ 4 = 16 := by norm_num
    rw [e1, e2] at h
    exact h

theorem digit_step {a A t T : Nat} (ha : a < A) (ht : t < T) :
    a + A * t < A * T := by
  have h2 : A * t + A = A * (t + 1) := by ring
  have h3 : A * (t + 1) ≤ A * T := Nat.mul_le_mul (Nat.le_refl A) ht
  omega

theorem add_mul_lt_inj {p a b x y : Nat} (hx : x < p) (hy : y < p)
    (h : x + p * a = y + p * b) : x = y ∧ a = b := by
  have e1 : a * p = p * a := Nat.mul_comm a p
  have e2 : b * p = p * b := Nat.mul_comm b p
  have h' : a * p + x = b * p + y := by omega
  obtain ⟨h1, h2⟩ := mul_add_lt_inj hx hy h'
  exact ⟨h2, h1⟩

theorem div8_mul8_div (Y bh : Nat) :
    Y / 8 * 8 / (8 * bh) = Y / (8 * bh) := by
  rw [Nat.mul_comm (Y / 8) 8,
    Nat.mul_div_mul_left (Y / 8) bh (by norm_num : (0:Nat) < 8)]
  rw [Nat.div_div_eq_div_mul]

theorem div8_mul8_mod (Y bh : Nat) :
    Y / 8 * 8 % (8 * bh) / 8 = Y / 8 % bh := by
  rw [Nat.mul_comm (Y / 8) 8, Nat.mul_mod_mul_left]
  exact Nat.mul_div_cancel_left _ (by norm_num)

theorem swizzled_address_decomp (w h bh bd bpp X Y Z : Nat)
    (hbd : bd = 1 ∨ bd = 2 ∨ bd = 4 ∨ bd = 8 ∨ bd = 16) :
    swizzled_address w h bh bd bpp X Y Z
      = 512 * (Y / 8 % bh
          + bh * (Z % bd
          + bd * (X / 64
          + width_in_gobs w bpp * (Y / (8 * bh)
          + height_in_blocks h bh * (Z / bd)))))
        + gob_offset (X % 64) (Y % 8) := by
  unfold swizzled_address mip_gob_address gob_address_z gob_address_y
    gob_address_x slice_size height_in_blocks GOB_SIZE_IN_BYTES
    GOB_WIDTH_IN_BYTES GOB_HEIGHT_IN_BYTES
  dsimp only
  rw [and_mask_eq_mod Z bd hbd]
  rw [div8_mul8_div Y bh, div8_mul8_mod Y bh]
  have hc : X / 64 * 64 / 64 = X / 64 := by omega
  rw [hc]
  ring

theorem round_up_eq_div_round_up_mul (x n : Nat) :
    round_up x n = div_round_up x n * n := rfl

theorem div_lt_width_in_gobs {w bpp X : Nat} (hX : X < w * bpp) :
    X / 64 < width_in_gobs w bpp := by
  rw [Nat.div_lt_iff_lt_mul (by norm_num : (0:Nat) < 64)]
  calc X < w * bpp := hX
    _ ≤ width_in_gobs w bpp * 64 := by
        have h := le_div_round_up_mul (w * bpp) 64 (by norm_num)
        unfold width_in_gobs GOB_WIDTH_IN_BYTES
        exact h

theorem div_lt_height_in_blocks {h bh Y : Nat} (hbh : 0 < bh) (hY : Y < h) :
    Y / (8 * bh) < height_in_blocks h bh := by
  rw [Nat.div_lt_iff_lt_mul (by positivity)]
  calc Y < h := hY
    _ ≤ height_in_blocks h bh * (8 * bh) := by
        have hle := le_div_round_up_mul h (bh * 8) (by positivity)
        unfold height_in_blocks GOB_HEIGHT_IN_BYTES
        have e : bh * 8 = 8 * bh := Nat.mul_comm bh 8
        rw [← e]
        exact hle

theorem div_lt_div_round_up {d bd Z : Nat} (hbd : 0 < bd) (hZ : Z < d) :
    Z / bd < div_round_up d bd := by
  rw [Nat.div_lt_iff_lt_mul hbd]
  calc Z < d := hZ
    _ ≤ div_round_up d bd * bd := le_div_round_up_mul d bd hbd

theorem gob_offset_mod_lt (X Y : Nat) : gob_offset (X % 64) (Y % 8) < 512 :=
  gob_offset_lt ⟨X % 64, Nat.mod_lt _ (by norm_num)⟩
    ⟨Y % 8, Nat.mod_lt _ (by norm_num)⟩

theorem swizzled_address_lt (w h d bh bd bpp X Y Z : Nat) (hbh : 0 < bh)
    (hbd : bd = 1 ∨ bd = 2 ∨ bd = 4 ∨ bd = 8 ∨ bd = 16)
    (hX : X < w * bpp) (hY : Y < h) (hZ : Z < d)
    (hround : round_up d bd ≤ round_up d (block_depth d)) :
    swizzled_address w h bh bd bpp X Y Z < swizzled_mip_size w h d bh bpp := by
  rw [swizzled_address_decomp w h bh bd bpp X Y Z hbd]
  have hbd0 : 0 < bd := by rcases hbd with rfl | rfl | rfl | rfl | rfl <;> norm_num
  have hcy1 : Y / 8 % bh < bh := Nat.mod_lt _ hbh
  have hcz1 : Z % bd < bd := Nat.mod_lt _ hbd0
  have hcx := div_lt_width_in_gobs hX
  have hcy2 := div_lt_height_in_blocks hbh hY
  have hcz2 := div_lt_div_round_up hbd0 hZ
  have hgo := gob_offset_mod_lt X Y
  have hG : Y / 8 % bh
      + bh * (Z % bd
      + bd * (X / 64
      + width_in_gobs w bpp * (Y / (8 * bh)
      + height_in_blocks h bh * (Z / bd))))
      < bh * (bd * (width_in_gobs w bpp
          * (height_in_blocks h bh * div_round_up d bd))) := by
    apply digit_step hcy1
    apply digit_step hcz1
    apply digit_step hcx
    exact digit_step hcy2 hcz2
  have hsize : 512 * (bh * (bd * (width_in_gobs w bpp
      * (height_in_blocks h bh * div_round_up d bd))))
      ≤ swizzled_mip_size w h d bh bpp := by
    have e1 : 512 * (bh * (bd * (width_in_gobs w bpp
        * (height_in_blocks h bh * div_round_up d bd))))
        = width_in_gobs w bpp * (height_in_blocks h bh * bh)
            * (div_round_up d bd * bd) * 512 := by ring
    rw [e1, ← round_up_eq_div_round_up_mul]
    unfold swizzled_mip_size
    dsimp only
    exact Nat.mul_le_mul (Nat.mul_le_mul
      (Nat.le_refl _) hround) (by norm_num [GOB_SIZE_IN_BYTES,
        GOB_WIDTH_IN_BYTES, GOB_HEIGHT_IN_BYTES])
  calc 512 * (Y / 8 % bh
      + bh * (Z % bd
      + bd * (X / 64
      + width_in_gobs w bpp * (Y / (8 * bh)
      + height_in_blocks h bh * (Z / bd)))))
      + gob_offset (X % 64) (Y % 8)
      < 512 * (Y / 8 % bh
      + bh * (Z % bd
      + bd * (X / 64
      + width_in_gobs w bpp * (Y / (8 * bh)
      + height_in_blocks h bh * (Z / bd))))) + 512 := by omega
    _ = 512 * ((Y / 8 % bh
      + bh * (Z % bd
      + bd * (X / 64
      + width_in_gobs w bpp * (Y / (8 * bh)
      + height_in_blocks h bh * (Z / bd))))) + 1) := by ring
    _ ≤ 512 * (bh * (bd * (width_in_gobs w bpp
          * (height_in_blocks h bh * div_round_up d bd)))) :=
        Nat.mul_le_mul (Nat.le_refl _) (Nat.succ_le_of_lt hG)
    _ ≤ swizzled_mip_size w h d bh bpp := hsize

theorem swizzled_address_inj (w h bh bd bpp X Y Z X' Y' Z' : Nat)
    (hbh : 0 < bh)
    (hbd : bd = 1 ∨ bd = 2 ∨ bd = 4 ∨ bd = 8 ∨ bd = 16)
    (hX : X < w * bpp) (hY : Y < h) (hX' : X' < w * bpp) (hY' : Y' < h)
    (heq : swizzled_address w h bh bd bpp X Y Z
      = swizzled_address w h bh bd bpp X' Y' Z') :
    X = X' ∧ Y = Y' ∧ Z = Z' := by
  have hbd0 : 0 < bd := by rcases hbd with rfl | rfl | rfl | rfl | rfl <;> norm_num
  rw [swizzled_address_decomp w h bh bd bpp X Y Z hbd,
    swizzled_address_decomp w h bh bd bpp X' Y' Z' hbd] at heq
  have hgo := gob_offset_mod_lt X Y
  have hgo' := gob_offset_mod_lt X' Y'
  set go1 := gob_offset (X % 64) (Y % 8) with hgo1def
  set go2 := gob_offset (X' % 64) (Y' % 8) with hgo2def
  set G1 := Y / 8 % bh
      + bh * (Z % bd
      + bd * (X / 64
      + width_in_gobs w bpp * (Y / (8 * bh)
      + height_in_blocks h bh * (Z / bd)))) with hG1def
  set G2 := Y' / 8 % bh
      + bh * (Z' % bd
      + bd * (X' / 64
      + width_in_gobs w bpp * (Y' / (8 * bh)
      + height_in_blocks h bh * (Z' / bd)))) with hG2def
  obtain ⟨hgoeq, hGeq⟩ := add_mul_lt_inj hgo hgo'
    (show go1 + 512 * G1 = go2 + 512 * G2 by omega)
  rw [hgo1def, hgo2def] at hgoeq
  obtain ⟨hx64, hy8⟩ := gob_offset_inj (Nat.mod_lt _ (by norm_num))
    (Nat.mod_lt _ (by norm_num)) (Nat.mod_lt _ (by norm_num))
    (Nat.mod_lt _ (by norm_num)) hgoeq
  rw [hG1def, hG2def] at hGeq
  obtain ⟨e_cy1, h1⟩ := add_mul_lt_inj (Nat.mod_lt _ hbh) (Nat.mod_lt _ hbh) hGeq
  obtain ⟨e_cz1, h2⟩ := add_mul_lt_inj (Nat.mod_lt _ hbd0) (Nat.mod_lt _ hbd0) h1
  obtain ⟨e_cx, h3⟩ := add_mul_lt_inj (div_lt_width_in_gobs hX)
    (div_lt_width_in_gobs hX') h2
  obtain ⟨e_cy2, e_cz2⟩ := add_mul_lt_inj (div_lt_height_in_blocks hbh hY)
    (div_lt_height_in_blocks hbh hY') h3
  refine ⟨by omega, ?_, ?_⟩
  · have d1 := Nat.div_add_mod (Y / 8) bh
    have d2 := Nat.div_add_mod (Y' / 8) bh
    have dd1 : Y / 8 / bh = Y / (8 * bh) := Nat.div_div_eq_div_mul Y 8 bh
    have dd2 : Y' / 8 / bh = Y' / (8 * bh) := Nat.div_div_eq_div_mul Y' 8 bh
    rw [dd1, e_cy2] at d1
    rw [dd2] at d2
    omega
  · have d1 := Nat.div_add_mod Z bd
    have d2 := Nat.div_add_mod Z' bd
    rw [e_cz2] at d1
    omega

theorem linear_address_eq_radix (w h bpp X Y Z : Nat) :
    linear_address w h bpp X Y Z = X + w * bpp * (Y + h * Z) := by
  unfold linear_address
  ring

theorem linear_address_lt (w h d bpp X Y Z : Nat)
    (hX : X < w * bpp) (hY : Y < h) (hZ : Z < d) :
    linear_address w h bpp X Y Z < deswizzled_mip_size w h d bpp := by
  rw [linear_address_eq_radix]
  have hstep := digit_step hX (digit_step hY hZ)
  calc X + w * bpp * (Y + h * Z) < w * bpp * (h * d) := hstep
    _ = w * h * d * bpp := by ring
    _ = deswizzled_mip_size w h d bpp := rfl

theorem linear_address_inj (w h bpp X Y Z X' Y' Z' : Nat)
    (hX : X < w * bpp) (hY : Y < h) (hX' : X' < w * bpp) (hY' : Y' < h)
    (heq : linear_address w h bpp X Y Z = linear_address w h bpp X' Y' Z') :
    X = X' ∧ Y = Y' ∧ Z = Z' := by
  rw [linear_address_eq_radix, linear_address_eq_radix] at heq
  obtain ⟨hx, h1⟩ := add_mul_lt_inj hX hX' heq
  obtain ⟨hy, hz⟩ := add_mul_lt_inj hY hY' h1
  exact ⟨hx, hy, hz⟩

theorem linear_address_cover (w h d bpp j : Nat)
    (hj : j < deswizzled_mip_size w h d bpp) :
    ∃ X Y Z, X < w * bpp ∧ Y < h ∧ Z < d
      ∧ linear_address w h bpp X Y Z = j := by
  have hpos : 0 < deswizzled_mip_size w h d bpp :=
    Nat.lt_of_le_of_lt (Nat.zero_le j) hj
  have hwbpp : 0 < w * bpp := by
    rcases Nat.eq_zero_or_pos (w * bpp) with h0 | h0
    · exfalso
      have : deswizzled_mip_size w h d bpp = 0 := by
        unfold deswizzled_mip_size
        have hw0 : w = 0 ∨ bpp = 0 := Nat.mul_eq_zero.mp h0
        rcases hw0 with rfl | rfl
        · simp
        · simp
      omega
    · exact h0
  have hh : 0 < h := by
    rcases Nat.eq_zero_or_pos h with rfl | h0
    · exfalso
      have : deswizzled_mip_size w 0 d bpp = 0 := by
        unfold deswizzled_mip_size
        simp
      omega
    · exact h0
  have hd : 0 < d := by
    rcases Nat.eq_zero_or_pos d with rfl | h0
    · exfalso
      have : deswizzled_mip_size w h 0 bpp = 0 := by
        unfold deswizzled_mip_size
        simp
      omega
    · exact h0
  refine ⟨j % (w * bpp), j / (w * bpp) % h, j / (w * bpp) / h,
    Nat.mod_lt _ hwbpp, Nat.mod_lt _ hh, ?_, ?_⟩
  · rw [Nat.div_div_eq_div_mul]
    rw [Nat.div_lt_iff_lt_mul (by positivity)]
    calc j < deswizzled_mip_size w h d bpp := hj
      _ = d * (w * bpp * h) := by
          unfold deswizzled_mip_size
          ring
  · rw [linear_address_eq_radix]
    have d1 := Nat.div_add_mod (j / (w * bpp)) h
    have d2 := Nat.div_add_mod j (w * bpp)
    have e : w * bpp * (j / (w * bpp) % h + h * (j / (w * bpp) / h))
        = w * bpp * (j / (w * bpp)) := by
      have e2 : j / (w * bpp) % h + h * (j / (w * bpp) / h) = j / (w * bpp) := by
        omega
      rw [e2]
    omega

-- Mip-level write-list characterization --------------------------------------

theorem swizzle_inner_slow_eq_writes (D : Bool) (w h d : Nat)
    (src dst : Array Nat) (bh bd bpp : Nat) :
    swizzle_inner_slow D w h d src dst bh bd bpp
      = writes dst (mip_write_list D w h d src bh bd bpp) := by
  unfold swizzle_inner_slow mip_write_list mip_gobs
  dsimp only
  rw [writes_flatMap, foldl_flatMap_eq]
  apply List.foldl_ext
  intro a z0 _
  rw [foldl_flatMap_eq]
  apply List.foldl_ext
  intro b y0 _
  rw [List.foldl_map]
  apply List.foldl_ext
  intro c x0 _
  dsimp only
  rw [swizzle_deswizzle_gob_eq_writes]
  rfl

theorem mem_step_range {bound step t : Nat} :
    t ∈ step_range bound step
      ↔ ∃ j, j < div_round_up bound step ∧ t = j * step := by
  unfold step_range
  simp only [List.mem_map, List.mem_range]
  constructor
  · rintro ⟨j, hj, rfl⟩
    exact ⟨j, hj, rfl⟩
  · rintro ⟨j, hj, rfl⟩
    exact ⟨j, hj, rfl⟩

theorem gob_write_eq_addresses (D : Bool) (src : Array Nat)
    (w h bh bd bpp z0 y0 x0 y x : Nat) (hy0 : y0 % 8 = 0) (hx0 : x0 % 64 = 0)
    (hy : y < 8) (hx : x < 64) :
    gob_write D src x0 y0 z0 w h bpp
        (mip_gob_address w h bh bd bpp z0 y0 x0) (y, x)
      = (if D then
          (linear_address w h bpp (x0 + x) (y0 + y) z0,
            src.getD (swizzled_address w h bh bd bpp (x0 + x) (y0 + y) z0) 0)
        else
          (swizzled_address w h bh bd bpp (x0 + x) (y0 + y) z0,
            src.getD (linear_address w h bpp (x0 + x) (y0 + y) z0) 0)) := by
  have hswz : swizzled_address w h bh bd bpp (x0 + x) (y0 + y) z0
      = mip_gob_address w h bh bd bpp z0 y0 x0 + gob_offset x y := by
    unfold swizzled_address
    have e1 : (y0 + y) / 8 * 8 = y0 := by omega
    have e2 : (x0 + x) / 64 * 64 = x0 := by omega
    have e3 : (x0 + x) % 64 = x := by omega
    have e4 : (y0 + y) % 8 = y := by omega
    rw [e1, e2, e3, e4]
  have hlin : linear_address w h bpp (x0 + x) (y0 + y) z0
      = z0 * w * h * bpp + (y0 + y) * w * bpp + x0 + x := by
    unfold linear_address
    ring
  cases D
  · rw [gob_write_false]
    dsimp only
    rw [hswz, hlin]
    rfl
  · rw [gob_write_true]
    dsimp only
    rw [hswz, hlin]
    rfl

theorem mem_mip_write_list (D : Bool) (w h d : Nat) (src : Array Nat)
    (bh bd bpp : Nat) (pr : Nat × Nat) :
    pr ∈ mip_write_list D w h d src bh bd bpp
      ↔ ∃ X Y Z, X < w * bpp ∧ Y < h ∧ Z < d
          ∧ pr = (if D then
              (linear_address w h bpp X Y Z,
                src.getD (swizzled_address w h bh bd bpp X Y Z) 0)
            else
              (swizzled_address w h bh bd bpp X Y Z,
                src.getD (linear_address w h bpp X Y Z) 0)) := by
  unfold mip_write_list mip_gobs gob_write_list
  constructor
  · intro hpr
    rcases List.mem_flatMap.mp hpr with ⟨g, hg, hmemg⟩
    rcases List.mem_flatMap.mp hg with ⟨z0, hz0, hg2⟩
    rcases List.mem_flatMap.mp hg2 with ⟨y0, hy0m, hg3⟩
    rcases List.mem_map.mp hg3 with ⟨x0, hx0m, hgeq⟩
    rcases List.mem_map.mp hmemg with ⟨p, hpfilter, hpr_eq⟩
    rcases List.mem_filter.mp hpfilter with ⟨hpgob, hcond⟩
    obtain ⟨py, px⟩ := p
    obtain ⟨hy8, hx64⟩ := mem_gob_positions.mp hpgob
    simp only at hy8 hx64
    subst hgeq
    simp only [decide_eq_true_eq] at hcond
    obtain ⟨hcy, hcx⟩ := hcond
    rcases mem_step_range.mp hy0m with ⟨jy, hjy, rfl⟩
    rcases mem_step_range.mp hx0m with ⟨jx, hjx, rfl⟩
    refine ⟨jx * GOB_WIDTH_IN_BYTES + px, jy * GOB_HEIGHT_IN_BYTES + py, z0,
      hcx, hcy, List.mem_range.mp hz0, ?_⟩
    rw [← hpr_eq]
    exact gob_write_eq_addresses D src w h bh bd bpp z0
      (jy * GOB_HEIGHT_IN_BYTES) (jx * GOB_WIDTH_IN_BYTES) py px
      (by show jy * 8 % 8 = 0; omega) (by show jx * 64 % 64 = 0; omega)
      hy8 hx64
  · rintro ⟨X, Y, Z, hX, hY, hZ, rfl⟩
    apply List.mem_flatMap.mpr
    refine ⟨(Z, Y / 8 * 8, X / 64 * 64), ?_, ?_⟩
    · apply List.mem_flatMap.mpr
      refine ⟨Z, List.mem_range.mpr hZ, ?_⟩
      apply List.mem_flatMap.mpr
      refine ⟨Y / 8 * 8, ?_, ?_⟩
      · apply mem_step_range.mpr
        refine ⟨Y / 8, ?_, rfl⟩
        show Y / 8 < (h + 8 - 1) / 8
        omega
      · apply List.mem_map.mpr
        refine ⟨X / 64 * 64, ?_, rfl⟩
        apply mem_step_range.mpr
        refine ⟨X / 64, ?_, rfl⟩
        show X / 64 < (w * bpp + 64 - 1) / 64
        omega
    · dsimp only
      apply List.mem_map.mpr
      refine ⟨(Y % 8, X % 64), ?_, ?_⟩
      · apply List.mem_filter.mpr
        refine ⟨mem_gob_positions.mpr ⟨by omega, by omega⟩, ?_⟩
        simp only [decide_eq_true_eq]
        constructor
        · show Y / 8 * 8 + Y % 8 < h
          omega
        · show X / 64 * 64 + X % 64 < w * bpp
          omega
      · have hb := gob_write_eq_addresses D src w h bh bd bpp Z (Y / 8 * 8)
          (X / 64 * 64) (Y % 8) (X % 64) (by omega) (by omega) (by omega)
          (by omega)
        rw [hb]
        have e1 : X / 64 * 64 + X % 64 = X := by omega
        have e2 : Y / 8 * 8 + Y % 8 = Y := by omega
        rw [e1, e2]

theorem mip_write_list_fn (D : Bool) (w h d : Nat) (src : Array Nat)
    (bh bd bpp : Nat) (hbh : 0 < bh)
    (hbd : bd = 1 ∨ bd = 2 ∨ bd = 4 ∨ bd = 8 ∨ bd = 16) :
    ∀ k v v', (k, v) ∈ mip_write_list D w h d src bh bd bpp →
      (k, v') ∈ mip_write_list D w h d src bh bd bpp → v = v' := by
  intro k v v' h1 h2
  rcases (mem_mip_write_list D w h d src bh bd bpp _).mp h1
    with ⟨X, Y, Z, hX, hY, hZ, he1⟩
  rcases (mem_mip_write_list D w h d src bh bd bpp _).mp h2
    with ⟨X', Y', Z', hX', hY', hZ', he2⟩
  cases D
  · have he1' : (k, v) = (swizzled_address w h bh bd bpp X Y Z,
        src.getD (linear_address w h bpp X Y Z) 0) := he1
    have he2' : (k, v') = (swizzled_address w h bh bd bpp X' Y' Z',
        src.getD (linear_address w h bpp X' Y' Z') 0) := he2
    have hk1 : k = swizzled_address w h bh bd bpp X Y Z :=
      congrArg Prod.fst he1'
    have hk2 : k = swizzled_address w h bh bd bpp X' Y' Z' :=
      congrArg Prod.fst he2'
    obtain ⟨e1, e2, e3⟩ := swizzled_address_inj w h bh bd bpp X Y Z X' Y' Z'
      hbh hbd hX hY hX' hY' (hk1.symm.trans hk2)
    have hv1 : v = src.getD (linear_address w h bpp X Y Z) 0 :=
      congrArg Prod.snd he1'
    have hv2 : v' = src.getD (linear_address w h bpp X' Y' Z') 0 :=
      congrArg Prod.snd he2'
    rw [hv1, hv2, e1, e2, e3]
  · have he1' : (k, v) = (linear_address w h bpp X Y Z,
        src.getD (swizzled_address w h bh bd bpp X Y Z) 0) := he1
    have he2' : (k, v') = (linear_address w h bpp X' Y' Z',
        src.getD (swizzled_address w h bh bd bpp X' Y' Z') 0) := he2
    have hk1 : k = linear_address w h bpp X Y Z := congrArg Prod.fst he1'
    have hk2 : k = linear_address w h bpp X' Y' Z' := congrArg Prod.fst he2'
    obtain ⟨e1, e2, e3⟩ := linear_address_inj w h bpp X Y Z X' Y' Z'
      hX hY hX' hY' (hk1.symm.trans hk2)
    have hv1 : v = src.getD (swizzled_address w h bh bd bpp X Y Z) 0 :=
      congrArg Prod.snd he1'
    have hv2 : v' = src.getD (swizzled_address w h bh bd bpp X' Y' Z') 0 :=
      congrArg Prod.snd he2'
    rw [hv1, hv2, e1, e2, e3]

theorem swizzle_inner_eq_writes (D : Bool) (w h d : Nat)
    (src dst : Array Nat) (bh bd bpp : Nat) :
    swizzle_inner D w h d src dst bh bd bpp
      = writes dst (mip_write_list D w h d src bh bd bpp) :=
  (swizzle_inner_eq_slow D w h d src dst bh bd bpp).trans
    (swizzle_inner_slow_eq_writes D w h d src dst bh bd bpp)

theorem size_swizzle_inner (D : Bool) (w h d : Nat) (src dst : Array Nat)
    (bh bd bpp : Nat) :
    (swizzle_inner D w h d src dst bh bd bpp).size = dst.size := by
  rw [swizzle_inner_eq_writes]
  exact size_writes _ _

theorem swizzle_inner_getD_swizzled (w h d : Nat) (src dst : Array Nat)
    (bh bd bpp X Y Z : Nat) (hbh : 0 < bh)
    (hbd : bd = 1 ∨ bd = 2 ∨ bd = 4 ∨ bd = 8 ∨ bd = 16)
    (hX : X < w * bpp) (hY : Y < h) (hZ : Z < d)
    (hsz : swizzled_address w h bh bd bpp X Y Z < dst.size) :
    (swizzle_inner false w h d src dst bh bd bpp).getD
        (swizzled_address w h bh bd bpp X Y Z) 0
      = src.getD (linear_address w h bpp X Y Z) 0 := by
  rw [swizzle_inner_eq_writes]
  have hmem : (swizzled_address w h bh bd bpp X Y Z,
      src.getD (linear_address w h bpp X Y Z) 0)
      ∈ mip_write_list false w h d src bh bd bpp :=
    (mem_mip_write_list false w h d src bh bd bpp _).mpr
      ⟨X, Y, Z, hX, hY, hZ, rfl⟩
  exact getD_writes_fn _ _ _ dst
    (fun v' hv' => mip_write_list_fn false w h d src bh bd bpp hbh hbd _ v' _
      hv' hmem) hmem hsz

theorem swizzle_inner_getD_linear (w h d : Nat) (src dst : Array Nat)
    (bh bd bpp X Y Z : Nat) (hbh : 0 < bh)
    (hbd : bd = 1 ∨ bd = 2 ∨ bd = 4 ∨ bd = 8 ∨ bd = 16)
    (hX : X < w * bpp) (hY : Y < h) (hZ : Z < d)
    (hsz : linear_address w h bpp X Y Z < dst.size) :
    (swizzle_inner true w h d src dst bh bd bpp).getD
        (linear_address w h bpp X Y Z) 0
      = src.getD (swizzled_address w h bh bd bpp X Y Z) 0 := by
  rw [swizzle_inner_eq_writes]
  have hmem : (linear_address w h bpp X Y Z,
      src.getD (swizzled_address w h bh bd bpp X Y Z) 0)
      ∈ mip_write_list true w h d src bh bd bpp :=
    (mem_mip_write_list true w h d src bh bd bpp _).mpr
      ⟨X, Y, Z, hX, hY, hZ, rfl⟩
  exact getD_writes_fn _ _ _ dst
    (fun v' hv' => mip_write_list_fn true w h d src bh bd bpp hbh hbd _ v' _
      hv' hmem) hmem hsz

theorem mem_mip_write_list_keys (D : Bool) (w h d : Nat) (src : Array Nat)
    (bh bd bpp j : Nat) :
    j ∈ (mip_write_list D w h d src bh bd bpp).map Prod.fst ↔
      ∃ X Y Z, X < w * bpp ∧ Y < h ∧ Z < d
        ∧ j = (if D then linear_address w h bpp X Y Z
               else swizzled_address w h bh bd bpp X Y Z) := by
  rw [List.mem_map]
  constructor
  · rintro ⟨p, hp, rfl⟩
    rcases (mem_mip_write_list D w h d src bh bd bpp p).mp hp
      with ⟨X, Y, Z, hX, hY, hZ, he⟩
    refine ⟨X, Y, Z, hX, hY, hZ, ?_⟩
    cases D
    · have he' : p = (swizzled_address w h bh bd bpp X Y Z,
          src.getD (linear_address w h bpp X Y Z) 0) := he
      rw [he']
      rfl
    · have he' : p = (linear_address w h bpp X Y Z,
          src.getD (swizzled_address w h bh bd bpp X Y Z) 0) := he
      rw [he']
      rfl
  · rintro ⟨X, Y, Z, hX, hY, hZ, rfl⟩
    cases D
    · exact ⟨(swizzled_address w h bh bd bpp X Y Z,
        src.getD (linear_address w h bpp X Y Z) 0),
        (mem_mip_write_list false w h d src bh bd bpp _).mpr
          ⟨X, Y, Z, hX, hY, hZ, rfl⟩, rfl⟩
    · exact ⟨(linear_address w h bpp X Y Z,
        src.getD (swizzled_address w h bh bd bpp X Y Z) 0),
        (mem_mip_write_list true w h d src bh bd bpp _).mpr
          ⟨X, Y, Z, hX, hY, hZ, rfl⟩, rfl⟩

theorem swizzle_inner_getD_unwritten (D : Bool) (w h d : Nat)
    (src dst : Array Nat) (bh bd bpp j : Nat)
    (hj : ¬∃ X Y Z, X < w * bpp ∧ Y < h ∧ Z < d
        ∧ j = (if D then linear_address w h bpp X Y Z
               else swizzled_address w h bh bd bpp X Y Z)) :
    (swizzle_inner D w h d src dst bh bd bpp).getD j 0 = dst.getD j 0 := by
  rw [swizzle_inner_eq_writes]
  apply getD_writes_not_mem
  intro hmem
  exact hj ((mem_mip_write_list_keys D w h d src bh bd bpp j).mp hmem)

-- Block depth case analysis --------------------------------------------------

theorem block_depth_char (n : Nat) :
    block_depth n = if 11 ≤ n then 16 else if 6 ≤ n then 8
      else if 3 ≤ n then 4 else if 2 ≤ n then 2 else 1 := by
  unfold block_depth
  dsimp only
  split_ifs <;> omega

theorem block_depth_mem (n : Nat) :
    block_depth n = 1 ∨ block_depth n = 2 ∨ block_depth n = 4
      ∨ block_depth n = 8 ∨ block_depth n = 16 := by
  rw [block_depth_char n]
  split_ifs <;> simp

theorem mip_block_depth_stop {md bd : Nat} (h : ¬(md ≤ bd / 2 ∧ bd > 1)) :
    mip_block_depth md bd = bd := by
  rw [mip_block_depth]
  rw [dif_neg h]

theorem mip_block_depth_mem (md : Nat) :
    ∀ bd0, (bd0 = 1 ∨ bd0 = 2 ∨ bd0 = 4 ∨ bd0 = 8 ∨ bd0 = 16) →
      (mip_block_depth md bd0 = 1 ∨ mip_block_depth md bd0 = 2
        ∨ mip_block_depth md bd0 = 4 ∨ mip_block_depth md bd0 = 8
        ∨ mip_block_depth md bd0 = 16) := by
  intro bd0
  induction bd0 using Nat.strong_induction_on with
  | _ bd0 ih =>
    intro hmem
    rw [mip_block_depth]
    split
    · rename_i hcond
      exact ih (bd0 / 2) (by omega)
        (by rcases hmem with rfl | rfl | rfl | rfl | rfl
            · exact absurd hcond (by omega)
            · decide
            · decide
            · decide
            · decide)
    · exact hmem

theorem div_round_up_le_of_le {x k p : Nat} (hp : 0 < p) (h : x ≤ k * p) :
    div_round_up x p ≤ k := by
  unfold div_round_up
  have h2 : x + p - 1 ≤ k * p + (p - 1) := by omega
  have h3 : (x + p - 1) / p ≤ (k * p + (p - 1)) / p :=
    Nat.div_le_div_right h2
  have h4 : (k * p + (p - 1)) / p = k := by
    rw [Nat.mul_comm k p, Nat.mul_add_div hp, Nat.div_eq_of_lt (by omega),
      Nat.add_zero]
  omega

theorem round_up_dvd_le {x p q : Nat} (hp : 0 < p) (hq : 0 < q) (hdvd : p ∣ q) :
    round_up x p ≤ round_up x q := by
  have hxq : x ≤ round_up x q := le_round_up x q hq
  have hqdvd : q ∣ round_up x q :=
    ⟨(x + q - 1) / q, by unfold round_up; rw [Nat.mul_comm]⟩
  have hpdvd : p ∣ round_up x q := dvd_trans hdvd hqdvd
  obtain ⟨c, hc⟩ := hpdvd
  rw [hc] at hxq
  have hle : div_round_up x p ≤ c :=
    div_round_up_le_of_le hp (by rw [Nat.mul_comm c p]; exact hxq)
  calc round_up x p = div_round_up x p * p := rfl
    _ ≤ c * p := Nat.mul_le_mul_right p hle
    _ = p * c := Nat.mul_comm c p
    _ = round_up x q := hc.symm

theorem round_up_mip_block_depth_le (bd0 md : Nat) (h1 : 1 ≤ md)
    (hbd0 : bd0 = 1 ∨ bd0 = 2 ∨ bd0 = 4 ∨ bd0 = 8 ∨ bd0 = 16) :
    round_up md (mip_block_depth md bd0) ≤ round_up md (block_depth md) := by
  by_cases c11 : 11 ≤ md
  · have hbdm : block_depth md = 16 := by rw [block_depth_char md, if_pos c11]
    rw [hbdm]
    have hstop : mip_block_depth md bd0 = bd0 := by
      apply mip_block_depth_stop
      rcases hbd0 with rfl | rfl | rfl | rfl | rfl <;> omega
    rw [hstop]
    rcases hbd0 with rfl | rfl | rfl | rfl | rfl <;>
      exact round_up_dvd_le (by norm_num) (by norm_num) (by norm_num)
  · have h10 : md ≤ 10 := by omega
    rcases hbd0 with rfl | rfl | rfl | rfl | rfl <;>
      (interval_cases md <;>
        simp [mip_block_depth, round_up, div_round_up, block_depth])

-- Surface machinery: extract, copy-back and shifted writes ------------------

theorem array_ext_getD (a b : Array Nat) (hsz : a.size = b.size)
    (h : ∀ j, a.getD j 0 = b.getD j 0) : a = b := by
  apply Array.ext
  · exact hsz
  · intro i h1 h2
    rw [← getD_eq_getElem a i h1, ← getD_eq_getElem b i h2]
    exact h i

theorem setD_oob (a : Array Nat) (i v : Nat) (h : a.size ≤ i) :
    a.setD i v = a := by
  unfold Array.setD
  rw [dif_neg (by omega)]

theorem extract_getD_stop (a : Array Nat) (off e k : Nat) (he : a.size ≤ e) :
    (a.extract off e).getD k 0 = a.getD (off + k) 0 := by
  have hsz : (a.extract off e).size = a.size - off := by
    rw [Array.size_extract]; omega
  by_cases hk : k < a.size - off
  · rw [getD_eq_getElem _ _ (by omega), getD_eq_getElem _ _ (by omega)]
    exact Array.getElem_extract (by omega)
  · rw [getD_eq_zero_of_ge _ _ (by omega), getD_eq_zero_of_ge _ _ (by omega)]

theorem extract_getD (a : Array Nat) (off k : Nat) :
    (a.extract off a.size).getD k 0 = a.getD (off + k) 0 :=
  extract_getD_stop a off a.size k (le_refl _)

theorem extract_setD_comm (a : Array Nat) (off i v : Nat) :
    (a.setD (off + i) v).extract off a.size
      = (a.extract off a.size).setD i v := by
  have hsz : (a.extract off a.size).size = a.size - off := by
    rw [Array.size_extract]; omega
  apply array_ext_getD
  · simp [Array.size_extract, Array.size_setD]
  · intro j
    rw [extract_getD_stop _ _ _ _ (by rw [Array.size_setD])]
    by_cases hji : j = i
    · subst hji
      by_cases hi : j < a.size - off
      · rw [getD_setD_self _ _ _ (by omega),
          getD_setD_self _ _ _ (by omega)]
      · rw [setD_oob _ _ _ (by omega), setD_oob _ _ _ (by omega),
          extract_getD]
    · rw [getD_setD_ne _ _ _ _ (by omega), getD_setD_ne _ _ _ _ hji,
        extract_getD]

theorem getD_writes_shift (l : List (Nat × Nat)) :
    ∀ (dst : Array Nat) (off j : Nat),
      (writes dst (shift_writes off l)).getD j 0
        = if off ≤ j ∧ j < dst.size
          then (writes (dst.extract off dst.size) l).getD (j - off) 0
          else dst.getD j 0 := by
  induction l with
  | nil =>
      intro dst off j
      unfold shift_writes writes
      simp only [List.map_nil, List.foldl_nil]
      split
      · rw [extract_getD dst off (j - off)]
        congr 1
        omega
      · rfl
  | cons p rest ih =>
      intro dst off j
      have ihs := ih (dst.setD (off + p.1) p.2) off j
      unfold shift_writes writes at ihs ⊢
      simp only [List.map_cons, List.foldl_cons]
      rw [ihs, Array.size_setD, extract_setD_comm]
      split
      · rfl
      · rename_i hc
        by_cases hj : j < dst.size
        · exact getD_setD_ne _ _ _ _ (by omega)
        · rw [getD_eq_zero_of_ge _ _ (by rw [Array.size_setD]; omega),
            getD_eq_zero_of_ge _ _ (by omega)]

theorem copy_back_eq_writes (dst part : Array Nat) (off : Nat) :
    (List.range part.size).foldl
        (fun d i => d.setD (i + off) (part.getD i 0)) dst
      = writes dst ((List.range part.size).map
          fun i => (i + off, part.getD i 0)) := by
  unfold writes
  rw [List.foldl_map]

theorem keys_copy_back (part : Array Nat) (off j : Nat) :
    j ∈ (((List.range part.size).map
          fun i => (i + off, part.getD i 0)).map Prod.fst)
      ↔ off ≤ j ∧ j < off + part.size := by
  simp only [List.map_map, List.mem_map, List.mem_range, Function.comp]
  constructor
  · rintro ⟨i, hi, rfl⟩
    omega
  · rintro ⟨h1, h2⟩
    exact ⟨j - off, by omega, by omega⟩

theorem copy_back_getD (dst part : Array Nat) (off j : Nat) :
    ((List.range part.size).foldl
        (fun d i => d.setD (i + off) (part.getD i 0)) dst).getD j 0
      = if off ≤ j ∧ j < off + part.size ∧ j < dst.size
        then part.getD (j - off) 0 else dst.getD j 0 := by
  rw [copy_back_eq_writes]
  by_cases hc : off ≤ j ∧ j < off + part.size ∧ j < dst.size
  · rw [if_pos hc]
    refine getD_writes_fn _ _ _ dst ?_ ?_ hc.2.2
    · intro v' hv'
      rcases List.mem_map.mp hv' with ⟨i, hi, he⟩
      rw [Prod.mk.injEq] at he
      obtain ⟨he1, he2⟩ := he
      rw [← he2]
      congr 1
      omega
    · refine List.mem_map.mpr ⟨j - off, List.mem_range.mpr ?_, ?_⟩
      · omega
      · rw [Prod.mk.injEq]
        exact ⟨by omega, rfl⟩
  · rw [if_neg hc]
    by_cases hkey : off ≤ j ∧ j < off + part.size
    · rw [getD_eq_zero_of_ge _ _ (by rw [size_writes]; omega),
        getD_eq_zero_of_ge _ _ (by omega)]
    · apply getD_writes_not_mem
      intro hmem
      exact hkey ((keys_copy_back part off j).mp hmem)

theorem getD_mkArray (n v j : Nat) :
    (Array.mkArray n v).getD j 0 = if j < n then v else 0 := by
  by_cases hj : j < n
  · rw [if_pos hj, getD_eq_getElem _ _ (by rw [Array.size_mkArray]; exact hj)]
    exact Array.getElem_mkArray _ _ _
  · rw [if_neg hj, getD_eq_zero_of_ge _ _ (by rw [Array.size_mkArray]; omega)]

-- swizzle_mipmap as a shifted write list ------------------------------------

theorem swizzle_mipmap_spec (D : Bool) (w h d bh bd bpp : Nat)
    (source : Array Nat) (so : Nat) (dst : Array Nat) (do_ : Nat)
    (hok : so + (if D then swizzled_mip_size w h d bh bpp
                 else deswizzled_mip_size w h d bpp) ≤ source.size) :
    swizzle_mipmap D w h d bh bd bpp source so dst do_
      = .ok (writes dst (shift_writes do_
            (mip_write_list D w h d (source.extract so source.size) bh bd bpp)),
          so + (if D then swizzled_mip_size w h d bh bpp
                else deswizzled_mip_size w h d bpp),
          do_ + (if D then deswizzled_mip_size w h d bpp
                 else swizzled_mip_size w h d bh bpp)) := by
  have harr : (List.range (swizzle_inner D w h d (source.extract so source.size)
        (dst.extract do_ dst.size) bh bd bpp).size).foldl
        (fun dd i => dd.setD (i + do_)
          ((swizzle_inner D w h d (source.extract so source.size)
            (dst.extract do_ dst.size) bh bd bpp).getD i 0)) dst
      = writes dst (shift_writes do_
          (mip_write_list D w h d (source.extract so source.size) bh bd bpp)) := by
    apply array_ext_getD
    · rw [copy_back_eq_writes, size_writes, size_writes]
    · intro j
      rw [copy_back_getD, getD_writes_shift]
      rw [size_swizzle_inner]
      have hpsz : (dst.extract do_ dst.size).size = dst.size - do_ := by
        rw [Array.size_extract]; omega
      rw [hpsz]
      by_cases hc : do_ ≤ j ∧ j < dst.size
      · rw [if_pos (show do_ ≤ j ∧ j < do_ + (dst.size - do_) ∧ j < dst.size
            by omega),
          if_pos hc, swizzle_inner_eq_writes]
      · rw [if_neg (by omega), if_neg hc]
  cases D
  · simp only [Bool.false_eq_true, if_false] at hok ⊢
    unfold swizzle_mipmap
    dsimp only
    have h1 : ¬((false : Bool) = true
        ∧ source.size < so + swizzled_mip_size w h d bh bpp) :=
      fun hcon => absurd hcon.1 (by simp)
    have h2 : ¬(¬((false : Bool) = true)
        ∧ source.size < so + deswizzled_mip_size w h d bpp) :=
      fun hcon => absurd hcon.2 (by omega)
    rw [if_neg h1, if_neg h2, if_neg (show ¬((false : Bool) = true) by simp),
      harr]
  · rw [if_pos rfl] at hok
    unfold swizzle_mipmap
    dsimp only
    have h1 : ¬((true : Bool) = true
        ∧ source.size < so + swizzled_mip_size w h d bh bpp) :=
      fun hcon => absurd hcon.2 (by omega)
    have h2 : ¬(¬((true : Bool) = true)
        ∧ source.size < so + deswizzled_mip_size w h d bpp) :=
      fun hcon => hcon.1 rfl
    rw [if_neg h1, if_neg h2, if_pos rfl, if_pos rfl, if_pos rfl, harr]

-- The surface loops through the named step functions ------------------------

theorem swizzle_surface_inner_as_steps (D : Bool) (width height depth : Nat)
    (source result : Array Nat) (bdim : BlockDim) (sup : Option Nat)
    (bpp mc lc : Nat) :
    swizzle_surface_inner D width height depth source result bdim sup bpp mc lc
      = ((List.range lc).foldlM
          (surface_layer_step D width height depth bdim
            (surface_block_height_mip0 depth sup height bdim.height)
            (block_depth depth) bpp mc lc source)
          (result, 0, 0)) >>= fun st => pure st.1 := rfl

theorem foldlM_range_ok {σ : Type} (step : σ → Nat → Except SwizzleError σ)
    (inv : Nat → σ) (n : Nat) (s0 : σ) (hs0 : s0 = inv 0)
    (hstep : ∀ m, m < n → step (inv m) m = .ok (inv (m + 1))) :
    (List.range n).foldlM step s0 = .ok (inv n) := by
  subst hs0
  induction n with
  | zero => rfl
  | succ k ih =>
      rw [List.range_succ, List.foldlM_append,
        ih (fun m hm => hstep m (by omega))]
      have hbind : (do
          let b ← Except.ok (inv k)
          List.foldlM step b [k]) = List.foldlM step (inv k) [k] := rfl
      rw [hbind]
      simp only [List.foldlM_cons, List.foldlM_nil]
      rw [hstep k (by omega)]
      rfl

-- Prefix sums of mip sizes ---------------------------------------------------

theorem linSizeSum_succ (w h d : Nat) (bdim : BlockDim) (bpp m : Nat) :
    linSizeSum w h d bdim bpp (m + 1)
      = linSizeSum w h d bdim bpp m + mipLinSize w h d bdim bpp m := by
  unfold linSizeSum
  rw [List.range_succ, List.map_append, List.sum_append]
  simp

theorem swzSizeSum_succ (w h d : Nat) (bdim : BlockDim) (bh0 bpp m : Nat) :
    swzSizeSum w h d bdim bh0 bpp (m + 1)
      = swzSizeSum w h d bdim bh0 bpp m + mipSwzSize w h d bdim bh0 bpp m := by
  unfold swzSizeSum
  rw [List.range_succ, List.map_append, List.sum_append]
  simp

theorem sum_range_map_mono (f : Nat → Nat) (m n : Nat) (h : m ≤ n) :
    ((List.range m).map f).sum ≤ ((List.range n).map f).sum := by
  induction n with
  | zero =>
      have hm : m = 0 := by omega
      subst hm
      exact le_refl _
  | succ k ih =>
      by_cases hm : m = k + 1
      · subst hm
        exact le_refl _
      · calc ((List.range m).map f).sum
            ≤ ((List.range k).map f).sum := ih (by omega)
          _ ≤ ((List.range (k + 1)).map f).sum := by
              rw [List.range_succ, List.map_append, List.sum_append]
              exact Nat.le_add_right _ _

theorem sum_decomp (f : Nat → Nat) (mc j : Nat)
    (hj : j < ((List.range mc).map f).sum) :
    ∃ m r, m < mc ∧ r < f m ∧ j = ((List.range m).map f).sum + r := by
  induction mc with
  | zero => simp at hj
  | succ k ih =>
      rw [List.range_succ, List.map_append, List.sum_append] at hj
      simp only [List.map_cons, List.map_nil, List.sum_cons, List.sum_nil] at hj
      by_cases hk : j < ((List.range k).map f).sum
      · rcases ih hk with ⟨m, r, h1, h2, h3⟩
        exact ⟨m, r, by omega, h2, h3⟩
      · exact ⟨k, j - ((List.range k).map f).sum, by omega, by omega, by omega⟩

theorem sum_decomp_inj (f : Nat → Nat) (m m' r r' : Nat)
    (hr : r < f m) (hr' : r' < f m')
    (h : ((List.range m).map f).sum + r = ((List.range m').map f).sum + r') :
    m = m' ∧ r = r' := by
  rcases Nat.lt_trichotomy m m' with hlt | heq | hgt
  · exfalso
    have h1 : ((List.range (m + 1)).map f).sum ≤ ((List.range m').map f).sum :=
      sum_range_map_mono f (m + 1) m' hlt
    rw [List.range_succ, List.map_append, List.sum_append] at h1
    simp only [List.map_cons, List.map_nil, List.sum_cons, List.sum_nil] at h1
    omega
  · subst heq
    exact ⟨rfl, by omega⟩
  · exfalso
    have h1 : ((List.range (m' + 1)).map f).sum ≤ ((List.range m).map f).sum :=
      sum_range_map_mono f (m' + 1) m hgt
    rw [List.range_succ, List.map_append, List.sum_append] at h1
    simp only [List.map_cons, List.map_nil, List.sum_cons, List.sum_nil] at h1
    omega

-- Alignment advances by a fixed block per layer ------------------------------

theorem align_layer_size_add_multiple (S height depth bh0 dg i : Nat) :
    align_layer_size (i * align_layer_size S height depth bh0 dg + S)
        height depth bh0 dg
      = (i + 1) * align_layer_size S height depth bh0 dg := by
  unfold align_layer_size
  dsimp only
  obtain ⟨B, hB⟩ : ∃ B, mip_block_height height bh0 * mip_block_depth depth dg
      * GOB_SIZE_IN_BYTES = B := ⟨_, rfl⟩
  rw [hB]
  rcases Nat.eq_zero_or_pos B with hB0 | hBpos
  · subst hB0
    simp only [Nat.div_zero, Nat.zero_mul, Nat.mul_zero, Nat.add_zero,
      Nat.zero_add]
    by_cases hS : S = 0
    · subst hS
      simp
    · rw [if_pos hS]
      simp [hS]
  · have hq := Nat.div_add_mod S B
    obtain ⟨q, hqd⟩ : ∃ q, S / B = q := ⟨_, rfl⟩
    obtain ⟨r, hrd⟩ : ∃ r, S % B = r := ⟨_, rfl⟩
    rw [hqd, hrd] at hq
    have hrB : r < B := by rw [← hrd]; exact Nat.mod_lt _ hBpos
    by_cases hr0 : r = 0
    · subst hr0
      have hS : S = B * q := by omega
      have hinner : ¬(S ≠ S / B * B) := by
        rw [hqd, Nat.mul_comm, ← hS]
        exact fun hcon => hcon rfl
      rw [if_neg hinner]
      have hx : i * S + S = B * (i * q + q) := by rw [hS]; ring
      have hxdiv : (i * S + S) / B = i * q + q := by
        rw [hx, Nat.mul_div_cancel_left _ hBpos]
      have houter : ¬(i * S + S ≠ (i * S + S) / B * B) := by
        rw [hxdiv, Nat.mul_comm (i * q + q) B, ← hx]
        exact fun hcon => hcon rfl
      rw [if_neg houter]
      ring
    · have hinner : S ≠ S / B * B := by
        rw [hqd, Nat.mul_comm]
        omega
      rw [if_pos hinner]
      have hx : i * ((S / B + 1) * B) + S = B * (i * (q + 1) + q) + r := by
        rw [hqd, ← hq]
        ring
      have hxdiv : (i * ((S / B + 1) * B) + S) / B = i * (q + 1) + q := by
        rw [hx, Nat.mul_add_div hBpos, Nat.div_eq_of_lt hrB, Nat.add_zero]
      have houter : i * ((S / B + 1) * B) + S
          ≠ (i * ((S / B + 1) * B) + S) / B * B := by
        rw [hxdiv, hx, Nat.mul_comm]
        omega
      rw [if_pos houter, hxdiv, hqd]
      ring

-- The per-layer mip loop as one write list -----------------------------------

theorem surface_mip_loop (D : Bool) (width height depth : Nat)
    (bdim : BlockDim) (bh0 bd0 bpp : Nat) (source res0 : Array Nat)
    (so0 do0 mc : Nat)
    (hsrc : ∀ m, m < mc →
      so0 + (if D then swzSizeSum width height depth bdim bh0 bpp m
                  + mipSwzSize width height depth bdim bh0 bpp m
             else linSizeSum width height depth bdim bpp m
                  + mipLinSize width height depth bdim bpp m) ≤ source.size) :
    (List.range mc).foldlM
        (surface_mip_step D width height depth bdim bh0 bd0 bpp source)
        (res0, so0, do0)
      = .ok (writes res0 ((List.range mc).flatMap fun m =>
            shift_writes
              (do0 + (if D then linSizeSum width height depth bdim bpp m
                     else swzSizeSum width height depth bdim bh0 bpp m))
              (mip_write_list D (mipWidth width bdim m)
                (mipHeight height bdim m) (mipDepth depth bdim m)
                (source.extract
                  (so0 + (if D then swzSizeSum width height depth bdim bh0 bpp m
                          else linSizeSum width height depth bdim bpp m))
                  source.size)
                (mip_block_height (mipHeight height bdim m) bh0)
                (mip_block_depth (mipDepth depth bdim m) bd0) bpp)),
          so0 + (if D then swzSizeSum width height depth bdim bh0 bpp mc
                 else linSizeSum width height depth bdim bpp mc),
          do0 + (if D then linSizeSum width height depth bdim bpp mc
                 else swzSizeSum width height depth bdim bh0 bpp mc)) := by
  cases D
  · simp only [Bool.false_eq_true, if_false] at hsrc ⊢
    refine foldlM_range_ok _ (fun m =>
      (writes res0 ((List.range m).flatMap fun k =>
          shift_writes (do0 + swzSizeSum width height depth bdim bh0 bpp k)
            (mip_write_list false (mipWidth width bdim k)
              (mipHeight height bdim k) (mipDepth depth bdim k)
              (source.extract (so0 + linSizeSum width height depth bdim bpp k)
                source.size)
              (mip_block_height (mipHeight height bdim k) bh0)
              (mip_block_depth (mipDepth depth bdim k) bd0) bpp)),
        so0 + linSizeSum width height depth bdim bpp m,
        do0 + swzSizeSum width height depth bdim bh0 bpp m)) mc _ rfl ?_
    intro m hm
    have hsum := linSizeSum_succ width height depth bdim bpp m
    have hsum2 := swzSizeSum_succ width height depth bdim bh0 bpp m
    have h1 := hsrc m hm
    simp only [mipLinSize, mipSwzSize] at h1 hsum hsum2
    have hok2 : so0 + linSizeSum width height depth bdim bpp m
        + deswizzled_mip_size (mipWidth width bdim m) (mipHeight height bdim m)
          (mipDepth depth bdim m) bpp ≤ source.size := by omega
    unfold surface_mip_step
    dsimp only
    rw [swizzle_mipmap_spec false (mipWidth width bdim m)
      (mipHeight height bdim m) (mipDepth depth bdim m)
      (mip_block_height (mipHeight height bdim m) bh0)
      (mip_block_depth (mipDepth depth bdim m) bd0)
      bpp source (so0 + linSizeSum width height depth bdim bpp m) _
      (do0 + swzSizeSum width height depth bdim bh0 bpp m) hok2]
    simp only [Bool.false_eq_true, if_false]
    rw [← writes_append, List.range_succ, List.flatMap_append]
    simp only [List.flatMap_cons, List.flatMap_nil, List.append_nil]
    have hoff1 : so0 + linSizeSum width height depth bdim bpp m
        + deswizzled_mip_size (mipWidth width bdim m) (mipHeight height bdim m)
          (mipDepth depth bdim m) bpp
        = so0 + linSizeSum width height depth bdim bpp (m + 1) := by omega
    have hoff2 : do0 + swzSizeSum width height depth bdim bh0 bpp m
        + swizzled_mip_size (mipWidth width bdim m) (mipHeight height bdim m)
          (mipDepth depth bdim m)
          (mip_block_height (mipHeight height bdim m) bh0) bpp
        = do0 + swzSizeSum width height depth bdim bh0 bpp (m + 1) := by omega
    rw [hoff1, hoff2]
  · simp only [eq_self_iff_true, if_true] at hsrc ⊢
    refine foldlM_range_ok _ (fun m =>
      (writes res0 ((List.range m).flatMap fun k =>
          shift_writes (do0 + linSizeSum width height depth bdim bpp k)
            (mip_write_list true (mipWidth width bdim k)
              (mipHeight height bdim k) (mipDepth depth bdim k)
              (source.extract
                (so0 + swzSizeSum width height depth bdim bh0 bpp k)
                source.size)
              (mip_block_height (mipHeight height bdim k) bh0)
              (mip_block_depth (mipDepth depth bdim k) bd0) bpp)),
        so0 + swzSizeSum width height depth bdim bh0 bpp m,
        do0 + linSizeSum width height depth bdim bpp m)) mc _ rfl ?_
    intro m hm
    have hsum := linSizeSum_succ width height depth bdim bpp m
    have hsum2 := swzSizeSum_succ width height depth bdim bh0 bpp m
    have h1 := hsrc m hm
    simp only [mipLinSize, mipSwzSize] at h1 hsum hsum2
    have hok2 : so0 + swzSizeSum width height depth bdim bh0 bpp m
        + swizzled_mip_size (mipWidth width bdim m) (mipHeight height bdim m)
          (mipDepth depth bdim m)
          (mip_block_height (mipHeight height bdim m) bh0) bpp
        ≤ source.size := by omega
    unfold surface_mip_step
    dsimp only
    rw [swizzle_mipmap_spec true (mipWidth width bdim m)
      (mipHeight height bdim m) (mipDepth depth bdim m)
      (mip_block_height (mipHeight height bdim m) bh0)
      (mip_block_depth (mipDepth depth bdim m) bd0)
      bpp source (so0 + swzSizeSum width height depth bdim bh0 bpp m) _
      (do0 + linSizeSum width height depth bdim bpp m) hok2]
    simp only [eq_self_iff_true, if_true]
    rw [← writes_append, List.range_succ, List.flatMap_append]
    simp only [List.flatMap_cons, List.flatMap_nil, List.append_nil]
    have hoff1 : so0 + swzSizeSum width height depth bdim bh0 bpp m
        + swizzled_mip_size (mipWidth width bdim m) (mipHeight height bdim m)
          (mipDepth depth bdim m)
          (mip_block_height (mipHeight height bdim m) bh0) bpp
        = so0 + swzSizeSum width height depth bdim bh0 bpp (m + 1) := by omega
    have hoff2 : do0 + linSizeSum width height depth bdim bpp m
        + deswizzled_mip_size (mipWidth width bdim m) (mipHeight height bdim m)
          (mipDepth depth bdim m) bpp
        = do0 + linSizeSum width height depth bdim bpp (m + 1) := by omega
    rw [hoff1, hoff2]

-- The layer loop as one write list (swizzle direction) -----------------------

theorem except_bind_ok {α β : Type} (a : α)
    (f : α → Except SwizzleError β) : (Except.ok a >>= f) = f a := rfl

theorem flatMap_congr_mem {α β : Type} (l : List α) (f g : α → List β)
    (h : ∀ x ∈ l, f x = g x) : l.flatMap f = l.flatMap g := by
  induction l with
  | nil => rfl
  | cons a as ih =>
      simp only [List.flatMap_cons]
      rw [h a (List.mem_cons_self a as),
        ih (fun x hx => h x (List.mem_cons_of_mem a hx))]

theorem surface_layer_loop_swizzle (width height depth : Nat)
    (bdim : BlockDim) (bh0 bd0 bpp mc lc : Nat) (source result : Array Nat)
    (hsrc : ∀ i m, i < lc → m < mc →
      i * linSizeSum width height depth bdim bpp mc
        + (linSizeSum width height depth bdim bpp m
           + mipLinSize width height depth bdim bpp m) ≤ source.size) :
    (List.range lc).foldlM
        (surface_layer_step false width height depth bdim bh0 bd0 bpp mc lc
          source)
        (result, 0, 0)
      = .ok (writes result ((List.range lc).flatMap fun i =>
          (List.range mc).flatMap fun m =>
            shift_writes
              ((if lc > 1 then
                  i * alignedLayerSwzSize width height depth bdim bh0 bpp mc
                else i * swzSizeSum width height depth bdim bh0 bpp mc)
               + swzSizeSum width height depth bdim bh0 bpp m)
              (mip_write_list false (mipWidth width bdim m)
                (mipHeight height bdim m) (mipDepth depth bdim m)
                (source.extract
                  (i * linSizeSum width height depth bdim bpp mc
                   + linSizeSum width height depth bdim bpp m) source.size)
                (mip_block_height (mipHeight height bdim m) bh0)
                (mip_block_depth (mipDepth depth bdim m) bd0) bpp)),
          lc * linSizeSum width height depth bdim bpp mc,
          if lc > 1 then
            lc * alignedLayerSwzSize width height depth bdim bh0 bpp mc
          else lc * swzSizeSum width height depth bdim bh0 bpp mc) := by
  refine foldlM_range_ok _ (fun i =>
      (writes result ((List.range i).flatMap fun i' =>
        (List.range mc).flatMap fun m =>
          shift_writes
            ((if lc > 1 then
                i' * alignedLayerSwzSize width height depth bdim bh0 bpp mc
              else i' * swzSizeSum width height depth bdim bh0 bpp mc)
             + swzSizeSum width height depth bdim bh0 bpp m)
            (mip_write_list false (mipWidth width bdim m)
              (mipHeight height bdim m) (mipDepth depth bdim m)
              (source.extract
                (i' * linSizeSum width height depth bdim bpp mc
                 + linSizeSum width height depth bdim bpp m) source.size)
              (mip_block_height (mipHeight height bdim m) bh0)
              (mip_block_depth (mipDepth depth bdim m) bd0) bpp)),
        i * linSizeSum width height depth bdim bpp mc,
        if lc > 1 then
          i * alignedLayerSwzSize width height depth bdim bh0 bpp mc
        else i * swzSizeSum width height depth bdim bh0 bpp mc)) lc _ ?_ ?_
  · simp [writes, Nat.zero_mul]
  · intro i hi
    dsimp only
    unfold surface_layer_step
    rw [surface_mip_loop false width height depth bdim bh0 bd0 bpp source
      (writes result ((List.range i).flatMap fun i' =>
        (List.range mc).flatMap fun m =>
          shift_writes
            ((if lc > 1 then
                i' * alignedLayerSwzSize width height depth bdim bh0 bpp mc
              else i' * swzSizeSum width height depth bdim bh0 bpp mc)
             + swzSizeSum width height depth bdim bh0 bpp m)
            (mip_write_list false (mipWidth width bdim m)
              (mipHeight height bdim m) (mipDepth depth bdim m)
              (source.extract
                (i' * linSizeSum width height depth bdim bpp mc
                 + linSizeSum width height depth bdim bpp m) source.size)
              (mip_block_height (mipHeight height bdim m) bh0)
              (mip_block_depth (mipDepth depth bdim m) bd0) bpp)))
      (i * linSizeSum width height depth bdim bpp mc)
      (if lc > 1 then
        i * alignedLayerSwzSize width height depth bdim bh0 bpp mc
      else i * swzSizeSum width height depth bdim bh0 bpp mc)
      mc (fun m hm => hsrc i m hi hm)]
    rw [except_bind_ok]
    dsimp only
    simp only [Bool.false_eq_true, if_false]
    have hoffL : i * linSizeSum width height depth bdim bpp mc
        + linSizeSum width height depth bdim bpp mc
        = (i + 1) * linSizeSum width height depth bdim bpp mc :=
      (Nat.succ_mul i (linSizeSum width height depth bdim bpp mc)).symm
    rw [← writes_append, List.range_succ, List.flatMap_append]
    simp only [List.flatMap_cons, List.flatMap_nil, List.append_nil]
    by_cases hlc : lc > 1
    · rw [if_pos hlc]
      simp only [if_pos hlc, alignedLayerSwzSize]
      have halign := align_layer_size_add_multiple
        (swzSizeSum width height depth bdim bh0 bpp mc) height depth bh0 1 i
      rw [halign, hoffL]
      rfl
    · rw [if_neg hlc]
      simp only [if_neg hlc]
      have hoffS : i * swzSizeSum width height depth bdim bh0 bpp mc
          + swzSizeSum width height depth bdim bh0 bpp mc
          = (i + 1) * swzSizeSum width height depth bdim bh0 bpp mc :=
        (Nat.succ_mul i (swzSizeSum width height depth bdim bh0 bpp mc)).symm
      rw [hoffL, hoffS]
      rfl

theorem surface_layer_loop_deswizzle (width height depth : Nat)
    (bdim : BlockDim) (bh0 bd0 bpp mc lc : Nat) (source result : Array Nat)
    (hsrc : ∀ i m, i < lc → m < mc →
      (if lc > 1 then
          i * alignedLayerSwzSize width height depth bdim bh0 bpp mc
        else i * swzSizeSum width height depth bdim bh0 bpp mc)
        + (swzSizeSum width height depth bdim bh0 bpp m
           + mipSwzSize width height depth bdim bh0 bpp m) ≤ source.size) :
    (List.range lc).foldlM
        (surface_layer_step true width height depth bdim bh0 bd0 bpp mc lc
          source)
        (result, 0, 0)
      = .ok (writes result ((List.range lc).flatMap fun i =>
          (List.range mc).flatMap fun m =>
            shift_writes
              (i * linSizeSum width height depth bdim bpp mc
               + linSizeSum width height depth bdim bpp m)
              (mip_write_list true (mipWidth width bdim m)
                (mipHeight height bdim m) (mipDepth depth bdim m)
                (source.extract
                  ((if lc > 1 then
                      i * alignedLayerSwzSize width height depth bdim bh0 bpp mc
                    else i * swzSizeSum width height depth bdim bh0 bpp mc)
                   + swzSizeSum width height depth bdim bh0 bpp m) source.size)
                (mip_block_height (mipHeight height bdim m) bh0)
                (mip_block_depth (mipDepth depth bdim m) bd0) bpp)),
          (if lc > 1 then
            lc * alignedLayerSwzSize width height depth bdim bh0 bpp mc
          else lc * swzSizeSum width height depth bdim bh0 bpp mc),
          lc * linSizeSum width height depth bdim bpp mc) := by
  refine foldlM_range_ok _ (fun i =>
      (writes result ((List.range i).flatMap fun i' =>
        (List.range mc).flatMap fun m =>
          shift_writes
            (i' * linSizeSum width height depth bdim bpp mc
             + linSizeSum width height depth bdim bpp m)
            (mip_write_list true (mipWidth width bdim m)
              (mipHeight height bdim m) (mipDepth depth bdim m)
              (source.extract
                ((if lc > 1 then
                    i' * alignedLayerSwzSize width height depth bdim bh0 bpp mc
                  else i' * swzSizeSum width height depth bdim bh0 bpp mc)
                 + swzSizeSum width height depth bdim bh0 bpp m) source.size)
              (mip_block_height (mipHeight height bdim m) bh0)
              (mip_block_depth (mipDepth depth bdim m) bd0) bpp)),
        (if lc > 1 then
          i * alignedLayerSwzSize width height depth bdim bh0 bpp mc
        else i * swzSizeSum width height depth bdim bh0 bpp mc),
        i * linSizeSum width height depth bdim bpp mc)) lc _ ?_ ?_
  · simp [writes, Nat.zero_mul]
  · intro i hi
    dsimp only
    unfold surface_layer_step
    rw [surface_mip_loop true width height depth bdim bh0 bd0 bpp source
      (writes result ((List.range i).flatMap fun i' =>
        (List.range mc).flatMap fun m =>
          shift_writes
            (i' * linSizeSum width height depth bdim bpp mc
             + linSizeSum width height depth bdim bpp m)
            (mip_write_list true (mipWidth width bdim m)
              (mipHeight height bdim m) (mipDepth depth bdim m)
              (source.extract
                ((if lc > 1 then
                    i' * alignedLayerSwzSize width height depth bdim bh0 bpp mc
                  else i' * swzSizeSum width height depth bdim bh0 bpp mc)
                 + swzSizeSum width height depth bdim bh0 bpp m) source.size)
              (mip_block_height (mipHeight height bdim m) bh0)
              (mip_block_depth (mipDepth depth bdim m) bd0) bpp)))
      (if lc > 1 then
        i * alignedLayerSwzSize width height depth bdim bh0 bpp mc
      else i * swzSizeSum width height depth bdim bh0 bpp mc)
      (i * linSizeSum width height depth bdim bpp mc)
      mc (fun m hm => hsrc i m hi hm)]
    rw [except_bind_ok]
    dsimp only
    simp only [eq_self_iff_true, if_true]
    have hoffL : i * linSizeSum width height depth bdim bpp mc
        + linSizeSum width height depth bdim bpp mc
        = (i + 1) * linSizeSum width height depth bdim bpp mc :=
      (Nat.succ_mul i (linSizeSum width height depth bdim bpp mc)).symm
    rw [← writes_append, List.range_succ, List.flatMap_append]
    simp only [List.flatMap_cons, List.flatMap_nil, List.append_nil]
    by_cases hlc : lc > 1
    · rw [if_pos hlc]
      simp only [if_pos hlc, alignedLayerSwzSize]
      have halign := align_layer_size_add_multiple
        (swzSizeSum width height depth bdim bh0 bpp mc) height depth bh0 1 i
      rw [halign, hoffL]
      rfl
    · rw [if_neg hlc]
      simp only [if_neg hlc]
      have hoffS : i * swzSizeSum width height depth bdim bh0 bpp mc
          + swzSizeSum width height depth bdim bh0 bpp mc
          = (i + 1) * swzSizeSum width height depth bdim bh0 bpp mc :=
        (Nat.succ_mul i (swzSizeSum width height depth bdim bh0 bpp mc)).symm
      rw [hoffL, hoffS]
      rfl

-- Offset bounds inside the surface -------------------------------------------

theorem surfaceLin_bound (w h d : Nat) (bdim : BlockDim)
    (bpp mc lc i m : Nat) (hi : i < lc) (hm : m < mc) :
    i * linSizeSum w h d bdim bpp mc
      + (linSizeSum w h d bdim bpp m + mipLinSize w h d bdim bpp m)
      ≤ deswizzled_surface_size w h d bdim bpp mc lc := by
  rw [deswizzled_surface_size_eq]
  have h1 := linSizeSum_succ w h d bdim bpp m
  have h2 : linSizeSum w h d bdim bpp (m + 1) ≤ linSizeSum w h d bdim bpp mc := by
    unfold linSizeSum
    exact sum_range_map_mono _ (m + 1) mc (by omega)
  have hs : (i + 1) * linSizeSum w h d bdim bpp mc
      = i * linSizeSum w h d bdim bpp mc + linSizeSum w h d bdim bpp mc :=
    Nat.succ_mul i _
  have h3 : (i + 1) * linSizeSum w h d bdim bpp mc
      ≤ lc * linSizeSum w h d bdim bpp mc :=
    Nat.mul_le_mul_right _ (by omega)
  have hc : lc * linSizeSum w h d bdim bpp mc
      = linSizeSum w h d bdim bpp mc * lc := Nat.mul_comm _ _
  omega

theorem surfaceSwz_bound (w h d : Nat) (bdim : BlockDim)
    (bh0 bpp mc lc i m : Nat) (hi : i < lc) (hm : m < mc) (hbh0 : 0 < bh0) :
    (if lc > 1 then i * alignedLayerSwzSize w h d bdim bh0 bpp mc
     else i * swzSizeSum w h d bdim bh0 bpp mc)
      + (swzSizeSum w h d bdim bh0 bpp m + mipSwzSize w h d bdim bh0 bpp m)
      ≤ (if lc > 1 then alignedLayerSwzSize w h d bdim bh0 bpp mc * lc
         else swzSizeSum w h d bdim bh0 bpp mc) := by
  have h1 := swzSizeSum_succ w h d bdim bh0 bpp m
  have h2 : swzSizeSum w h d bdim bh0 bpp (m + 1)
      ≤ swzSizeSum w h d bdim bh0 bpp mc := by
    unfold swzSizeSum
    exact sum_range_map_mono _ (m + 1) mc (by omega)
  by_cases hlc : lc > 1
  · rw [if_pos hlc, if_pos hlc]
    have hSA : swzSizeSum w h d bdim bh0 bpp mc
        ≤ alignedLayerSwzSize w h d bdim bh0 bpp mc := by
      unfold alignedLayerSwzSize
      exact le_align_layer_size _ _ _ _ _ hbh0 Nat.one_pos
    have hs : (i + 1) * alignedLayerSwzSize w h d bdim bh0 bpp mc
        = i * alignedLayerSwzSize w h d bdim bh0 bpp mc
          + alignedLayerSwzSize w h d bdim bh0 bpp mc :=
      Nat.succ_mul i _
    have h3 : (i + 1) * alignedLayerSwzSize w h d bdim bh0 bpp mc
        ≤ lc * alignedLayerSwzSize w h d bdim bh0 bpp mc :=
      Nat.mul_le_mul_right _ (by omega)
    have hc : lc * alignedLayerSwzSize w h d bdim bh0 bpp mc
        = alignedLayerSwzSize w h d bdim bh0 bpp mc * lc := Nat.mul_comm _ _
    omega
  · rw [if_neg hlc, if_neg hlc]
    have hi0 : i = 0 := by omega
    subst hi0
    simp only [Nat.zero_mul, Nat.zero_add]
    omega

-- The produced layer write lists are surface_writes ---------------------------

theorem surface_writes_swizzle_eq (width height depth : Nat) (bdim : BlockDim)
    (bh0 bpp mc lc : Nat) (source : Array Nat) :
    ((List.range lc).flatMap fun i =>
      (List.range mc).flatMap fun m =>
        shift_writes
          ((if lc > 1 then
              i * alignedLayerSwzSize width height depth bdim bh0 bpp mc
            else i * swzSizeSum width height depth bdim bh0 bpp mc)
           + swzSizeSum width height depth bdim bh0 bpp m)
          (mip_write_list false (mipWidth width bdim m)
            (mipHeight height bdim m) (mipDepth depth bdim m)
            (source.extract
              (i * linSizeSum width height depth bdim bpp mc
               + linSizeSum width height depth bdim bpp m) source.size)
            (mip_block_height (mipHeight height bdim m) bh0)
            (mip_block_depth (mipDepth depth bdim m) (block_depth depth)) bpp))
      = surface_writes false width height depth bdim bh0 bpp mc lc source := by
  unfold surface_writes
  refine flatMap_congr_mem _ _ _ ?_
  intro i hiL
  refine flatMap_congr_mem _ _ _ ?_
  intro m _
  unfold surface_mip_writes
  dsimp only
  simp only [Bool.false_eq_true, if_false]
  unfold surfaceLinOffset surfaceSwzOffset
  by_cases hlc : lc > 1
  · rw [if_pos hlc]
  · rw [if_neg hlc]
    rw [List.mem_range] at hiL
    have hi0 : i = 0 := by omega
    subst hi0
    congr 1
    omega

theorem surface_writes_deswizzle_eq (width height depth : Nat) (bdim : BlockDim)
    (bh0 bpp mc lc : Nat) (source : Array Nat) :
    ((List.range lc).flatMap fun i =>
      (List.range mc).flatMap fun m =>
        shift_writes
          (i * linSizeSum width height depth bdim bpp mc
           + linSizeSum width height depth bdim bpp m)
          (mip_write_list true (mipWidth width bdim m)
            (mipHeight height bdim m) (mipDepth depth bdim m)
            (source.extract
              ((if lc > 1 then
                  i * alignedLayerSwzSize width height depth bdim bh0 bpp mc
                else i * swzSizeSum width height depth bdim bh0 bpp mc)
               + swzSizeSum width height depth bdim bh0 bpp m) source.size)
            (mip_block_height (mipHeight height bdim m) bh0)
            (mip_block_depth (mipDepth depth bdim m) (block_depth depth)) bpp))
      = surface_writes true width height depth bdim bh0 bpp mc lc source := by
  unfold surface_writes
  refine flatMap_congr_mem _ _ _ ?_
  intro i hiL
  refine flatMap_congr_mem _ _ _ ?_
  intro m _
  unfold surface_mip_writes
  dsimp only
  simp only [eq_self_iff_true, if_true]
  unfold surfaceLinOffset surfaceSwzOffset
  by_cases hlc : lc > 1
  · rw [if_pos hlc]
  · rw [if_neg hlc]
    rw [List.mem_range] at hiL
    have hi0 : i = 0 := by omega
    subst hi0
    have hO : 0 * swzSizeSum width height depth bdim bh0 bpp mc
        + swzSizeSum width height depth bdim bh0 bpp m
        = 0 * alignedLayerSwzSize width height depth bdim bh0 bpp mc
        + swzSizeSum width height depth bdim bh0 bpp m := by omega
    rw [hO]

-- swizzle_surface_inner succeeds and is one write list ------------------------

theorem swizzle_surface_inner_ok (width height depth : Nat)
    (source result : Array Nat) (bdim : BlockDim) (sup : Option Nat)
    (bpp mc lc : Nat)
    (hsz : deswizzled_surface_size width height depth bdim bpp mc lc
      ≤ source.size) :
    swizzle_surface_inner false width height depth source result bdim sup bpp
        mc lc
      = .ok (writes result (surface_writes false width height depth bdim
          (surface_block_height_mip0 depth sup height bdim.height) bpp mc lc
          source)) := by
  rw [swizzle_surface_inner_as_steps]
  rw [surface_layer_loop_swizzle width height depth bdim
    (surface_block_height_mip0 depth sup height bdim.height)
    (block_depth depth) bpp mc lc source result (fun i m hi hm =>
      le_trans (surfaceLin_bound width height depth bdim bpp mc lc i m hi hm)
        hsz)]
  rw [except_bind_ok]
  dsimp only
  rw [surface_writes_swizzle_eq]
  rfl

theorem deswizzle_surface_inner_ok (width height depth : Nat)
    (source result : Array Nat) (bdim : BlockDim) (sup : Option Nat)
    (bpp mc lc : Nat)
    (hbh0 : 0 < surface_block_height_mip0 depth sup height bdim.height)
    (hsz : swizzled_surface_size width height depth bdim sup bpp mc lc
      ≤ source.size) :
    swizzle_surface_inner true width height depth source result bdim sup bpp
        mc lc
      = .ok (writes result (surface_writes true width height depth bdim
          (surface_block_height_mip0 depth sup height bdim.height) bpp mc lc
          source)) := by
  rw [swizzled_surface_size_eq] at hsz
  rw [swizzle_surface_inner_as_steps]
  rw [surface_layer_loop_deswizzle width height depth bdim
    (surface_block_height_mip0 depth sup height bdim.height)
    (block_depth depth) bpp mc lc source result (fun i m hi hm =>
      le_trans (surfaceSwz_bound width height depth bdim
        (surface_block_height_mip0 depth sup height bdim.height)
        bpp mc lc i m hi hm hbh0) hsz)]
  rw [except_bind_ok]
  dsimp only
  rw [surface_writes_deswizzle_eq]
  rfl

-- Membership in the surface write list ----------------------------------------

theorem except_bind_error {α β : Type} (e : SwizzleError)
    (f : α → Except SwizzleError β) :
    ((Except.error e : Except SwizzleError α) >>= f) = Except.error e := rfl

theorem mem_shift_writes (off : Nat) (l : List (Nat × Nat)) (p : Nat × Nat) :
    p ∈ shift_writes off l ↔ ∃ q ∈ l, p = (off + q.1, q.2) := by
  unfold shift_writes
  rw [List.mem_map]
  constructor
  · rintro ⟨q, hq, rfl⟩
    exact ⟨q, hq, rfl⟩
  · rintro ⟨q, hq, rfl⟩
    exact ⟨q, hq, rfl⟩

theorem mem_surface_writes_swizzle (w h d : Nat) (bdim : BlockDim)
    (bh0 bpp mc lc : Nat) (source : Array Nat) (p : Nat × Nat) :
    p ∈ surface_writes false w h d bdim bh0 bpp mc lc source
      ↔ ∃ i m X Y Z, i < lc ∧ m < mc
          ∧ X < mipWidth w bdim m * bpp ∧ Y < mipHeight h bdim m
          ∧ Z < mipDepth d bdim m
          ∧ p = (surfaceSwzOffset w h d bdim bh0 bpp mc i m
                 + swizzled_address (mipWidth w bdim m) (mipHeight h bdim m)
                     (mip_block_height (mipHeight h bdim m) bh0)
                     (mip_block_depth (mipDepth d bdim m) (block_depth d)) bpp
                     X Y Z,
               source.getD (surfaceLinOffset w h d bdim bpp mc i m
                 + linear_address (mipWidth w bdim m) (mipHeight h bdim m) bpp
                     X Y Z) 0) := by
  unfold surface_writes surface_mip_writes
  constructor
  · intro hp
    rcases List.mem_flatMap.mp hp with ⟨i, hiR, hp2⟩
    rcases List.mem_flatMap.mp hp2 with ⟨m, hmR, hp3⟩
    rw [List.mem_range] at hiR hmR
    dsimp only at hp3
    simp only [Bool.false_eq_true, if_false] at hp3
    rcases (mem_shift_writes _ _ _).mp hp3 with ⟨q, hq, hpe⟩
    rcases (mem_mip_write_list false _ _ _ _ _ _ _ q).mp hq
      with ⟨X, Y, Z, hX, hY, hZ, hqe⟩
    refine ⟨i, m, X, Y, Z, hiR, hmR, hX, hY, hZ, ?_⟩
    have hqe' : q = (swizzled_address (mipWidth w bdim m) (mipHeight h bdim m)
        (mip_block_height (mipHeight h bdim m) bh0)
        (mip_block_depth (mipDepth d bdim m) (block_depth d)) bpp X Y Z,
      (source.extract (surfaceLinOffset w h d bdim bpp mc i m)
        source.size).getD
        (linear_address (mipWidth w bdim m) (mipHeight h bdim m) bpp X Y Z) 0)
      := hqe
    subst hqe'
    rw [hpe]
    dsimp only
    rw [extract_getD]
  · rintro ⟨i, m, X, Y, Z, hi, hm, hX, hY, hZ, hpe⟩
    refine List.mem_flatMap.mpr ⟨i, List.mem_range.mpr hi, ?_⟩
    refine List.mem_flatMap.mpr ⟨m, List.mem_range.mpr hm, ?_⟩
    dsimp only
    simp only [Bool.false_eq_true, if_false]
    refine (mem_shift_writes _ _ _).mpr
      ⟨(swizzled_address (mipWidth w bdim m) (mipHeight h bdim m)
          (mip_block_height (mipHeight h bdim m) bh0)
          (mip_block_depth (mipDepth d bdim m) (block_depth d)) bpp X Y Z,
        (source.extract (surfaceLinOffset w h d bdim bpp mc i m)
          source.size).getD
          (linear_address (mipWidth w bdim m) (mipHeight h bdim m) bpp X Y Z)
          0),
       (mem_mip_write_list false _ _ _ _ _ _ _ _).mpr
         ⟨X, Y, Z, hX, hY, hZ, rfl⟩, ?_⟩
    rw [hpe]
    dsimp only
    rw [extract_getD]

theorem mem_surface_writes_deswizzle (w h d : Nat) (bdim : BlockDim)
    (bh0 bpp mc lc : Nat) (source : Array Nat) (p : Nat × Nat) :
    p ∈ surface_writes true w h d bdim bh0 bpp mc lc source
      ↔ ∃ i m X Y Z, i < lc ∧ m < mc
          ∧ X < mipWidth w bdim m * bpp ∧ Y < mipHeight h bdim m
          ∧ Z < mipDepth d bdim m
          ∧ p = (surfaceLinOffset w h d bdim bpp mc i m
                 + linear_address (mipWidth w bdim m) (mipHeight h bdim m) bpp
                     X Y Z,
               source.getD (surfaceSwzOffset w h d bdim bh0 bpp mc i m
                 + swizzled_address (mipWidth w bdim m) (mipHeight h bdim m)
                     (mip_block_height (mipHeight h bdim m) bh0)
                     (mip_block_depth (mipDepth d bdim m) (block_depth d)) bpp
                     X Y Z) 0) := by
  unfold surface_writes surface_mip_writes
  constructor
  · intro hp
    rcases List.mem_flatMap.mp hp with ⟨i, hiR, hp2⟩
    rcases List.mem_flatMap.mp hp2 with ⟨m, hmR, hp3⟩
    rw [List.mem_range] at hiR hmR
    dsimp only at hp3
    simp only [eq_self_iff_true, if_true] at hp3
    rcases (mem_shift_writes _ _ _).mp hp3 with ⟨q, hq, hpe⟩
    rcases (mem_mip_write_list true _ _ _ _ _ _ _ q).mp hq
      with ⟨X, Y, Z, hX, hY, hZ, hqe⟩
    refine ⟨i, m, X, Y, Z, hiR, hmR, hX, hY, hZ, ?_⟩
    have hqe' : q = (linear_address (mipWidth w bdim m) (mipHeight h bdim m)
        bpp X Y Z,
      (source.extract (surfaceSwzOffset w h d bdim bh0 bpp mc i m)
        source.size).getD
        (swizzled_address (mipWidth w bdim m) (mipHeight h bdim m)
          (mip_block_height (mipHeight h bdim m) bh0)
          (mip_block_depth (mipDepth d bdim m) (block_depth d)) bpp X Y Z) 0)
      := hqe
    subst hqe'
    rw [hpe]
    dsimp only
    rw [extract_getD]
  · rintro ⟨i, m, X, Y, Z, hi, hm, hX, hY, hZ, hpe⟩
    refine List.mem_flatMap.mpr ⟨i, List.mem_range.mpr hi, ?_⟩
    refine List.mem_flatMap.mpr ⟨m, List.mem_range.mpr hm, ?_⟩
    dsimp only
    simp only [eq_self_iff_true, if_true]
    refine (mem_shift_writes _ _ _).mpr
      ⟨(linear_address (mipWidth w bdim m) (mipHeight h bdim m) bpp X Y Z,
        (source.extract (surfaceSwzOffset w h d bdim bh0 bpp mc i m)
          source.size).getD
          (swizzled_address (mipWidth w bdim m) (mipHeight h bdim m)
            (mip_block_height (mipHeight h bdim m) bh0)
            (mip_block_depth (mipDepth d bdim m) (block_depth d)) bpp X Y Z)
          0),
       (mem_mip_write_list true _ _ _ _ _ _ _ _).mpr
         ⟨X, Y, Z, hX, hY, hZ, rfl⟩, ?_⟩
    rw [hpe]
    dsimp only
    rw [extract_getD]

-- Per-mip windows stay inside the surface -------------------------------------

theorem surfaceLinOffset_bound (w h d : Nat) (bdim : BlockDim)
    (bpp mc lc i m : Nat) (hi : i < lc) (hm : m < mc) :
    surfaceLinOffset w h d bdim bpp mc i m + mipLinSize w h d bdim bpp m
      ≤ deswizzled_surface_size w h d bdim bpp mc lc := by
  unfold surfaceLinOffset
  have := surfaceLin_bound w h d bdim bpp mc lc i m hi hm
  omega

theorem surfaceSwzOffset_bound (w h d : Nat) (bdim : BlockDim)
    (bh0 bpp mc lc i m : Nat) (hi : i < lc) (hm : m < mc) (hbh0 : 0 < bh0) :
    surfaceSwzOffset w h d bdim bh0 bpp mc i m + mipSwzSize w h d bdim bh0 bpp m
      ≤ (if lc > 1 then alignedLayerSwzSize w h d bdim bh0 bpp mc * lc
         else swzSizeSum w h d bdim bh0 bpp mc) := by
  unfold surfaceSwzOffset
  have h1 := swzSizeSum_succ w h d bdim bh0 bpp m
  have h2 : swzSizeSum w h d bdim bh0 bpp (m + 1)
      ≤ swzSizeSum w h d bdim bh0 bpp mc := by
    unfold swzSizeSum
    exact sum_range_map_mono _ (m + 1) mc (by omega)
  by_cases hlc : lc > 1
  · rw [if_pos hlc]
    have hSA : swzSizeSum w h d bdim bh0 bpp mc
        ≤ alignedLayerSwzSize w h d bdim bh0 bpp mc := by
      unfold alignedLayerSwzSize
      exact le_align_layer_size _ _ _ _ _ hbh0 Nat.one_pos
    have hs : (i + 1) * alignedLayerSwzSize w h d bdim bh0 bpp mc
        = i * alignedLayerSwzSize w h d bdim bh0 bpp mc
          + alignedLayerSwzSize w h d bdim bh0 bpp mc :=
      Nat.succ_mul i _
    have h3 : (i + 1) * alignedLayerSwzSize w h d bdim bh0 bpp mc
        ≤ lc * alignedLayerSwzSize w h d bdim bh0 bpp mc :=
      Nat.mul_le_mul_right _ (by omega)
    have hc : lc * alignedLayerSwzSize w h d bdim bh0 bpp mc
        = alignedLayerSwzSize w h d bdim bh0 bpp mc * lc := Nat.mul_comm _ _
    omega
  · rw [if_neg hlc]
    have hi0 : i = 0 := by omega
    subst hi0
    simp only [Nat.zero_mul, Nat.zero_add]
    omega

-- C4 --------------------------------------------------------------------------

theorem swizzle_surface_err (width height depth : Nat) (source : Array Nat)
    (bdim : BlockDim) (sup : Option Nat) (bpp mc lc : Nat)
    (hlt : source.size
      < deswizzled_surface_size width height depth bdim bpp mc lc) :
    swizzle_surface width height depth source bdim sup bpp mc lc
      = .error .NotEnoughData := by
  unfold swizzle_surface surface_destination
  dsimp only
  simp only [Bool.false_eq_true, if_false]
  rw [if_pos hlt]
  rfl

theorem swizzle_surface_ok (width height depth : Nat) (source : Array Nat)
    (bdim : BlockDim) (sup : Option Nat) (bpp mc lc : Nat)
    (hge : deswizzled_surface_size width height depth bdim bpp mc lc
      ≤ source.size) :
    swizzle_surface width height depth source bdim sup bpp mc lc
      = .ok (writes (Array.mkArray
          (swizzled_surface_size width height depth bdim sup bpp mc lc) 0)
        (surface_writes false width height depth bdim
          (surface_block_height_mip0 depth sup height bdim.height) bpp mc lc
          source)) := by
  unfold swizzle_surface surface_destination
  dsimp only
  simp only [Bool.false_eq_true, if_false]
  rw [if_neg (by omega)]
  rw [except_bind_ok]
  exact swizzle_surface_inner_ok width height depth source _ bdim sup bpp mc
    lc hge

theorem deswizzle_surface_err (width height depth : Nat) (source : Array Nat)
    (bdim : BlockDim) (sup : Option Nat) (bpp mc lc : Nat)
    (hlt : source.size
      < swizzled_surface_size width height depth bdim sup bpp mc lc) :
    deswizzle_surface width height depth source bdim sup bpp mc lc
      = .error .NotEnoughData := by
  unfold deswizzle_surface surface_destination
  dsimp only
  simp only [eq_self_iff_true, if_true]
  rw [if_pos hlt]
  rfl

theorem deswizzle_surface_ok (width height depth : Nat) (source : Array Nat)
    (bdim : BlockDim) (sup : Option Nat) (bpp mc lc : Nat)
    (hbh0 : 0 < surface_block_height_mip0 depth sup height bdim.height)
    (hge : swizzled_surface_size width height depth bdim sup bpp mc lc
      ≤ source.size) :
    deswizzle_surface width height depth source bdim sup bpp mc lc
      = .ok (writes (Array.mkArray
          (deswizzled_surface_size width height depth bdim bpp mc lc) 0)
        (surface_writes true width height depth bdim
          (surface_block_height_mip0 depth sup height bdim.height) bpp mc lc
          source)) := by
  unfold deswizzle_surface surface_destination
  dsimp only
  simp only [eq_self_iff_true, if_true]
  rw [if_neg (by omega)]
  rw [except_bind_ok]
  exact deswizzle_surface_inner_ok width height depth source _ bdim sup bpp
    mc lc hbh0 hge

/-- C4: swizzle_surface returns NotEnoughData exactly when the source is
shorter than deswizzled_surface_size, deswizzle_surface exactly when the
source is shorter than swizzled_surface_size (checked up front in
surface_destination, before any output exists), and any source at least as
large as required (trailing bytes ignored) makes the call succeed. -/
theorem notEnoughData_iff (width height depth : Nat) (source : Array Nat)
    (bdim : BlockDim) (sup : Option Nat) (bpp mc lc : Nat)
    (hsup : forall v, v ∈ sup → validBlockHeight v) :
    (swizzle_surface width height depth source bdim sup bpp mc lc
        = .error .NotEnoughData
      ↔ source.size
          < deswizzled_surface_size width height depth bdim bpp mc lc)
    ∧ (deswizzle_surface width height depth source bdim sup bpp mc lc
        = .error .NotEnoughData
      ↔ source.size
          < swizzled_surface_size width height depth bdim sup bpp mc lc)
    ∧ (deswizzled_surface_size width height depth bdim bpp mc lc ≤ source.size
        → ∃ out, swizzle_surface width height depth source bdim sup bpp mc lc
            = .ok out)
    ∧ (swizzled_surface_size width height depth bdim sup bpp mc lc
          ≤ source.size
        → ∃ out, deswizzle_surface width height depth source bdim sup bpp mc
            lc = .ok out) := by
  have hbh0 := surface_block_height_mip0_pos depth sup height bdim.height hsup
  refine ⟨⟨fun he => ?_,
      swizzle_surface_err width height depth source bdim sup bpp mc lc⟩,
    ⟨fun he => ?_,
      deswizzle_surface_err width height depth source bdim sup bpp mc lc⟩,
    fun hge => ⟨_,
      swizzle_surface_ok width height depth source bdim sup bpp mc lc hge⟩,
    fun hge => ⟨_, deswizzle_surface_ok width height depth source bdim sup bpp
      mc lc hbh0 hge⟩⟩
  · by_contra hge
    rw [Nat.not_lt] at hge
    rw [swizzle_surface_ok width height depth source bdim sup bpp mc lc hge]
      at he
    exact Except.noConfusion he
  · by_contra hge
    rw [Nat.not_lt] at hge
    rw [deswizzle_surface_ok width height depth source bdim sup bpp mc lc hbh0
      hge] at he
    exact Except.noConfusion he

/-- Witness for C4 at a 1x1x1 surface with an oversize source. -/
theorem notEnoughData_iff_witness :
    (∀ v ∈ (none : Option Nat), validBlockHeight v)
      ∧ deswizzled_surface_size 1 1 1 ⟨1, 1, 1⟩ 1 1 1
          ≤ (Array.mkArray 600 0).size
      ∧ (∃ out, swizzle_surface 1 1 1 (Array.mkArray 600 0) ⟨1, 1, 1⟩ none 1 1 1
          = .ok out) :=
  ⟨by simp, by decide,
   (notEnoughData_iff 1 1 1 (Array.mkArray 600 0) ⟨1, 1, 1⟩ none 1 1 1
     (by simp)).2.2.1 (by decide)⟩

-- C10 -------------------------------------------------------------------------

/-- C10: when the source holds at least the required bytes
(deswizzled_surface_size for swizzling, swizzled_surface_size for
deswizzling), the per-mip NotEnoughData branches inside swizzle_mipmap are
unreachable — both surface loops return .ok of the full write list over the
freshly allocated destination — and every destination index the loops write
is strictly below the size computed by the corresponding sizing function
while every source index read is strictly below the required source size. -/
theorem surface_safety (width height depth : Nat) (source : Array Nat)
    (bdim : BlockDim) (sup : Option Nat) (bpp mc lc : Nat)
    (hsup : ∀ v ∈ sup, validBlockHeight v) :
    (deswizzled_surface_size width height depth bdim bpp mc lc ≤ source.size →
      swizzle_surface_inner false width height depth source
          (Array.mkArray
            (swizzled_surface_size width height depth bdim sup bpp mc lc) 0)
          bdim sup bpp mc lc
        = .ok (writes (Array.mkArray
            (swizzled_surface_size width height depth bdim sup bpp mc lc) 0)
          (surface_writes false width height depth bdim
            (surface_block_height_mip0 depth sup height bdim.height) bpp mc lc
            source)))
    ∧ (swizzled_surface_size width height depth bdim sup bpp mc lc
          ≤ source.size →
      swizzle_surface_inner true width height depth source
          (Array.mkArray
            (deswizzled_surface_size width height depth bdim bpp mc lc) 0)
          bdim sup bpp mc lc
        = .ok (writes (Array.mkArray
            (deswizzled_surface_size width height depth bdim bpp mc lc) 0)
          (surface_writes true width height depth bdim
            (surface_block_height_mip0 depth sup height bdim.height) bpp mc lc
            source)))
    ∧ (∀ p ∈ surface_writes false width height depth bdim
          (surface_block_height_mip0 depth sup height bdim.height) bpp mc lc
          source,
        p.1 < swizzled_surface_size width height depth bdim sup bpp mc lc
        ∧ ∃ r, r < deswizzled_surface_size width height depth bdim bpp mc lc
            ∧ p.2 = source.getD r 0)
    ∧ (∀ p ∈ surface_writes true width height depth bdim
          (surface_block_height_mip0 depth sup height bdim.height) bpp mc lc
          source,
        p.1 < deswizzled_surface_size width height depth bdim bpp mc lc
        ∧ ∃ r, r < swizzled_surface_size width height depth bdim sup bpp mc lc
            ∧ p.2 = source.getD r 0) := by
  have hbh0 := surface_block_height_mip0_pos depth sup height bdim.height hsup
  have hAA : alignedLayerSwzSize width height depth bdim
      (surface_block_height_mip0 depth sup height bdim.height) bpp mc
      = align_layer_size (swzSizeSum width height depth bdim
          (surface_block_height_mip0 depth sup height bdim.height) bpp mc)
        height depth (surface_block_height_mip0 depth sup height bdim.height)
        1 := rfl
  have hswz_eq := swizzled_surface_size_eq width height depth bdim sup bpp mc
    lc
  rw [← hAA] at hswz_eq
  refine ⟨fun hge => swizzle_surface_inner_ok width height depth source _ bdim
      sup bpp mc lc hge,
    fun hge => deswizzle_surface_inner_ok width height depth source _ bdim sup
      bpp mc lc hbh0 hge, ?_, ?_⟩
  · intro p hp
    rcases (mem_surface_writes_swizzle width height depth bdim _ bpp mc lc
      source p).mp hp with ⟨i, m, X, Y, Z, hi, hm, hX, hY, hZ, hpe⟩
    subst hpe
    dsimp only
    have hmipD1 : 1 ≤ mipDepth depth bdim m := by
      unfold mipDepth
      exact le_max_right _ _
    have haddr := swizzled_address_lt (mipWidth width bdim m)
      (mipHeight height bdim m) (mipDepth depth bdim m)
      (mip_block_height (mipHeight height bdim m)
        (surface_block_height_mip0 depth sup height bdim.height))
      (mip_block_depth (mipDepth depth bdim m) (block_depth depth)) bpp X Y Z
      (mip_block_height_pos _ _ hbh0)
      (mip_block_depth_mem _ _ (block_depth_mem depth)) hX hY hZ
      (round_up_mip_block_depth_le (block_depth depth)
        (mipDepth depth bdim m) hmipD1 (block_depth_mem depth))
    have hm2 : mipSwzSize width height depth bdim
        (surface_block_height_mip0 depth sup height bdim.height) bpp m
        = swizzled_mip_size (mipWidth width bdim m) (mipHeight height bdim m)
          (mipDepth depth bdim m)
          (mip_block_height (mipHeight height bdim m)
            (surface_block_height_mip0 depth sup height bdim.height)) bpp :=
      rfl
    have hsb := surfaceSwzOffset_bound width height depth bdim
      (surface_block_height_mip0 depth sup height bdim.height) bpp mc lc i m
      hi hm hbh0
    have hlin := linear_address_lt (mipWidth width bdim m)
      (mipHeight height bdim m) (mipDepth depth bdim m) bpp X Y Z hX hY hZ
    have hm3 : mipLinSize width height depth bdim bpp m
        = deswizzled_mip_size (mipWidth width bdim m)
          (mipHeight height bdim m) (mipDepth depth bdim m) bpp := rfl
    have hlb := surfaceLinOffset_bound width height depth bdim bpp mc lc i m
      hi hm
    exact ⟨by omega, ⟨surfaceLinOffset width height depth bdim bpp mc i m
      + linear_address (mipWidth width bdim m) (mipHeight height bdim m) bpp
          X Y Z, by omega, rfl⟩⟩
  · intro p hp
    rcases (mem_surface_writes_deswizzle width height depth bdim _ bpp mc lc
      source p).mp hp with ⟨i, m, X, Y, Z, hi, hm, hX, hY, hZ, hpe⟩
    subst hpe
    dsimp only
    have hmipD1 : 1 ≤ mipDepth depth bdim m := by
      unfold mipDepth
      exact le_max_right _ _
    have haddr := swizzled_address_lt (mipWidth width bdim m)
      (mipHeight height bdim m) (mipDepth depth bdim m)
      (mip_block_height (mipHeight height bdim m)
        (surface_block_height_mip0 depth sup height bdim.height))
      (mip_block_depth (mipDepth depth bdim m) (block_depth depth)) bpp X Y Z
      (mip_block_height_pos _ _ hbh0)
      (mip_block_depth_mem _ _ (block_depth_mem depth)) hX hY hZ
      (round_up_mip_block_depth_le (block_depth depth)
        (mipDepth depth bdim m) hmipD1 (block_depth_mem depth))
    have hm2 : mipSwzSize width height depth bdim
        (surface_block_height_mip0 depth sup height bdim.height) bpp m
        = swizzled_mip_size (mipWidth width bdim m) (mipHeight height bdim m)
          (mipDepth depth bdim m)
          (mip_block_height (mipHeight height bdim m)
            (surface_block_height_mip0 depth sup height bdim.height)) bpp :=
      rfl
    have hsb := surfaceSwzOffset_bound width height depth bdim
      (surface_block_height_mip0 depth sup height bdim.height) bpp mc lc i m
      hi hm hbh0
    have hlin := linear_address_lt (mipWidth width bdim m)
      (mipHeight height bdim m) (mipDepth depth bdim m) bpp X Y Z hX hY hZ
    have hm3 : mipLinSize width height depth bdim bpp m
        = deswizzled_mip_size (mipWidth width bdim m)
          (mipHeight height bdim m) (mipDepth depth bdim m) bpp := rfl
    have hlb := surfaceLinOffset_bound width height depth bdim bpp mc lc i m
      hi hm
    exact ⟨by omega, ⟨surfaceSwzOffset width height depth bdim
      (surface_block_height_mip0 depth sup height bdim.height) bpp mc i m
      + swizzled_address (mipWidth width bdim m) (mipHeight height bdim m)
          (mip_block_height (mipHeight height bdim m)
            (surface_block_height_mip0 depth sup height bdim.height))
          (mip_block_depth (mipDepth depth bdim m) (block_depth depth)) bpp
          X Y Z, by omega, rfl⟩⟩

/-- Witness for C10 at a 1x1x1 surface with an oversize source. -/
theorem surface_safety_witness :
    (∀ v ∈ (none : Option Nat), validBlockHeight v)
      ∧ deswizzled_surface_size 1 1 1 ⟨1, 1, 1⟩ 1 1 1
          ≤ (Array.mkArray 600 0 : Array Nat).size
      ∧ swizzle_surface_inner false 1 1 1 (Array.mkArray 600 0)
          (Array.mkArray (swizzled_surface_size 1 1 1 ⟨1, 1, 1⟩ none 1 1 1) 0)
          ⟨1, 1, 1⟩ none 1 1 1
        = .ok (writes
            (Array.mkArray (swizzled_surface_size 1 1 1 ⟨1, 1, 1⟩ none 1 1 1)
              0)
            (surface_writes false 1 1 1 ⟨1, 1, 1⟩
              (surface_block_height_mip0 1 none 1 1) 1 1 1
              (Array.mkArray 600 0))) :=
  ⟨by simp, by decide,
   (surface_safety 1 1 1 (Array.mkArray 600 0) ⟨1, 1, 1⟩ none 1 1 1
     (by simp)).1 (by decide)⟩

-- C7 --------------------------------------------------------------------------

/-- C7: every byte of a freshly produced swizzled output that is not the
image of a linear source byte under the address mapping is zero, both for
swizzle_block_linear (whole-mip padding: GOB edge padding and depth
padding) and for swizzle_surface (additionally inter-mip and inter-layer
alignment padding). -/
theorem swizzle_padding_zero (w h d bh bpp mc lc : Nat) (bdim : BlockDim)
    (sup : Option Nat) (src source : Array Nat) (j k : Nat)
    (hsup : ∀ v ∈ sup, validBlockHeight v) :
    (∀ out, swizzle_block_linear w h d src bh bpp = .ok out →
      (¬∃ X Y Z, X < w * bpp ∧ Y < h ∧ Z < d
          ∧ j = swizzled_address w h bh (block_depth d) bpp X Y Z) →
      out.getD j 0 = 0)
    ∧ (∀ out, swizzle_surface w h d source bdim sup bpp mc lc = .ok out →
      (¬∃ i m X Y Z, i < lc ∧ m < mc ∧ X < mipWidth w bdim m * bpp
          ∧ Y < mipHeight h bdim m ∧ Z < mipDepth d bdim m
          ∧ k = surfaceSwzOffset w h d bdim
              (surface_block_height_mip0 d sup h bdim.height) bpp mc i m
            + swizzled_address (mipWidth w bdim m) (mipHeight h bdim m)
                (mip_block_height (mipHeight h bdim m)
                  (surface_block_height_mip0 d sup h bdim.height))
                (mip_block_depth (mipDepth d bdim m) (block_depth d)) bpp
                X Y Z) →
      out.getD k 0 = 0) := by
  constructor
  · intro out hout hj
    unfold swizzle_block_linear at hout
    dsimp only at hout
    by_cases hsz : src.size < deswizzled_mip_size w h d bpp
    · rw [if_pos hsz] at hout
      exact Except.noConfusion hout
    · rw [if_neg hsz] at hout
      injection hout with hout'
      rw [← hout']
      rw [swizzle_inner_getD_unwritten false w h d src _ bh (block_depth d)
        bpp j hj]
      rw [getD_mkArray]
      exact ite_self 0
  · intro out hout hk
    by_cases hsz : source.size
        < deswizzled_surface_size w h d bdim bpp mc lc
    · rw [swizzle_surface_err w h d source bdim sup bpp mc lc hsz] at hout
      exact Except.noConfusion hout
    · rw [Nat.not_lt] at hsz
      rw [swizzle_surface_ok w h d source bdim sup bpp mc lc hsz] at hout
      injection hout with hout'
      rw [← hout']
      rw [getD_writes_not_mem _ _ _ ?nomem]
      case nomem =>
        intro hmem
        rcases List.mem_map.mp hmem with ⟨p, hp, hfst⟩
        rcases (mem_surface_writes_swizzle w h d bdim _ bpp mc lc source
          p).mp hp with ⟨i, m, X, Y, Z, hi, hm, hX, hY, hZ, hpe⟩
        subst hpe
        exact hk ⟨i, m, X, Y, Z, hi, hm, hX, hY, hZ, hfst.symm⟩
      rw [getD_mkArray]
      exact ite_self 0

/-- Witness for C7 at a 1x1x1 mip (j = 100 is GOB padding) and a 1x1x1
surface (k = 100 is likewise padding). -/
theorem swizzle_padding_zero_witness :
    (∀ v ∈ (none : Option Nat), validBlockHeight v)
      ∧ (swizzle_inner false 1 1 1 #[5]
          (Array.mkArray (swizzled_mip_size 1 1 1 1 1) 0) 1 (block_depth 1)
          1).getD 100 0 = 0 :=
  ⟨by simp,
   (swizzle_padding_zero 1 1 1 1 1 1 1 ⟨1, 1, 1⟩ none #[5]
     (Array.mkArray 600 0) 100 0 (by simp)).1 _ rfl (by
        rintro ⟨X, Y, Z, hX, hY, hZ, he⟩
        have hX0 : X = 0 := by omega
        have hY0 : Y = 0 := by omega
        have hZ0 : Z = 0 := by omega
        subst hX0
        subst hY0
        subst hZ0
        exact absurd he (by decide))⟩

-- Helpers for the roundtrip ---------------------------------------------------

theorem surf_swz_addr_lt (w h d : Nat) (bdim : BlockDim)
    (bh0 bpp m X Y Z : Nat) (hbh0 : 0 < bh0)
    (hX : X < mipWidth w bdim m * bpp) (hY : Y < mipHeight h bdim m)
    (hZ : Z < mipDepth d bdim m) :
    swizzled_address (mipWidth w bdim m) (mipHeight h bdim m)
        (mip_block_height (mipHeight h bdim m) bh0)
        (mip_block_depth (mipDepth d bdim m) (block_depth d)) bpp X Y Z
      < mipSwzSize w h d bdim bh0 bpp m := by
  have hmipD1 : 1 ≤ mipDepth d bdim m := by
    unfold mipDepth
    exact le_max_right _ _
  exact swizzled_address_lt (mipWidth w bdim m) (mipHeight h bdim m)
    (mipDepth d bdim m) (mip_block_height (mipHeight h bdim m) bh0)
    (mip_block_depth (mipDepth d bdim m) (block_depth d)) bpp X Y Z
    (mip_block_height_pos _ _ hbh0)
    (mip_block_depth_mem _ _ (block_depth_mem d)) hX hY hZ
    (round_up_mip_block_depth_le (block_depth d) (mipDepth d bdim m) hmipD1
      (block_depth_mem d))

theorem swz_window_lt (w h d : Nat) (bdim : BlockDim)
    (bh0 bpp mc m addr : Nat) (hm : m < mc) (hbh0 : 0 < bh0)
    (haddr : addr < mipSwzSize w h d bdim bh0 bpp m) :
    swzSizeSum w h d bdim bh0 bpp m + addr
      < alignedLayerSwzSize w h d bdim bh0 bpp mc := by
  have h1 := swzSizeSum_succ w h d bdim bh0 bpp m
  have h2 : swzSizeSum w h d bdim bh0 bpp (m + 1)
      ≤ swzSizeSum w h d bdim bh0 bpp mc := by
    unfold swzSizeSum
    exact sum_range_map_mono _ (m + 1) mc (by omega)
  have h3 : swzSizeSum w h d bdim bh0 bpp mc
      ≤ alignedLayerSwzSize w h d bdim bh0 bpp mc := by
    unfold alignedLayerSwzSize
    exact le_align_layer_size _ _ _ _ _ hbh0 Nat.one_pos
  omega

theorem lin_window_lt (w h d : Nat) (bdim : BlockDim) (bpp mc m addr : Nat)
    (hm : m < mc) (haddr : addr < mipLinSize w h d bdim bpp m) :
    linSizeSum w h d bdim bpp m + addr < linSizeSum w h d bdim bpp mc := by
  have h1 := linSizeSum_succ w h d bdim bpp m
  have h2 : linSizeSum w h d bdim bpp (m + 1)
      ≤ linSizeSum w h d bdim bpp mc := by
    unfold linSizeSum
    exact sum_range_map_mono _ (m + 1) mc (by omega)
  omega

theorem surface_writes_fn_swizzle (w h d : Nat) (bdim : BlockDim)
    (bh0 bpp mc lc : Nat) (source : Array Nat) (hbh0 : 0 < bh0) :
    ∀ k v v', (k, v) ∈ surface_writes false w h d bdim bh0 bpp mc lc source →
      (k, v') ∈ surface_writes false w h d bdim bh0 bpp mc lc source →
      v = v' := by
  intro k v v' hm1 hm2
  rcases (mem_surface_writes_swizzle w h d bdim bh0 bpp mc lc source _).mp hm1
    with ⟨i, m, X, Y, Z, hi, hmm, hX, hY, hZ, he⟩
  rcases (mem_surface_writes_swizzle w h d bdim bh0 bpp mc lc source _).mp hm2
    with ⟨i', m', X', Y', Z', hi', hmm', hX', hY', hZ', he'⟩
  rw [Prod.mk.injEq] at he he'
  obtain ⟨hk1, hv1⟩ := he
  obtain ⟨hk2, hv2⟩ := he'
  have haddr := surf_swz_addr_lt w h d bdim bh0 bpp m X Y Z hbh0 hX hY hZ
  have haddr' := surf_swz_addr_lt w h d bdim bh0 bpp m' X' Y' Z' hbh0 hX' hY'
    hZ'
  have hwin := swz_window_lt w h d bdim bh0 bpp mc m _ hmm hbh0 haddr
  have hwin' := swz_window_lt w h d bdim bh0 bpp mc m' _ hmm' hbh0 haddr'
  unfold surfaceSwzOffset at hk1 hk2
  have heq : i * alignedLayerSwzSize w h d bdim bh0 bpp mc
      + (swzSizeSum w h d bdim bh0 bpp m
         + swizzled_address (mipWidth w bdim m) (mipHeight h bdim m)
             (mip_block_height (mipHeight h bdim m) bh0)
             (mip_block_depth (mipDepth d bdim m) (block_depth d)) bpp X Y Z)
      = i' * alignedLayerSwzSize w h d bdim bh0 bpp mc
      + (swzSizeSum w h d bdim bh0 bpp m'
         + swizzled_address (mipWidth w bdim m') (mipHeight h bdim m')
             (mip_block_height (mipHeight h bdim m') bh0)
             (mip_block_depth (mipDepth d bdim m') (block_depth d)) bpp
             X' Y' Z') := by omega
  obtain ⟨hii, hxx⟩ := mul_add_lt_inj hwin hwin' heq
  obtain ⟨hmme, haddre⟩ := sum_decomp_inj (mipSwzSize w h d bdim bh0 bpp)
    m m' _ _ haddr haddr' hxx
  subst hii
  subst hmme
  obtain ⟨hXe, hYe, hZe⟩ := swizzled_address_inj (mipWidth w bdim m)
    (mipHeight h bdim m) (mip_block_height (mipHeight h bdim m) bh0)
    (mip_block_depth (mipDepth d bdim m) (block_depth d)) bpp X Y Z X' Y' Z'
    (mip_block_height_pos _ _ hbh0)
    (mip_block_depth_mem _ _ (block_depth_mem d)) hX hY hX' hY' haddre
  subst hXe
  subst hYe
  subst hZe
  rw [hv1, hv2]

theorem surface_writes_fn_deswizzle (w h d : Nat) (bdim : BlockDim)
    (bh0 bpp mc lc : Nat) (source : Array Nat) :
    ∀ k v v', (k, v) ∈ surface_writes true w h d bdim bh0 bpp mc lc source →
      (k, v') ∈ surface_writes true w h d bdim bh0 bpp mc lc source →
      v = v' := by
  intro k v v' hm1 hm2
  rcases (mem_surface_writes_deswizzle w h d bdim bh0 bpp mc lc source _).mp
    hm1 with ⟨i, m, X, Y, Z, hi, hmm, hX, hY, hZ, he⟩
  rcases (mem_surface_writes_deswizzle w h d bdim bh0 bpp mc lc source _).mp
    hm2 with ⟨i', m', X', Y', Z', hi', hmm', hX', hY', hZ', he'⟩
  rw [Prod.mk.injEq] at he he'
  obtain ⟨hk1, hv1⟩ := he
  obtain ⟨hk2, hv2⟩ := he'
  have haddr : linear_address (mipWidth w bdim m) (mipHeight h bdim m) bpp
      X Y Z < mipLinSize w h d bdim bpp m :=
    linear_address_lt (mipWidth w bdim m) (mipHeight h bdim m)
      (mipDepth d bdim m) bpp X Y Z hX hY hZ
  have haddr' : linear_address (mipWidth w bdim m') (mipHeight h bdim m') bpp
      X' Y' Z' < mipLinSize w h d bdim bpp m' :=
    linear_address_lt (mipWidth w bdim m') (mipHeight h bdim m')
      (mipDepth d bdim m') bpp X' Y' Z' hX' hY' hZ'
  have hwin := lin_window_lt w h d bdim bpp mc m _ hmm haddr
  have hwin' := lin_window_lt w h d bdim bpp mc m' _ hmm' haddr'
  unfold surfaceLinOffset at hk1 hk2
  have heq : i * linSizeSum w h d bdim bpp mc
      + (linSizeSum w h d bdim bpp m
         + linear_address (mipWidth w bdim m) (mipHeight h bdim m) bpp X Y Z)
      = i' * linSizeSum w h d bdim bpp mc
      + (linSizeSum w h d bdim bpp m'
         + linear_address (mipWidth w bdim m') (mipHeight h bdim m') bpp
             X' Y' Z') := by omega
  obtain ⟨hii, hxx⟩ := mul_add_lt_inj hwin hwin' heq
  obtain ⟨hmme, haddre⟩ := sum_decomp_inj (mipLinSize w h d bdim bpp)
    m m' _ _ haddr haddr' hxx
  subst hii
  subst hmme
  obtain ⟨hXe, hYe, hZe⟩ := linear_address_inj (mipWidth w bdim m)
    (mipHeight h bdim m) bpp X Y Z X' Y' Z' hX hY hX' hY' haddre
  subst hXe
  subst hYe
  subst hZe
  rw [hv1, hv2]

theorem surface_lin_decomp (w h d : Nat) (bdim : BlockDim)
    (bpp mc lc j : Nat)
    (hj : j < deswizzled_surface_size w h d bdim bpp mc lc) :
    ∃ i m X Y Z, i < lc ∧ m < mc ∧ X < mipWidth w bdim m * bpp
      ∧ Y < mipHeight h bdim m ∧ Z < mipDepth d bdim m
      ∧ j = surfaceLinOffset w h d bdim bpp mc i m
          + linear_address (mipWidth w bdim m) (mipHeight h bdim m) bpp
              X Y Z := by
  rw [deswizzled_surface_size_eq] at hj
  rcases Nat.eq_zero_or_pos (linSizeSum w h d bdim bpp mc) with hL0 | hLpos
  · rw [hL0, Nat.zero_mul] at hj
    omega
  · have hdm := Nat.div_add_mod j (linSizeSum w h d bdim bpp mc)
    have hcomm : linSizeSum w h d bdim bpp mc * lc
        = lc * linSizeSum w h d bdim bpp mc := Nat.mul_comm _ _
    have hiB : j / linSizeSum w h d bdim bpp mc < lc := by
      rw [Nat.div_lt_iff_lt_mul hLpos]
      omega
    have hmod : j % linSizeSum w h d bdim bpp mc
        < linSizeSum w h d bdim bpp mc := Nat.mod_lt _ hLpos
    have hx' : j % linSizeSum w h d bdim bpp mc
        < ((List.range mc).map (mipLinSize w h d bdim bpp)).sum := hmod
    rcases sum_decomp _ mc _ hx' with ⟨m, r, hmlt, hr, hxe⟩
    rcases linear_address_cover (mipWidth w bdim m) (mipHeight h bdim m)
      (mipDepth d bdim m) bpp r hr with ⟨X, Y, Z, hXb, hYb, hZb, hlin⟩
    refine ⟨j / linSizeSum w h d bdim bpp mc, m, X, Y, Z, hiB, hmlt, hXb,
      hYb, hZb, ?_⟩
    unfold surfaceLinOffset
    rw [hlin]
    have hse : linSizeSum w h d bdim bpp m
        = ((List.range m).map (mipLinSize w h d bdim bpp)).sum := rfl
    have hcm : linSizeSum w h d bdim bpp mc
          * (j / linSizeSum w h d bdim bpp mc)
        = j / linSizeSum w h d bdim bpp mc * linSizeSum w h d bdim bpp mc :=
      Nat.mul_comm _ _
    omega

-- C1 --------------------------------------------------------------------------

/-- C1: for every valid surface descriptor (positive dimensions, bpp in
1..16, at least one mip and one layer, valid supplied block height) and
every source buffer b of exactly deswizzled_surface_size bytes,
deswizzle_surface undoes swizzle_surface: both calls succeed and the first
b.size bytes of the final buffer equal b. -/
theorem surface_roundtrip (width height depth : Nat) (b : Array Nat)
    (bdim : BlockDim) (sup : Option Nat) (bpp mc lc : Nat)
    (hw : 0 < width) (hh : 0 < height) (hdp : 0 < depth)
    (hbpp1 : 1 ≤ bpp) (hbpp16 : bpp ≤ 16) (hmc : 1 ≤ mc) (hlc : 1 ≤ lc)
    (hsup : ∀ v ∈ sup, validBlockHeight v)
    (hsize : b.size
      = deswizzled_surface_size width height depth bdim bpp mc lc) :
    ∃ sw rt,
      swizzle_surface width height depth b bdim sup bpp mc lc = .ok sw
      ∧ deswizzle_surface width height depth sw bdim sup bpp mc lc = .ok rt
      ∧ ∀ j, j < b.size → rt.getD j 0 = b.getD j 0 := by
  have hbh0' := surface_block_height_mip0_pos depth sup height bdim.height
    hsup
  have hge : deswizzled_surface_size width height depth bdim bpp mc lc
      ≤ b.size := le_of_eq hsize.symm
  have hsw := swizzle_surface_ok width height depth b bdim sup bpp mc lc hge
  have hSWsize : (writes (Array.mkArray
      (swizzled_surface_size width height depth bdim sup bpp mc lc) 0)
      (surface_writes false width height depth bdim
        (surface_block_height_mip0 depth sup height bdim.height) bpp mc lc
        b)).size
      = swizzled_surface_size width height depth bdim sup bpp mc lc := by
    rw [size_writes, Array.size_mkArray]
  have hdsw := deswizzle_surface_ok width height depth
    (writes (Array.mkArray
      (swizzled_surface_size width height depth bdim sup bpp mc lc) 0)
      (surface_writes false width height depth bdim
        (surface_block_height_mip0 depth sup height bdim.height) bpp mc lc
        b))
    bdim sup bpp mc lc hbh0' (le_of_eq hSWsize.symm)
  obtain ⟨bh0, hbh0e⟩ : ∃ x,
      surface_block_height_mip0 depth sup height bdim.height = x := ⟨_, rfl⟩
  rw [hbh0e] at hbh0' hsw hdsw
  obtain ⟨SW, hSWe⟩ : ∃ A,
      writes (Array.mkArray
        (swizzled_surface_size width height depth bdim sup bpp mc lc) 0)
        (surface_writes false width height depth bdim bh0 bpp mc lc b)
      = A := ⟨_, rfl⟩
  rw [hSWe] at hsw hdsw
  refine ⟨_, _, hsw, hdsw, ?_⟩
  intro j hj
  rw [hsize] at hj
  rcases surface_lin_decomp width height depth bdim bpp mc lc j hj
    with ⟨i, m, X, Y, Z, hi, hm, hX, hY, hZ, hje⟩
  have haddrlt := surf_swz_addr_lt width height depth bdim bh0 bpp m X Y Z
    hbh0' hX hY hZ
  have hkeylt : surfaceSwzOffset width height depth bdim bh0 bpp mc i m
      + swizzled_address (mipWidth width bdim m) (mipHeight height bdim m)
          (mip_block_height (mipHeight height bdim m) bh0)
          (mip_block_depth (mipDepth depth bdim m) (block_depth depth)) bpp
          X Y Z
      < swizzled_surface_size width height depth bdim sup bpp mc lc := by
    have hsb := surfaceSwzOffset_bound width height depth bdim bh0 bpp mc lc
      i m hi hm hbh0'
    have hswz_eq := swizzled_surface_size_eq width height depth bdim sup bpp
      mc lc
    rw [hbh0e] at hswz_eq
    have hAA : alignedLayerSwzSize width height depth bdim bh0 bpp mc
        = align_layer_size (swzSizeSum width height depth bdim bh0 bpp mc)
          height depth bh0 1 := rfl
    rw [← hAA] at hswz_eq
    omega
  have hmem_sw : (surfaceSwzOffset width height depth bdim bh0 bpp mc i m
      + swizzled_address (mipWidth width bdim m) (mipHeight height bdim m)
          (mip_block_height (mipHeight height bdim m) bh0)
          (mip_block_depth (mipDepth depth bdim m) (block_depth depth)) bpp
          X Y Z,
      b.getD (surfaceLinOffset width height depth bdim bpp mc i m
        + linear_address (mipWidth width bdim m) (mipHeight height bdim m)
            bpp X Y Z) 0)
      ∈ surface_writes false width height depth bdim bh0 bpp mc lc b :=
    (mem_surface_writes_swizzle width height depth bdim bh0 bpp mc lc b
      _).mpr ⟨i, m, X, Y, Z, hi, hm, hX, hY, hZ, rfl⟩
  have hswval : SW.getD
      (surfaceSwzOffset width height depth bdim bh0 bpp mc i m
        + swizzled_address (mipWidth width bdim m) (mipHeight height bdim m)
            (mip_block_height (mipHeight height bdim m) bh0)
            (mip_block_depth (mipDepth depth bdim m) (block_depth depth)) bpp
            X Y Z) 0
      = b.getD (surfaceLinOffset width height depth bdim bpp mc i m
        + linear_address (mipWidth width bdim m) (mipHeight height bdim m)
            bpp X Y Z) 0 := by
    rw [← hSWe]
    exact getD_writes_fn _ _ _ _
      (fun v' hv' => surface_writes_fn_swizzle width height depth bdim bh0
        bpp mc lc b hbh0' _ v' _ hv' hmem_sw)
      hmem_sw (by rw [Array.size_mkArray]; exact hkeylt)
  have hmem_rt : (j, SW.getD
      (surfaceSwzOffset width height depth bdim bh0 bpp mc i m
        + swizzled_address (mipWidth width bdim m) (mipHeight height bdim m)
            (mip_block_height (mipHeight height bdim m) bh0)
            (mip_block_depth (mipDepth depth bdim m) (block_depth depth)) bpp
            X Y Z) 0)
      ∈ surface_writes true width height depth bdim bh0 bpp mc lc SW :=
    (mem_surface_writes_deswizzle width height depth bdim bh0 bpp mc lc SW
      _).mpr ⟨i, m, X, Y, Z, hi, hm, hX, hY, hZ, by
        rw [Prod.mk.injEq]
        exact ⟨hje, rfl⟩⟩
  have hrtval : (writes (Array.mkArray
      (deswizzled_surface_size width height depth bdim bpp mc lc) 0)
      (surface_writes true width height depth bdim bh0 bpp mc lc SW)).getD
        j 0
      = SW.getD (surfaceSwzOffset width height depth bdim bh0 bpp mc i m
        + swizzled_address (mipWidth width bdim m) (mipHeight height bdim m)
            (mip_block_height (mipHeight height bdim m) bh0)
            (mip_block_depth (mipDepth depth bdim m) (block_depth depth)) bpp
            X Y Z) 0 :=
    getD_writes_fn _ _ _ _
      (fun v' hv' => surface_writes_fn_deswizzle width height depth bdim bh0
        bpp mc lc SW _ v' _ hv' hmem_rt)
      hmem_rt (by rw [Array.size_mkArray]; exact hj)
  rw [hrtval, hswval, ← hje]

/-- Witness for C1 at a 1x1x1 single-mip single-layer surface. -/
theorem surface_roundtrip_witness :
    ((0 : Nat) < 1 ∧ (1 : Nat) ≤ 1 ∧ (1 : Nat) ≤ 16
        ∧ (∀ v ∈ (none : Option Nat), validBlockHeight v)
        ∧ (#[7] : Array Nat).size
            = deswizzled_surface_size 1 1 1 ⟨1, 1, 1⟩ 1 1 1)
      ∧ ∃ sw rt,
          swizzle_surface 1 1 1 #[7] ⟨1, 1, 1⟩ none 1 1 1 = .ok sw
          ∧ deswizzle_surface 1 1 1 sw ⟨1, 1, 1⟩ none 1 1 1 = .ok rt
          ∧ ∀ j, j < (#[7] : Array Nat).size →
              rt.getD j 0 = (#[7] : Array Nat).getD j 0 :=
  ⟨⟨by decide, by decide, by decide, by simp, by decide⟩,
   surface_roundtrip 1 1 1 #[7] ⟨1, 1, 1⟩ none 1 1 1 (by decide) (by decide)
     (by decide) (by decide) (by decide) (by decide) (by decide) (by simp)
     (by decide)⟩
